import Mathlib

/-! Wireless head tracker: MPU transport, firmware loader, FIFO reader, bias calibration.

A shallow embedding of `src/tracker/mpu_simple.c`.

* The raw I2C driver (`i2c.h`) is an external collaborator.  It is an arbitrary
  deterministic device `I2cBus σ` over a state type `σ`; every call of the driver is
  appended to a trace of `BusOp`s, so claims about "which transactions are issued"
  are statements about that trace.
* `uint8_t` values are naturals reduced `% 256`, `uint16_t` values naturals reduced
  `% 65536`, `int16_t` values integers wrapped by `wrap16`.
* A C buffer passed as pointer plus length is a list of that length.  After a failed
  read the buffer content is unspecified in C; here it is whatever the device supplies.
* Loops whose number of passes is not bounded by the source (the loading loop, the
  queue drain) take a bound `fuel` and return `none` when it is exhausted; results
  about them state a bound that suffices.
* The register addresses of `mpu_regs.h` and the image and blob addresses of
  `mpu_dmp_firmware.h` are not part of the sources at hand: they are parameters
  (`MpuRegs`, `MpuCtlRegs`, `DmpKeys`, `dmp_memory`).
* The interrupt line `MPU_IRQ` is an input: `irq n` is the level at the `n`-th
  sampling of the pin; each wait on it takes a bound on its samplings.
* The settings service (`tracker_settings.h`) is an external collaborator
  `SettingsSvc τ`.  Calls of `delay_ms` and `save_tracker_settings` are recorded in
  `World.calls`, each with the number of bus transactions issued before it.
-/

namespace MpuSimple

/-! ## Bus model -/

/-- Register addresses and the device address declared in `mpu_regs.h`. -/
structure MpuRegs where
  MPU_ADDR : Nat
  BANK_SEL : Nat
  MEM_R_W : Nat
  PRGM_START_H : Nat
  FIFO_COUNT_H : Nat
  FIFO_R_W : Nat
deriving DecidableEq, Repr

/-- The external I2C driver: `i2c_write dev reg data` and `i2c_read dev reg len`
on a device with state `σ`.  A read delivers the byte stored at each buffer index. -/
structure I2cBus (σ : Type) where
  i2c_write : σ → Nat → Nat → List Nat → Bool × σ
  i2c_read : σ → Nat → Nat → Nat → Bool × (Nat → Nat) × σ

/-- One transaction requested from the driver. -/
inductive BusOp where
  | write (dev reg : Nat) (data : List Nat)
  | read (dev reg len : Nat)
deriving DecidableEq, Repr

/-- The register a transaction addresses. -/
def BusOp.reg : BusOp → Nat
  | .write _ r _ => r
  | .read _ r _ => r

/-- Device state together with the transactions issued so far (oldest first). -/
structure Sys (σ : Type) where
  dev : σ
  trace : List BusOp

/-- Result of a call that fills a buffer. -/
structure ReadRes (σ : Type) where
  ok : Bool
  buf : List Nat
  sys : Sys σ

/-- `i2c_write(dev, reg, length, data)`, recorded in the trace. -/
def i2c_write {σ : Type} (B : I2cBus σ) (s : Sys σ) (dev reg : Nat) (data : List Nat) :
    Bool × Sys σ :=
  let r := B.i2c_write s.dev dev reg data
  (r.1, { dev := r.2, trace := s.trace ++ [BusOp.write dev reg data] })

/-- `i2c_read(dev, reg, len, buf)`, recorded in the trace; the buffer holds `len`
bytes of type `uint8_t`. -/
def i2c_read {σ : Type} (B : I2cBus σ) (s : Sys σ) (dev reg len : Nat) : ReadRes σ :=
  let r := B.i2c_read s.dev dev reg len
  { ok := r.1
    buf := (List.range len).map (fun i => r.2.1 i % 256)
    sys := { dev := r.2.2, trace := s.trace ++ [BusOp.read dev reg len] } }

/-! ## Transport: bank-addressed memory -/

/-- `mpu_write_mem(mem_addr, length, data2write)`. -/
def mpu_write_mem {σ : Type} (R : MpuRegs) (B : I2cBus σ) (s : Sys σ) (mem_addr : Nat)
    (data2write : List Nat) : Bool × Sys σ :=
  let tmp0 := ((mem_addr % 65536) >>> 8) % 256
  let tmp1 := ((mem_addr % 65536) &&& 0xFF) % 256
  let r1 := i2c_write B s R.MPU_ADDR R.BANK_SEL [tmp0, tmp1]
  if !r1.1 then (false, r1.2)
  else
    let r2 := i2c_write B r1.2 R.MPU_ADDR R.MEM_R_W data2write
    if !r2.1 then (false, r2.2) else (true, r2.2)

/-- `mpu_read_mem(mem_addr, length, data2read)`.  When the bank select fails the
caller's buffer `data2read` is left as it was. -/
def mpu_read_mem {σ : Type} (R : MpuRegs) (B : I2cBus σ) (s : Sys σ) (mem_addr length : Nat)
    (data2read : List Nat) : ReadRes σ :=
  let tmp0 := ((mem_addr % 65536) >>> 8) % 256
  let tmp1 := ((mem_addr % 65536) &&& 0xFF) % 256
  let r1 := i2c_write B s R.MPU_ADDR R.BANK_SEL [tmp0, tmp1]
  if !r1.1 then { ok := false, buf := data2read, sys := r1.2 }
  else
    let r2 := i2c_read B r1.2 R.MPU_ADDR R.MEM_R_W length
    if !r2.ok then { ok := false, buf := r2.buf, sys := r2.sys }
    else { ok := true, buf := r2.buf, sys := r2.sys }

/-! ## Packet reader -/

/-- Conversion of a 16-bit pattern to `int16_t`. -/
def to_int16 (n : Nat) : Int :=
  if n % 65536 < 32768 then ((n % 65536 : Nat) : Int) else ((n % 65536 : Nat) : Int) - 65536

/-- The packet type `mpu_packet_t` (fields as used by `dmp_read_fifo`). -/
structure mpu_packet_t where
  quat : List Int
  accel : List Int
  gyro : List Int
deriving DecidableEq, Repr

/-- Record length `PACKET_LENGTH`. -/
def PACKET_LENGTH : Nat := 32

/-- Result of `mpu_read_fifo_stream`: return value, buffer, `*more`, system. -/
structure StreamRes (σ : Type) where
  ok : Bool
  buf : List Nat
  more : Nat
  sys : Sys σ

/-- `mpu_read_fifo_stream(length, buffer, more)`. -/
def mpu_read_fifo_stream {σ : Type} (R : MpuRegs) (B : I2cBus σ) (s : Sys σ) (length : Nat)
    (buffer : List Nat) (more : Nat) : StreamRes σ :=
  let r := i2c_read B s R.MPU_ADDR R.FIFO_COUNT_H 2
  if !r.ok then { ok := false, buf := buffer, more := more, sys := r.sys }
  else
    let fifo_count := ((r.buf.getD 0 0 <<< 8) ||| r.buf.getD 1 0) % 65536
    if fifo_count == 0 then { ok := false, buf := buffer, more := 0, sys := r.sys }
    else if fifo_count % length != 0 then
      { ok := false, buf := buffer, more := more, sys := r.sys }
    else
      let d := i2c_read B r.sys R.MPU_ADDR R.FIFO_R_W length
      if !d.ok then { ok := false, buf := d.buf, more := more, sys := d.sys }
      else
        { ok := true, buf := d.buf, more := if fifo_count != length then 1 else 0,
          sys := d.sys }

/-- The three unpacking loops of `dmp_read_fifo` applied to the record `fifo_data`. -/
def dmp_unpack (fifo_data : List Nat) : mpu_packet_t :=
  { quat := (List.range 4).map
      (fun i => to_int16 ((fifo_data.getD (i * 4) 0 <<< 8) ||| fifo_data.getD (1 + i * 4) 0))
    accel := (List.range 3).map
      (fun i => to_int16 ((fifo_data.getD (16 + i * 2) 0 <<< 8) ||| fifo_data.getD (17 + i * 2) 0))
    gyro := (List.range 3).map
      (fun i => to_int16 ((fifo_data.getD (22 + i * 2) 0 <<< 8) ||| fifo_data.getD (23 + i * 2) 0)) }

/-- Result of `dmp_read_fifo`: return value, `*pckt`, `*more`, system. -/
structure FifoRes (σ : Type) where
  ok : Bool
  pckt : mpu_packet_t
  more : Nat
  sys : Sys σ

/-- `dmp_read_fifo(pckt, more)`; `fifo_data` is the initial content of the local
record buffer. -/
def dmp_read_fifo {σ : Type} (R : MpuRegs) (B : I2cBus σ) (s : Sys σ) (pckt : mpu_packet_t)
    (more : Nat) (fifo_data : List Nat) : FifoRes σ :=
  let r := mpu_read_fifo_stream R B s PACKET_LENGTH fifo_data more
  if !r.ok then { ok := false, pckt := pckt, more := r.more, sys := r.sys }
  else { ok := true, pckt := dmp_unpack r.buf, more := r.more, sys := r.sys }

/-! ## Firmware loader -/

/-- Chunk size `LOAD_CHUNK`. -/
def LOAD_CHUNK : Nat := 16

/-- Entry address `START_ADDR`. -/
def START_ADDR : Nat := 0x0400

/-- The test `memcmp(a, b, n) != 0`. -/
def memcmp_ne (a b : List Nat) (n : Nat) : Bool :=
  a.take n != b.take n

/-- Result of one pass through the body of the loading loop. -/
structure ChunkRes (σ : Type) where
  ok : Bool
  cur : List Nat
  sys : Sys σ

/-- The size `this_write` computed at offset `ii` for an image of `size` bytes. -/
def this_write (size ii : Nat) : Nat :=
  if (size - ii) % 65536 > LOAD_CHUNK then LOAD_CHUNK else (size - ii) % 65536

/-- Body of the loop of `dmp_load_firmware` at offset `ii`: write the chunk, read
it back into `cur`, compare. -/
def dmp_load_chunk {σ : Type} (R : MpuRegs) (B : I2cBus σ) (dmp_memory : List Nat) (ii : Nat)
    (cur : List Nat) (s : Sys σ) : ChunkRes σ :=
  let tw := this_write dmp_memory.length ii
  let w := mpu_write_mem R B s ii ((dmp_memory.drop ii).take tw)
  if !w.1 then { ok := false, cur := cur, sys := w.2 }
  else
    let r := mpu_read_mem R B w.2 ii tw cur
    if !r.ok then { ok := false, cur := r.buf, sys := r.sys }
    else if memcmp_ne (dmp_memory.drop ii) r.buf tw then
      { ok := false, cur := r.buf, sys := r.sys }
    else { ok := true, cur := r.buf, sys := r.sys }

/-- The loop `for (ii = 0; ii < DMP_CODE_SIZE; ii += this_write)` of
`dmp_load_firmware`, started at `ii`, with a bound `fuel` on the number of passes.
The result is `none` when the bound is exhausted, `some (false, _)` when a pass
returned `false`, and `some (true, _)` when the loop condition became false. -/
def dmp_load_chunks {σ : Type} (R : MpuRegs) (B : I2cBus σ) (dmp_memory : List Nat) :
    Nat → Nat → List Nat → Sys σ → Option (Bool × Sys σ)
  | 0, ii, _, s => if ii < dmp_memory.length then none else some (true, s)
  | fuel + 1, ii, cur, s =>
    if ii < dmp_memory.length then
      let c := dmp_load_chunk R B dmp_memory ii cur s
      if !c.ok then some (false, c.sys)
      else
        dmp_load_chunks R B dmp_memory fuel
          ((ii + this_write dmp_memory.length ii) % 65536) c.cur c.sys
    else some (true, s)

/-- `dmp_load_firmware()` for the image `dmp_memory` (with
`DMP_CODE_SIZE = dmp_memory.length`); `cur` is the initial content of the local
readback buffer. -/
def dmp_load_firmware {σ : Type} (R : MpuRegs) (B : I2cBus σ) (dmp_memory : List Nat)
    (fuel : Nat) (cur : List Nat) (s : Sys σ) : Option (Bool × Sys σ) :=
  match dmp_load_chunks R B dmp_memory fuel 0 cur s with
  | none => none
  | some (false, s1) => some (false, s1)
  | some (true, s1) =>
    let tmp0 := (START_ADDR >>> 8) % 256
    let tmp1 := (START_ADDR &&& 0xFF) % 256
    let r := i2c_write B s1 R.MPU_ADDR R.PRGM_START_H [tmp0, tmp1]
    if !r.1 then some (false, r.2) else some (true, r.2)

/-! ## Bias registers and calibration -/

/-- Wrap-around of an integer to the range of `int16_t`. -/
def wrap16 (x : Int) : Int :=
  (x + 32768) % 65536 - 32768

/-- An array `int16_t v[3]`. -/
structure Vec3 where
  x0 : Int
  x1 : Int
  x2 : Int
deriving DecidableEq, Repr

/-- Element `v[i]` for `i = 0, 1, 2`. -/
def Vec3.get (v : Vec3) (i : Nat) : Int :=
  match i with
  | 0 => v.x0
  | 1 => v.x1
  | _ => v.x2

/-- The byte `(v >> 8) & 0xff` of a 16-bit two's complement value. -/
def hi_byte (v : Int) : Nat :=
  ((v / 256) % 256).toNat

/-- The byte `v & 0xff` of a 16-bit two's complement value. -/
def lo_byte (v : Int) : Nat :=
  (v % 256).toNat

/-- `mpu_set_gyro_bias(gyro_bias)`: three 2-byte writes at `0x13 + 2 * i`; the
results of the writes are ignored. -/
def mpu_set_gyro_bias {σ : Type} (R : MpuRegs) (B : I2cBus σ) (s : Sys σ) (gyro_bias : Vec3) :
    Sys σ :=
  let s0 := (i2c_write B s R.MPU_ADDR (0x13 + 2 * 0)
    [hi_byte (gyro_bias.get 0), lo_byte (gyro_bias.get 0)]).2
  let s1 := (i2c_write B s0 R.MPU_ADDR (0x13 + 2 * 1)
    [hi_byte (gyro_bias.get 1), lo_byte (gyro_bias.get 1)]).2
  (i2c_write B s1 R.MPU_ADDR (0x13 + 2 * 2)
    [hi_byte (gyro_bias.get 2), lo_byte (gyro_bias.get 2)]).2

/-- `mpu_read_accel_bias(accel_bias)`: three 2-byte reads at `0x06 + i * 2`; the
results of the reads are ignored and the bytes in the buffer are used as they are. -/
def mpu_read_accel_bias {σ : Type} (R : MpuRegs) (B : I2cBus σ) (s : Sys σ) : Vec3 × Sys σ :=
  let r0 := i2c_read B s R.MPU_ADDR (0x06 + 0 * 2) 2
  let r1 := i2c_read B r0.sys R.MPU_ADDR (0x06 + 1 * 2) 2
  let r2 := i2c_read B r1.sys R.MPU_ADDR (0x06 + 2 * 2) 2
  ({ x0 := to_int16 ((r0.buf.getD 0 0 <<< 8) ||| r0.buf.getD 1 0)
     x1 := to_int16 ((r1.buf.getD 0 0 <<< 8) ||| r1.buf.getD 1 0)
     x2 := to_int16 ((r2.buf.getD 0 0 <<< 8) ||| r2.buf.getD 1 0) }, r2.sys)

/-- `mpu_set_accel_bias(accel_bias)`: three 2-byte writes at `0x06 + i * 2`; the
results of the writes are ignored. -/
def mpu_set_accel_bias {σ : Type} (R : MpuRegs) (B : I2cBus σ) (s : Sys σ) (accel_bias : Vec3) :
    Sys σ :=
  let s0 := (i2c_write B s R.MPU_ADDR (0x06 + 0 * 2)
    [hi_byte (accel_bias.get 0), lo_byte (accel_bias.get 0)]).2
  let s1 := (i2c_write B s0 R.MPU_ADDR (0x06 + 1 * 2)
    [hi_byte (accel_bias.get 1), lo_byte (accel_bias.get 1)]).2
  (i2c_write B s1 R.MPU_ADDR (0x06 + 2 * 2)
    [hi_byte (accel_bias.get 2), lo_byte (accel_bias.get 2)]).2

/-- The accelerometer part of the correction in `mpu_calibrate_bias`. -/
def accel_correct (accel_step : Int) (pckt : mpu_packet_t) (accel_bias : Vec3) : Vec3 :=
  { x0 :=
      if pckt.accel.getD 0 0 ≥ 1 then wrap16 (accel_bias.x0 - accel_step)
      else if pckt.accel.getD 0 0 ≤ -1 then wrap16 (accel_bias.x0 + accel_step)
      else accel_bias.x0
    x1 :=
      if pckt.accel.getD 1 0 ≥ 1 then wrap16 (accel_bias.x1 - accel_step)
      else if pckt.accel.getD 1 0 ≤ -1 then wrap16 (accel_bias.x1 + accel_step)
      else accel_bias.x1
    x2 :=
      if pckt.accel.getD 2 0 > 0x4000 then wrap16 (accel_bias.x2 - accel_step)
      else if pckt.accel.getD 2 0 < 0x4000 then wrap16 (accel_bias.x2 + accel_step)
      else accel_bias.x2 }

/-- The gyro part of the correction in `mpu_calibrate_bias`. -/
def gyro_correct (pckt : mpu_packet_t) (gyro_bias : Vec3) : Vec3 :=
  { x0 :=
      if pckt.gyro.getD 0 0 > 1 then wrap16 (gyro_bias.x0 - 1)
      else if pckt.gyro.getD 0 0 < -1 then wrap16 (gyro_bias.x0 + 1)
      else gyro_bias.x0
    x1 :=
      if pckt.gyro.getD 1 0 > 1 then wrap16 (gyro_bias.x1 - 1)
      else if pckt.gyro.getD 1 0 < -1 then wrap16 (gyro_bias.x1 + 1)
      else gyro_bias.x1
    x2 :=
      if pckt.gyro.getD 2 0 > 1 then wrap16 (gyro_bias.x2 - 1)
      else if pckt.gyro.getD 2 0 < -1 then wrap16 (gyro_bias.x2 + 1)
      else gyro_bias.x2 }

/-- The variables of `mpu_calibrate_bias` that live across iterations, and the
system. -/
structure CalibState (σ : Type) where
  accel_step : Int
  pckt : mpu_packet_t
  more : Nat
  accel_bias : Vec3
  gyro_bias : Vec3
  sys : Sys σ

/-- The loop `do { dmp_read_fifo(&pckt, &more); } while (more);` with a bound `fuel`
on the number of calls; `none` when the bound is exhausted. -/
def drain_fifo {σ : Type} (R : MpuRegs) (B : I2cBus σ) :
    Nat → mpu_packet_t → Nat → Sys σ → Option (mpu_packet_t × Nat × Sys σ)
  | 0, _, _, _ => none
  | fuel + 1, pckt, more, s =>
    let r := dmp_read_fifo R B s pckt more []
    if r.more != 0 then drain_fifo R B fuel r.pckt r.more r.sys
    else some (r.pckt, r.more, r.sys)

/-- One iteration of the `for` loop of `mpu_calibrate_bias` with counter `scnt`.
The waits on the interrupt line and the debug output touch neither the bus nor these
variables and are left out here; the waits are part of `calib_loop_irq`. -/
def calib_iteration {σ : Type} (R : MpuRegs) (B : I2cBus σ) (fuel : Nat) (scnt : Nat)
    (st : CalibState σ) : Option (CalibState σ) :=
  let accel_step := if scnt == 40 then 2 else st.accel_step
  match drain_fifo R B fuel st.pckt st.more st.sys with
  | none => none
  | some (pckt, more, s1) =>
    let accel_bias := accel_correct accel_step pckt st.accel_bias
    let gyro_bias := gyro_correct pckt st.gyro_bias
    let s2 := mpu_set_gyro_bias R B s1 gyro_bias
    let s3 := mpu_set_accel_bias R B s2 accel_bias
    some { accel_step := accel_step, pckt := pckt, more := more, accel_bias := accel_bias,
           gyro_bias := gyro_bias, sys := s3 }

/-- The iterations `scnt, scnt + 1, ..., scnt + n - 1` of the `for` loop. -/
def calib_loop {σ : Type} (R : MpuRegs) (B : I2cBus σ) (fuel : Nat) :
    Nat → Nat → CalibState σ → Option (CalibState σ)
  | 0, _, st => some st
  | n + 1, scnt, st =>
    match calib_iteration R B fuel scnt st with
    | none => none
    | some st1 => calib_loop R B fuel n (scnt + 1) st1

/-- The part of `mpu_calibrate_bias` between `mpu_init()` and the `for` loop:
`accel_step = 10`, zeroed settings, the accel bias read from the device, the zero gyro
bias pushed to the device.  `pckt` and `more` are the values of the uninitialised
locals. -/
def calib_begin {σ : Type} (R : MpuRegs) (B : I2cBus σ) (s : Sys σ) (pckt : mpu_packet_t)
    (more : Nat) : CalibState σ :=
  let r := mpu_read_accel_bias R B s
  let gyro_bias : Vec3 := { x0 := 0, x1 := 0, x2 := 0 }
  let s1 := mpu_set_gyro_bias R B r.2 gyro_bias
  { accel_step := 10, pckt := pckt, more := more, accel_bias := r.1, gyro_bias := gyro_bias,
    sys := s1 }

/-- The state after the first `k` iterations of the `for` loop of
`mpu_calibrate_bias` (`k ≤ 100`; the whole loop is `k = 100`). -/
def calib_run {σ : Type} (R : MpuRegs) (B : I2cBus σ) (fuel : Nat) (k : Nat)
    (st : CalibState σ) : Option (CalibState σ) :=
  calib_loop R B fuel k 0 st

/-! ## Reference notions and concrete devices used in the statements -/

/-- The signed 16-bit big-endian value of the byte pair `hi`, `lo`. -/
def be16_signed (hi lo : Nat) : Int :=
  if hi < 128 then (hi : Int) * 256 + lo else (hi : Int) * 256 + lo - 65536

/-- Positions of a 32-byte record that carry the upper halves of the quaternion
components, the accelerations and the angular rates. -/
def used_positions : List Nat :=
  [0, 1, 4, 5, 8, 9, 12, 13, 16, 17, 18, 19, 20, 21, 22, 23, 24, 25, 26, 27]

/-- Register addresses of the MPU-6050 register map, for concrete runs. -/
def mpu6050_regs : MpuRegs :=
  { MPU_ADDR := 0x68, BANK_SEL := 0x6D, MEM_R_W := 0x6F, PRGM_START_H := 0x70,
    FIFO_COUNT_H := 0x72, FIFO_R_W := 0x74 }

/-- A stateless device whose queue count always reads `count` (when `ok_count`) and
whose data register always delivers `record` (when `ok_data`); writes succeed. -/
def fifo_bus (R : MpuRegs) (ok_count ok_data : Bool) (count : Nat) (record : List Nat) :
    I2cBus Unit :=
  { i2c_write := fun _ _ _ _ => (true, ())
    i2c_read := fun _ _ reg _ =>
      if reg = R.FIFO_COUNT_H then
        (ok_count, (fun i => if i = 0 then count / 256 else count % 256), ())
      else (ok_data, (fun i => record.getD i 0), ()) }

/-- The record of the unpacking test: quaternion upper halves
`0x0010, 0x0020, 0x0030, 0x0040`, accelerations `100, -50, 16384`, rates `0, 2, -3`;
the unused bytes are filled with `0xAA`. -/
def test_record : List Nat :=
  [0x00, 0x10, 0xAA, 0xAA, 0x00, 0x20, 0xAA, 0xAA, 0x00, 0x30, 0xAA, 0xAA, 0x00, 0x40, 0xAA, 0xAA,
   0x00, 0x64, 0xFF, 0xCE, 0x40, 0x00,
   0x00, 0x00, 0x00, 0x02, 0xFF, 0xFD,
   0xAA, 0xAA, 0xAA, 0xAA]

/-- An all-zero packet. -/
def zero_packet : mpu_packet_t :=
  { quat := [0, 0, 0, 0], accel := [0, 0, 0], gyro := [0, 0, 0] }

/-- A system with an empty trace. -/
def fresh {σ : Type} (d : σ) : Sys σ :=
  { dev := d, trace := [] }

/-- Number of chunks of an image of `n` bytes: `ceil(n / 16)`. -/
def chunk_count (n : Nat) : Nat :=
  (n + 15) / 16

/-- The `k`-th 16-byte chunk of an image (shorter at the end of the image). -/
def chunk (img : List Nat) (k : Nat) : List Nat :=
  (img.drop (16 * k)).take 16

/-- The four transactions of a complete pass for chunk `k`: bank select at address
`16 * k`, write of the chunk, bank select again, readback of as many bytes. -/
def chunk_ops (R : MpuRegs) (img : List Nat) (k : Nat) : List BusOp :=
  [BusOp.write R.MPU_ADDR R.BANK_SEL [(16 * k) >>> 8, (16 * k) &&& 0xFF],
   BusOp.write R.MPU_ADDR R.MEM_R_W (chunk img k),
   BusOp.write R.MPU_ADDR R.BANK_SEL [(16 * k) >>> 8, (16 * k) &&& 0xFF],
   BusOp.read R.MPU_ADDR R.MEM_R_W (chunk img k).length]

/-- The write of the entry address issued at the end of a successful load. -/
def entry_op (R : MpuRegs) : BusOp :=
  BusOp.write R.MPU_ADDR R.PRGM_START_H [0x04, 0x00]

/-- State of the loader after the passes for chunks `0 .. k-1` have been executed
one after the other, starting from `c`. -/
def after_chunks {σ : Type} (R : MpuRegs) (B : I2cBus σ) (img : List Nat) :
    Nat → ChunkRes σ → ChunkRes σ
  | 0, c => c
  | k + 1, c =>
    dmp_load_chunk R B img (16 * k) (after_chunks R B img k c).cur (after_chunks R B img k c).sys

/-- Whether the pass for chunk `k` succeeds (write, readback and comparison) in the
state reached after the passes for the chunks before it. -/
def chunk_passes {σ : Type} (R : MpuRegs) (B : I2cBus σ) (img : List Nat) (cur : List Nat)
    (s : Sys σ) (k : Nat) : Bool :=
  (after_chunks R B img (k + 1) { ok := true, cur := cur, sys := s }).ok

/-- Result of the banked write of chunk `k` in the state reached after the passes
for the chunks before it. -/
def chunk_write_ok {σ : Type} (R : MpuRegs) (B : I2cBus σ) (img : List Nat) (cur : List Nat)
    (s : Sys σ) (k : Nat) : Bool :=
  (mpu_write_mem R B (after_chunks R B img k { ok := true, cur := cur, sys := s }).sys (16 * k)
    (chunk img k)).1

/-- The readback of chunk `k` that follows its write. -/
def chunk_readback {σ : Type} (R : MpuRegs) (B : I2cBus σ) (img : List Nat) (cur : List Nat)
    (s : Sys σ) (k : Nat) : ReadRes σ :=
  mpu_read_mem R B
    (mpu_write_mem R B (after_chunks R B img k { ok := true, cur := cur, sys := s }).sys (16 * k)
      (chunk img k)).2
    (16 * k) (chunk img k).length (after_chunks R B img k { ok := true, cur := cur, sys := s }).cur

/-- A device on which every write succeeds and every banked read returns what was
written to the same address just before. -/
def Faithful {σ : Type} (R : MpuRegs) (B : I2cBus σ) : Prop :=
  (∀ st dev reg data, (B.i2c_write st dev reg data).1 = true) ∧
  ∀ (s : Sys σ) (a : Nat) (data cur : List Nat), a < 65536 → (∀ x ∈ data, x < 256) →
    (mpu_read_mem R B (mpu_write_mem R B s a data).2 a data.length cur).ok = true ∧
    (mpu_read_mem R B (mpu_write_mem R B s a data).2 a data.length cur).buf = data

/-- The payloads of the writes to `MEM_R_W` contained in a trace, in order. -/
def mem_writes (R : MpuRegs) (t : List BusOp) : List (List Nat) :=
  t.filterMap (fun op =>
    match op with
    | BusOp.write _ r d => if r = R.MEM_R_W then some d else none
    | BusOp.read _ _ _ => none)

/-- State of a memory device: the selected address and the memory content. -/
structure Ram where
  bank : Nat
  mem : Nat → Nat

/-- A banked memory: a write to `BANK_SEL` selects an address, a transfer at
`MEM_R_W` writes or reads memory from the selected address on.  When `bad = some x`
the byte at address `x` is read back corrupted. -/
def ram_bus (R : MpuRegs) (bad : Option Nat) : I2cBus Ram :=
  { i2c_write := fun st _ reg data =>
      if reg = R.BANK_SEL then (true, { st with bank := data.getD 0 0 * 256 + data.getD 1 0 })
      else if reg = R.MEM_R_W then
        (true, { st with mem := (fun i =>
          if st.bank ≤ i ∧ i < st.bank + data.length then data.getD (i - st.bank) 0
          else st.mem i) })
      else (true, st)
    i2c_read := fun st _ reg _ =>
      if reg = R.MEM_R_W then
        (true, (fun i => if bad = some (st.bank + i) then st.mem (st.bank + i) + 1
          else st.mem (st.bank + i)), st)
      else (true, (fun _ => 0), st) }

/-- An empty memory. -/
def ram0 : Ram :=
  { bank := 0, mem := fun _ => 0 }

/-- A 35-byte test image: two full chunks and a last chunk of 3 bytes. -/
def test_image : List Nat :=
  (List.range 35).map (fun i => (7 * i + 3) % 256)

/-- State of the synthetic device of the convergence test: the bias values currently
applied (last written to the bias registers). -/
structure SynthDev where
  accel_reg : Vec3
  gyro_reg : Vec3
deriving DecidableEq, Repr

/-- The record the synthetic device delivers: each reading is `gain` times
(true bias - applied bias) of its axis, the vertical acceleration offset by the 1 g
target `0x4000`; values are encoded as 16-bit two's complement, big-endian; the
quaternion and the unused bytes are zero. -/
def synth_record (gain : Int) (ta tg : Vec3) (d : SynthDev) : List Nat :=
  [0, 0, 0, 0, 0, 0, 0, 0, 0, 0, 0, 0, 0, 0, 0, 0,
   hi_byte (gain * (ta.x0 - d.accel_reg.x0)), lo_byte (gain * (ta.x0 - d.accel_reg.x0)),
   hi_byte (gain * (ta.x1 - d.accel_reg.x1)), lo_byte (gain * (ta.x1 - d.accel_reg.x1)),
   hi_byte (0x4000 + gain * (ta.x2 - d.accel_reg.x2)),
   lo_byte (0x4000 + gain * (ta.x2 - d.accel_reg.x2)),
   hi_byte (gain * (tg.x0 - d.gyro_reg.x0)), lo_byte (gain * (tg.x0 - d.gyro_reg.x0)),
   hi_byte (gain * (tg.x1 - d.gyro_reg.x1)), lo_byte (gain * (tg.x1 - d.gyro_reg.x1)),
   hi_byte (gain * (tg.x2 - d.gyro_reg.x2)), lo_byte (gain * (tg.x2 - d.gyro_reg.x2)),
   0, 0, 0, 0]

/-- The synthetic device of the convergence test, with constant of proportionality
`gain` and true biases `ta` (accelerometer) and `tg` (gyro).  Writes to the bias
registers `0x06, 0x08, 0x0A` and `0x13, 0x15, 0x17` set the applied bias; the queue
always holds exactly one record (count 32), computed from the applied bias; the accel
bias registers read back the applied accel bias.  Every transfer succeeds. -/
def synth_bus (R : MpuRegs) (gain : Int) (ta tg : Vec3) : I2cBus SynthDev :=
  { i2c_write := fun d _ reg data =>
      if reg = 0x06 then
        (true, { d with accel_reg :=
          { d.accel_reg with x0 := to_int16 (data.getD 0 0 * 256 + data.getD 1 0) } })
      else if reg = 0x08 then
        (true, { d with accel_reg :=
          { d.accel_reg with x1 := to_int16 (data.getD 0 0 * 256 + data.getD 1 0) } })
      else if reg = 0x0A then
        (true, { d with accel_reg :=
          { d.accel_reg with x2 := to_int16 (data.getD 0 0 * 256 + data.getD 1 0) } })
      else if reg = 0x13 then
        (true, { d with gyro_reg :=
          { d.gyro_reg with x0 := to_int16 (data.getD 0 0 * 256 + data.getD 1 0) } })
      else if reg = 0x15 then
        (true, { d with gyro_reg :=
          { d.gyro_reg with x1 := to_int16 (data.getD 0 0 * 256 + data.getD 1 0) } })
      else if reg = 0x17 then
        (true, { d with gyro_reg :=
          { d.gyro_reg with x2 := to_int16 (data.getD 0 0 * 256 + data.getD 1 0) } })
      else (true, d)
    i2c_read := fun d _ reg _ =>
      if reg = R.FIFO_COUNT_H then (true, (fun i => if i = 0 then 0 else 32), d)
      else if reg = R.FIFO_R_W then (true, (fun i => (synth_record gain ta tg d).getD i 0), d)
      else if reg = 0x06 then
        (true, (fun i => if i = 0 then hi_byte d.accel_reg.x0 else lo_byte d.accel_reg.x0), d)
      else if reg = 0x08 then
        (true, (fun i => if i = 0 then hi_byte d.accel_reg.x1 else lo_byte d.accel_reg.x1), d)
      else if reg = 0x0A then
        (true, (fun i => if i = 0 then hi_byte d.accel_reg.x2 else lo_byte d.accel_reg.x2), d)
      else (true, (fun _ => 0), d) }

/-- The queue registers are distinct from each other and from the accel bias
registers, so that the synthetic device can tell them apart. -/
def synth_regs_ok (R : MpuRegs) : Prop :=
  R.FIFO_COUNT_H ≠ R.FIFO_R_W ∧
  R.FIFO_COUNT_H ≠ 0x06 ∧ R.FIFO_COUNT_H ≠ 0x08 ∧ R.FIFO_COUNT_H ≠ 0x0A ∧
  R.FIFO_R_W ≠ 0x06 ∧ R.FIFO_R_W ≠ 0x08 ∧ R.FIFO_R_W ≠ 0x0A

/-- The packet unpacked from `synth_record` when the applied biases are `ab`, `gb`. -/
def synth_packet (gain : Int) (ta tg ab gb : Vec3) : mpu_packet_t :=
  { quat := [0, 0, 0, 0]
    accel := [wrap16 (gain * (ta.x0 - ab.x0)), wrap16 (gain * (ta.x1 - ab.x1)),
      wrap16 (0x4000 + gain * (ta.x2 - ab.x2))]
    gyro := [wrap16 (gain * (tg.x0 - gb.x0)), wrap16 (gain * (tg.x1 - gb.x1)),
      wrap16 (gain * (tg.x2 - gb.x2))] }

/-- All three components lie in the range of `int16_t`. -/
def Vec3.in_int16 (v : Vec3) : Prop :=
  (-32768 ≤ v.x0 ∧ v.x0 ≤ 32767) ∧ (-32768 ≤ v.x1 ∧ v.x1 ≤ 32767) ∧
  (-32768 ≤ v.x2 ∧ v.x2 ≤ 32767)

/-- Component-wise bound `|v[i] - t[i]| ≤ m`. -/
def Vec3.within (v t : Vec3) (m : Int) : Prop :=
  |v.x0 - t.x0| ≤ m ∧ |v.x1 - t.x1| ≤ m ∧ |v.x2 - t.x2| ≤ m

/-- The values `t[i] - m` and `t[i] + m` lie in the range of `int16_t`. -/
def Vec3.margin (t : Vec3) (m : Int) : Prop :=
  (-32768 ≤ t.x0 - m ∧ t.x0 + m ≤ 32767) ∧ (-32768 ≤ t.x1 - m ∧ t.x1 + m ≤ 32767) ∧
  (-32768 ≤ t.x2 - m ∧ t.x2 + m ≤ 32767)

/-- On the synthetic device: the bias values held by the calibration loop are the
ones applied in the device, and they are in the range of `int16_t`. -/
def synth_inv (st : CalibState SynthDev) : Prop :=
  st.sys.dev.accel_reg = st.accel_bias ∧ st.sys.dev.gyro_reg = st.gyro_bias ∧
  st.accel_bias.in_int16 ∧ st.gyro_bias.in_int16

/-- Value of the variable `accel_step` on entry to iteration `k`. -/
def entry_step (k : Nat) : Int :=
  if k ≤ 40 then 10 else 2

/-- The effect of iteration `scnt` on (`accel_step`, accel bias, gyro bias) when the
packet is the one the synthetic device computes from the applied biases. -/
def synth_step (gain : Int) (ta tg : Vec3) (scnt : Nat) (c : Int × Vec3 × Vec3) :
    Int × Vec3 × Vec3 :=
  ((if scnt = 40 then 2 else c.1),
   accel_correct (if scnt = 40 then 2 else c.1) (synth_packet gain ta tg c.2.1 c.2.2) c.2.1,
   gyro_correct (synth_packet gain ta tg c.2.1 c.2.2) c.2.2)

/-- The effect of the iterations `scnt, ..., scnt + n - 1` against the synthetic
device. -/
def synth_traj (gain : Int) (ta tg : Vec3) : Nat → Nat → Int × Vec3 × Vec3 → Int × Vec3 × Vec3
  | 0, _, c => c
  | n + 1, scnt, c => synth_traj gain ta tg n (scnt + 1) (synth_step gain ta tg scnt c)

/-- The synthetic device used for concrete calibration runs: gain -1, true accel
biases 100, -50, 30, true gyro biases 5, -3, 0. -/
def demo_bus : I2cBus SynthDev :=
  synth_bus mpu6050_regs (-1) { x0 := 100, x1 := -50, x2 := 30 } { x0 := 5, x1 := -3, x2 := 0 }

/-- The loop entry state of a concrete calibration run on `demo_bus`, all applied
biases zero. -/
def demo_start : CalibState SynthDev :=
  calib_begin mpu6050_regs demo_bus
    { dev := { accel_reg := { x0 := 0, x1 := 0, x2 := 0 },
               gyro_reg := { x0 := 0, x1 := 0, x2 := 0 } }, trace := [] }
    zero_packet 0

/-! ## Configuration, initialisation and the calibration routine -/

/-- Registers and constants of `mpu_regs.h` used by the reset and init sequences
(the header is not part of the sources at hand: parameters). -/
structure MpuCtlRegs where
  INT_ENABLE : Nat
  FIFO_EN : Nat
  USER_CTRL : Nat
  PWR_MGMT_1 : Nat
  PWR_MGMT_2 : Nat
  GYRO_CONFIG : Nat
  ACCEL_CONFIG : Nat
  SMPLRT_DIV : Nat
  CONFIG : Nat
  INT_PIN_CFG : Nat
  INV_FSR_2000DPS : Nat
  INV_FSR_2G : Nat
  INV_FILTER_20HZ : Nat
deriving DecidableEq, Repr

/-- Addresses in the banked memory at which the orientation and feature blobs are
written (declared in a header that is not part of the sources at hand: parameters). -/
structure DmpKeys where
  FCFG_1 : Nat
  FCFG_2 : Nat
  FCFG_3 : Nat
  FCFG_7 : Nat
  D_0_104 : Nat
  CFG_15 : Nat
  CFG_27 : Nat
  CFG_MOTION_BIAS : Nat
  CFG_GYRO_RAW_DATA : Nat
  CFG_20 : Nat
  CFG_ANDROID_ORIENT_INT : Nat
  CFG_LP_QUAT : Nat
  CFG_8 : Nat
  D_0_22 : Nat
  CFG_6 : Nat
deriving DecidableEq, Repr

/-- The fields of `tracker_settings_t` used by this file. -/
structure tracker_settings_t where
  is_calibrated : Nat
  gyro_bias : Vec3
  accel_bias : Vec3
  rf_power : Nat
deriving DecidableEq, Repr

/-- The external settings service over a state `τ`: `get_tracker_settings()` (`none`
for a null pointer) and `save_tracker_settings(p)`. -/
structure SettingsSvc (τ : Type) where
  get_tracker_settings : τ → Option tracker_settings_t
  save_tracker_settings : τ → tracker_settings_t → τ

/-- A call of an external routine other than the bus driver. -/
inductive ExtCall where
  | delay_ms (ms : Nat)
  | save_tracker_settings (p : tracker_settings_t)
deriving DecidableEq, Repr

/-- The bus system, the state of the settings service, and the external calls made so
far, each with the number of bus transactions that had been issued before it. -/
structure World (σ τ : Type) where
  sys : Sys σ
  svc : τ
  calls : List (Nat × ExtCall)

/-- `mpu_write_byte(reg_addr, val)`. -/
def mpu_write_byte {σ : Type} (R : MpuRegs) (B : I2cBus σ) (s : Sys σ) (reg_addr val : Nat) :
    Bool × Sys σ :=
  i2c_write B s R.MPU_ADDR reg_addr [val % 256]

/-- A call `mpu_write_byte(reg_addr, val);` whose result is ignored. -/
def write_reg {σ τ : Type} (R : MpuRegs) (B : I2cBus σ) (w : World σ τ) (reg_addr val : Nat) :
    World σ τ :=
  { w with sys := (mpu_write_byte R B w.sys reg_addr val).2 }

/-- A call `mpu_write_mem(mem_addr, sizeof arr, arr);` whose result is ignored. -/
def write_blob {σ τ : Type} (R : MpuRegs) (B : I2cBus σ) (w : World σ τ) (mem_addr : Nat)
    (arr : List Nat) : World σ τ :=
  { w with sys := (mpu_write_mem R B w.sys mem_addr arr).2 }

/-- `delay_ms(ms)`. -/
def delay_ms {σ τ : Type} (w : World σ τ) (ms : Nat) : World σ τ :=
  { w with calls := w.calls ++ [(w.sys.trace.length, ExtCall.delay_ms ms)] }

/-- `dmp_set_orientation()`: the four writes joined by `&&`. -/
def dmp_set_orientation {σ : Type} (R : MpuRegs) (K : DmpKeys) (B : I2cBus σ) (s : Sys σ) :
    Bool × Sys σ :=
  let r1 := mpu_write_mem R B s K.FCFG_1 [0xCD, 0x4C, 0x6C]
  if !r1.1 then (false, r1.2)
  else
    let r2 := mpu_write_mem R B r1.2 K.FCFG_2 [0xC9, 0x0C, 0x2C]
    if !r2.1 then (false, r2.2)
    else
      let r3 := mpu_write_mem R B r2.2 K.FCFG_3 [0x36, 0x57, 0x76]
      if !r3.1 then (false, r3.2)
      else
        let r4 := mpu_write_mem R B r3.2 K.FCFG_7 [0x26, 0x47, 0x66]
        (r4.1, r4.2)

/-- `reset_fifo()`. -/
def reset_fifo {σ τ : Type} (R : MpuRegs) (C : MpuCtlRegs) (B : I2cBus σ) (w : World σ τ) :
    World σ τ :=
  let w1 := write_reg R B w C.INT_ENABLE 0x00
  let w2 := write_reg R B w1 C.FIFO_EN 0x00
  let w3 := write_reg R B w2 C.USER_CTRL 0x00
  let w4 := write_reg R B w3 C.USER_CTRL 0x04
  let w5 := write_reg R B w4 C.USER_CTRL 0x40
  let w6 := delay_ms w5 50
  let w7 := write_reg R B w6 C.INT_ENABLE 0x01
  write_reg R B w7 C.FIFO_EN 0x78

/-- `dmp_enable_feature()`; it has no result. -/
def dmp_enable_feature {σ τ : Type} (R : MpuRegs) (C : MpuCtlRegs) (K : DmpKeys) (B : I2cBus σ)
    (w : World σ τ) : World σ τ :=
  let w1 := write_blob R B w K.D_0_104 [0x02, 0xca, 0xe3, 0x09]
  let w2 := write_blob R B w1 K.CFG_15 [0xa3, 0xc0, 0xc8, 0xc2, 0xc4, 0xcc, 0xc6, 0xa3, 0xa3, 0xa3]
  let w3 := write_blob R B w2 K.CFG_27 [0x20]
  let w4 := write_blob R B w3 K.CFG_MOTION_BIAS
    [0xb8, 0xaa, 0xaa, 0xaa, 0xb0, 0x88, 0xc3, 0xc5, 0xc7]
  let w5 := write_blob R B w4 K.CFG_GYRO_RAW_DATA [0xB0, 0x80, 0xB4, 0x90]
  let w6 := write_blob R B w5 K.CFG_20 [0xf8]
  let w7 := write_blob R B w6 K.CFG_ANDROID_ORIENT_INT [0xd8]
  let w8 := write_blob R B w7 K.CFG_LP_QUAT [0x8b, 0x8b, 0x8b, 0x8b]
  let w9 := write_blob R B w8 K.CFG_8 [0x20, 0x28, 0x30, 0x38]
  let w10 := reset_fifo R C B w9
  let w11 := write_blob R B w10 K.D_0_22 [0x00, 0x00]
  let w12 := write_blob R B w11 K.CFG_6
    [0xfe, 0xf2, 0xab, 0xc4, 0xaa, 0xf1, 0xdf, 0xdf, 0xbb, 0xaf, 0xdf, 0xdf]
  reset_fifo R C B w12

/-- `load_biases()`. -/
def load_biases {σ τ : Type} (R : MpuRegs) (B : I2cBus σ) (S : SettingsSvc τ) (w : World σ τ) :
    World σ τ :=
  match S.get_tracker_settings w.svc with
  | none => w
  | some p =>
    if p.is_calibrated != 0 then
      { w with
        sys := (mpu_set_accel_bias R B (mpu_set_gyro_bias R B w.sys p.gyro_bias) p.accel_bias) }
    else w

/-- `dmp_init()`; `none` when the loading loop exhausts its bound `fuel`. -/
def dmp_init {σ τ : Type} (R : MpuRegs) (C : MpuCtlRegs) (K : DmpKeys) (B : I2cBus σ)
    (S : SettingsSvc τ) (dmp_memory : List Nat) (fuel : Nat) (cur : List Nat) (w : World σ τ) :
    Option (World σ τ) :=
  match dmp_load_firmware R B dmp_memory fuel cur w.sys with
  | none => none
  | some (false, s1) => some { w with sys := s1 }
  | some (true, s1) =>
    let o := dmp_set_orientation R K B s1
    if !o.1 then some { w with sys := o.2 }
    else
      let w1 := dmp_enable_feature R C K B { w with sys := o.2 }
      let w2 := write_reg R B w1 C.INT_ENABLE 0x00
      let w3 := write_reg R B w2 C.FIFO_EN 0x00
      let w4 := write_reg R B w3 C.INT_ENABLE 0x02
      let w5 := write_reg R B w4 C.INT_ENABLE 0x00
      let w6 := write_reg R B w5 C.FIFO_EN 0x00
      let w7 := write_reg R B w6 C.USER_CTRL 0x00
      let w8 := write_reg R B w7 C.USER_CTRL 0x0C
      let w9 := delay_ms w8 50
      let w10 := write_reg R B w9 C.USER_CTRL 0xC0
      let w11 := write_reg R B w10 C.INT_ENABLE 0x02
      some (load_biases R B S w11)

/-- Sample rate `SAMPLE_RATE_HZ`. -/
def SAMPLE_RATE_HZ : Nat := 50

/-- `mpu_init()`. -/
def mpu_init {σ τ : Type} (R : MpuRegs) (C : MpuCtlRegs) (K : DmpKeys) (B : I2cBus σ)
    (S : SettingsSvc τ) (dmp_memory : List Nat) (fuel : Nat) (cur : List Nat) (w : World σ τ) :
    Option (World σ τ) :=
  let w1 := write_reg R B w C.PWR_MGMT_1 0x80
  let w2 := delay_ms w1 100
  let w3 := write_reg R B w2 C.PWR_MGMT_1 0
  let w4 := write_reg R B w3 C.GYRO_CONFIG (C.INV_FSR_2000DPS <<< 3)
  let w5 := write_reg R B w4 C.ACCEL_CONFIG (C.INV_FSR_2G <<< 3)
  let w6 := write_reg R B w5 C.SMPLRT_DIV (1000 / SAMPLE_RATE_HZ - 1)
  let w7 := write_reg R B w6 C.CONFIG C.INV_FILTER_20HZ
  let w8 := write_reg R B w7 C.USER_CTRL 0x20
  let w9 := write_reg R B w8 C.INT_PIN_CFG 0x80
  let w10 := write_reg R B w9 C.PWR_MGMT_1 0x40
  let w11 := write_reg R B w10 C.PWR_MGMT_2 0x3F
  let w12 := delay_ms w11 50
  let w13 := write_reg R B w12 C.PWR_MGMT_1 0x01
  let w14 := write_reg R B w13 C.PWR_MGMT_2 0x00
  let w15 := delay_ms w14 50
  let w16 := write_reg R B w15 C.FIFO_EN 0x00
  let w17 := write_reg R B w16 C.USER_CTRL 0x00
  let w18 := write_reg R B w17 C.USER_CTRL 0x04
  let w19 := write_reg R B w18 C.USER_CTRL 0x40
  let w20 := delay_ms w19 50
  let w21 := write_reg R B w20 C.FIFO_EN 0x78
  dmp_init R C K B S dmp_memory fuel cur w21

/-- `save_tracker_settings(p)`. -/
def save_tracker_settings {σ τ : Type} (S : SettingsSvc τ) (w : World σ τ)
    (p : tracker_settings_t) : World σ τ :=
  { w with svc := S.save_tracker_settings w.svc p,
           calls := w.calls ++ [(w.sys.trace.length, ExtCall.save_tracker_settings p)] }

/-- Why a run of `mpu_calibrate_bias` yields no final state: the bound on the passes
of a loading loop, on the samplings of `MPU_IRQ` in one wait, or on the calls of one
queue drain is exhausted, or `get_tracker_settings()` returns a null pointer where it
is dereferenced. -/
inductive CalibFault where
  | load_bound
  | irq_bound
  | drain_bound
  | null_settings
deriving DecidableEq, Repr

/-- A wait `while (MPU_IRQ == level) ...;` on the interrupt line.  `irq n` is the
level seen at the `n`-th sampling of the pin, `n` the number of samplings made so far;
the result is the number of samplings made when the wait ends, `none` when the bound
`fuel` on the samplings of this wait is exhausted. -/
def irq_wait (irq : Nat → Bool) (level : Bool) : Nat → Nat → Option Nat
  | 0, _ => none
  | fuel + 1, n => if irq n == level then irq_wait irq level fuel (n + 1) else some (n + 1)

/-- The two waits at the head of an iteration of `mpu_calibrate_bias`:
`while (MPU_IRQ == 1) dbgPoll();` then `while (MPU_IRQ == 0) ;`. -/
def irq_edge (irq : Nat → Bool) (fuel : Nat) (n : Nat) : Option Nat :=
  match irq_wait irq true fuel n with
  | none => none
  | some n1 => irq_wait irq false fuel n1

/-- The iterations `scnt, ..., scnt + k - 1` of the `for` loop of `mpu_calibrate_bias`,
each one the two waits on the interrupt line followed by `calib_iteration`; `n` is the
number of samplings of the pin made so far. -/
def calib_loop_irq {σ : Type} (R : MpuRegs) (B : I2cBus σ) (irq : Nat → Bool)
    (fuel_irq fuel : Nat) : Nat → Nat → Nat → CalibState σ → Except CalibFault (Nat × CalibState σ)
  | 0, _, n, st => Except.ok (n, st)
  | k + 1, scnt, n, st =>
    match irq_edge irq fuel_irq n with
    | none => Except.error CalibFault.irq_bound
    | some n1 =>
      match calib_iteration R B fuel scnt st with
      | none => Except.error CalibFault.drain_bound
      | some st1 => calib_loop_irq R B irq fuel_irq fuel k (scnt + 1) n1 st1

/-- `mpu_calibrate_bias()`.  `fuel_load` bounds the passes of each loading loop,
`fuel_irq` the samplings of each wait on the interrupt line, `fuel` the calls of each
queue drain; `pckt`, `more` and `cur` are the values of uninitialised locals; `irq` is
the level of `MPU_IRQ` at each sampling and `n0` the number of samplings made before.
`new_settings.rf_power = get_tracker_settings()->rf_power` dereferences the pointer
without a test: a null pointer ends the run with `null_settings`.  The indicator lights
and the debug output touch neither the bus nor the settings and are left out. -/
def mpu_calibrate_bias {σ τ : Type} (R : MpuRegs) (C : MpuCtlRegs) (K : DmpKeys) (B : I2cBus σ)
    (S : SettingsSvc τ) (dmp_memory : List Nat) (fuel_load fuel_irq fuel : Nat) (cur : List Nat)
    (pckt : mpu_packet_t) (more : Nat) (irq : Nat → Bool) (n0 : Nat) (w : World σ τ) :
    Except CalibFault (World σ τ) :=
  match mpu_init R C K B S dmp_memory fuel_load cur w with
  | none => Except.error CalibFault.load_bound
  | some w1 =>
    match S.get_tracker_settings w1.svc with
    | none => Except.error CalibFault.null_settings
    | some p =>
      match calib_loop_irq R B irq fuel_irq fuel 100 0 n0 (calib_begin R B w1.sys pckt more) with
      | Except.error e => Except.error e
      | Except.ok (_, st) =>
        let new_settings : tracker_settings_t :=
          { is_calibrated := 1, gyro_bias := st.gyro_bias, accel_bias := st.accel_bias,
            rf_power := p.rf_power }
        let w2 := save_tracker_settings S { w1 with sys := st.sys } new_settings
        match mpu_init R C K B S dmp_memory fuel_load cur w2 with
        | none => Except.error CalibFault.load_bound
        | some wf => Except.ok wf

/-! ## Reference notions for the configuration sequences -/

/-- The two transactions of a complete banked write of `arr` at `mem_addr`: the
bank select and the data write. -/
def blob_ops (R : MpuRegs) (mem_addr : Nat) (arr : List Nat) : List BusOp :=
  [BusOp.write R.MPU_ADDR R.BANK_SEL
     [((mem_addr % 65536) >>> 8) % 256, ((mem_addr % 65536) &&& 0xFF) % 256],
   BusOp.write R.MPU_ADDR R.MEM_R_W arr]

/-- The seven register writes of the queue reset sequence, in order. -/
def reset_ops (R : MpuRegs) (C : MpuCtlRegs) : List BusOp :=
  [BusOp.write R.MPU_ADDR C.INT_ENABLE [0x00],
   BusOp.write R.MPU_ADDR C.FIFO_EN [0x00],
   BusOp.write R.MPU_ADDR C.USER_CTRL [0x00],
   BusOp.write R.MPU_ADDR C.USER_CTRL [0x04],
   BusOp.write R.MPU_ADDR C.USER_CTRL [0x40],
   BusOp.write R.MPU_ADDR C.INT_ENABLE [0x01],
   BusOp.write R.MPU_ADDR C.FIFO_EN [0x78]]

/-- The four orientation blobs, in the order of `dmp_set_orientation`. -/
def orient_blobs (K : DmpKeys) : List (Nat × List Nat) :=
  [(K.FCFG_1, [0xCD, 0x4C, 0x6C]), (K.FCFG_2, [0xC9, 0x0C, 0x2C]),
   (K.FCFG_3, [0x36, 0x57, 0x76]), (K.FCFG_7, [0x26, 0x47, 0x66])]

/-- The nine blobs `dmp_enable_feature` writes before its first queue reset. -/
def feature_blobs (K : DmpKeys) : List (Nat × List Nat) :=
  [(K.D_0_104, [0x02, 0xca, 0xe3, 0x09]),
   (K.CFG_15, [0xa3, 0xc0, 0xc8, 0xc2, 0xc4, 0xcc, 0xc6, 0xa3, 0xa3, 0xa3]),
   (K.CFG_27, [0x20]),
   (K.CFG_MOTION_BIAS, [0xb8, 0xaa, 0xaa, 0xaa, 0xb0, 0x88, 0xc3, 0xc5, 0xc7]),
   (K.CFG_GYRO_RAW_DATA, [0xB0, 0x80, 0xB4, 0x90]),
   (K.CFG_20, [0xf8]),
   (K.CFG_ANDROID_ORIENT_INT, [0xd8]),
   (K.CFG_LP_QUAT, [0x8b, 0x8b, 0x8b, 0x8b]),
   (K.CFG_8, [0x20, 0x28, 0x30, 0x38])]

/-- The two blobs `dmp_enable_feature` writes between its two queue resets (the
queue rate). -/
def rate_blobs (K : DmpKeys) : List (Nat × List Nat) :=
  [(K.D_0_22, [0x00, 0x00]),
   (K.CFG_6, [0xfe, 0xf2, 0xab, 0xc4, 0xaa, 0xf1, 0xdf, 0xdf, 0xbb, 0xaf, 0xdf, 0xdf])]

/-- The blobs of a list written one after the other, every result ignored. -/
def write_blobs {σ τ : Type} (R : MpuRegs) (B : I2cBus σ) :
    List (Nat × List Nat) → World σ τ → World σ τ
  | [], w => w
  | b :: rest, w => write_blobs R B rest (write_blob R B w b.1 b.2)

/-- A trace `t` made of one segment per blob of the list, in order, each segment
being the bank select of the blob alone (1 transaction) or the bank select followed
by the data write (2 transactions). -/
def blob_trace (R : MpuRegs) : List (Nat × List Nat) → List BusOp → Prop
  | [], t => t = []
  | b :: rest, t =>
    ∃ n y, (n = 1 ∨ n = 2) ∧ t = (blob_ops R b.1 b.2).take n ++ y ∧ blob_trace R rest y

/-- The register writes `dmp_init` issues after `dmp_enable_feature`. -/
def init_tail_ops (R : MpuRegs) (C : MpuCtlRegs) : List BusOp :=
  [BusOp.write R.MPU_ADDR C.INT_ENABLE [0x00],
   BusOp.write R.MPU_ADDR C.FIFO_EN [0x00],
   BusOp.write R.MPU_ADDR C.INT_ENABLE [0x02],
   BusOp.write R.MPU_ADDR C.INT_ENABLE [0x00],
   BusOp.write R.MPU_ADDR C.FIFO_EN [0x00],
   BusOp.write R.MPU_ADDR C.USER_CTRL [0x00],
   BusOp.write R.MPU_ADDR C.USER_CTRL [0x0C],
   BusOp.write R.MPU_ADDR C.USER_CTRL [0xC0],
   BusOp.write R.MPU_ADDR C.INT_ENABLE [0x02]]

/-- The six writes that push gyro bias `g` and accel bias `a` to the device, gyro
first. -/
def push_ops (R : MpuRegs) (g a : Vec3) : List BusOp :=
  [BusOp.write R.MPU_ADDR 0x13 [hi_byte g.x0, lo_byte g.x0],
   BusOp.write R.MPU_ADDR 0x15 [hi_byte g.x1, lo_byte g.x1],
   BusOp.write R.MPU_ADDR 0x17 [hi_byte g.x2, lo_byte g.x2],
   BusOp.write R.MPU_ADDR 0x06 [hi_byte a.x0, lo_byte a.x0],
   BusOp.write R.MPU_ADDR 0x08 [hi_byte a.x1, lo_byte a.x1],
   BusOp.write R.MPU_ADDR 0x0A [hi_byte a.x2, lo_byte a.x2]]

/-- The settings passed to `save_tracker_settings`, with the position of each call. -/
def saves_of (calls : List (Nat × ExtCall)) : List (Nat × tracker_settings_t) :=
  calls.filterMap (fun c =>
    match c.2 with
    | ExtCall.save_tracker_settings p => some (c.1, p)
    | ExtCall.delay_ms _ => none)

/-- Control register addresses and constants of the MPU-6050 register map, for
concrete runs. -/
def mpu6050_ctl : MpuCtlRegs :=
  { INT_ENABLE := 0x38, FIFO_EN := 0x23, USER_CTRL := 0x6A, PWR_MGMT_1 := 0x6B,
    PWR_MGMT_2 := 0x6C, GYRO_CONFIG := 0x1B, ACCEL_CONFIG := 0x1C, SMPLRT_DIV := 0x19,
    CONFIG := 0x1A, INT_PIN_CFG := 0x37, INV_FSR_2000DPS := 3, INV_FSR_2G := 0,
    INV_FILTER_20HZ := 4 }

/-- Blob addresses as in the vendor motion driver, for concrete runs. -/
def empl_keys : DmpKeys :=
  { FCFG_1 := 1062, FCFG_2 := 1066, FCFG_3 := 1088, FCFG_7 := 1073, D_0_104 := 104,
    CFG_15 := 2727, CFG_27 := 2742, CFG_MOTION_BIAS := 1208, CFG_GYRO_RAW_DATA := 2722,
    CFG_20 := 2224, CFG_ANDROID_ORIENT_INT := 1853, CFG_LP_QUAT := 2712, CFG_8 := 2718,
    D_0_22 := 534, CFG_6 := 2753 }

/-- A banked memory like `ram_bus` (uncorrupted) on which a data write at `MEM_R_W`
fails, and stores nothing, when the selected address satisfies `deny`. -/
def picky_ram_bus (R : MpuRegs) (deny : Nat → Bool) : I2cBus Ram :=
  { i2c_write := fun st dev reg data =>
      if reg = R.MEM_R_W ∧ deny st.bank = true then (false, st)
      else (ram_bus R none).i2c_write st dev reg data
    i2c_read := (ram_bus R none).i2c_read }

/-- A settings service that keeps the settings last saved. -/
def mem_svc : SettingsSvc (Option tracker_settings_t) :=
  { get_tracker_settings := fun x => x
    save_tracker_settings := fun _ p => some p }

/-- A world with an empty trace, no external call made, and no settings stored. -/
def fresh_world {σ : Type} (d : σ) : World σ (Option tracker_settings_t) :=
  { sys := fresh d, svc := none, calls := [] }

/-- A device whose `n`-th read of the queue count (counting from 0) has the result
and the count given by `script n`; the data register always delivers `record`; writes
succeed.  The state is the number of count reads made so far. -/
def queue_bus (R : MpuRegs) (script : Nat → Bool × Nat) (record : List Nat) : I2cBus Nat :=
  { i2c_write := fun n _ _ _ => (true, n)
    i2c_read := fun n _ reg _ =>
      if reg = R.FIFO_COUNT_H then
        ((script n).1, (fun i => if i = 0 then (script n).2 / 256 else (script n).2 % 256),
          n + 1)
      else (true, (fun i => record.getD i 0), n) }

/-- The bus transactions of `load_biases()` for the stored settings `o`: the six
bias writes when settings exist and are calibrated, none otherwise. -/
def bias_ops (R : MpuRegs) (o : Option tracker_settings_t) : List BusOp :=
  match o with
  | none => []
  | some p => if p.is_calibrated != 0 then push_ops R p.gyro_bias p.accel_bias else []

/-- A queue that holds two records at the first count read and reports the byte count
50 (not a multiple of 32) at every later one. -/
def desync_bus : I2cBus Nat :=
  queue_bus mpu6050_regs (fun n => if n = 0 then (true, 64) else (true, 50)) test_record

/-- A queue that holds one record at the first count read and is empty at every later
one. -/
def one_record_bus : I2cBus Nat :=
  queue_bus mpu6050_regs (fun n => if n = 0 then (true, 32) else (true, 0)) test_record

/-- A record whose first two bytes are `0x7F, 0xFF` and whose readings are
accelerations `-1, 1, 16384` and rates `0, 0, 0`.  On `fifo_bus` the bias registers
read as its first two bytes, so the initial accel bias of every axis is 32767. -/
def odd_record : List Nat :=
  [0x7F, 0xFF, 0x00, 0x00, 0x00, 0x00, 0x00, 0x00, 0x00, 0x00, 0x00, 0x00, 0x00, 0x00, 0x00, 0x00,
   0xFF, 0xFF, 0x00, 0x01, 0x40, 0x00,
   0x00, 0x00, 0x00, 0x00, 0x00, 0x00,
   0x00, 0x00, 0x00, 0x00]

/-- An interrupt line that alternates: low at even samplings, high at odd ones. -/
def alt_irq (n : Nat) : Bool :=
  n % 2 == 1

/-- Settings as stored by an earlier calibration, for concrete runs. -/
def stored_settings : tracker_settings_t :=
  { is_calibrated := 1, gyro_bias := { x0 := 1, x1 := -2, x2 := 3 },
    accel_bias := { x0 := -101, x1 := 55, x2 := 7 }, rf_power := 3 }

/-- A world with an empty trace, no external call made, and `stored_settings` in the
settings service. -/
def stored_world {σ : Type} (d : σ) : World σ (Option tracker_settings_t) :=
  { sys := fresh d, svc := some stored_settings, calls := [] }

/-! # Theorems -/

/-! ## Bytes and 16-bit values -/

theorem shl8_or (hi lo : Nat) (hlo : lo < 256) : (hi <<< 8) ||| lo = hi * 256 + lo := by
  have h := Nat.mul_add_lt_is_or (i := 8) (b := lo) (by simpa using hlo) hi
  rw [Nat.shiftLeft_eq, Nat.mul_comm hi (2 ^ 8), ← h]

theorem to_int16_be (hi lo : Nat) (hhi : hi < 256) (hlo : lo < 256) :
    to_int16 ((hi <<< 8) ||| lo) = be16_signed hi lo := by
  rw [shl8_or hi lo hlo]
  unfold to_int16 be16_signed
  have hm : (hi * 256 + lo) % 65536 = hi * 256 + lo := Nat.mod_eq_of_lt (by omega)
  rw [hm]
  by_cases h : hi < 128
  · have h1 : hi * 256 + lo < 32768 := by omega
    simp [h, h1]
  · have h1 : ¬ hi * 256 + lo < 32768 := by omega
    simp [h, h1]

theorem i2c_read_buf_length {σ : Type} (B : I2cBus σ) (s : Sys σ) (dev reg len : Nat) :
    (i2c_read B s dev reg len).buf.length = len := by
  simp [i2c_read]

theorem i2c_read_buf_lt {σ : Type} (B : I2cBus σ) (s : Sys σ) (dev reg len i : Nat) :
    (i2c_read B s dev reg len).buf.getD i 0 < 256 := by
  simp only [i2c_read]
  by_cases h : i < len
  · rw [List.getD_eq_getElem _ _ (by simpa using h)]
    simp only [List.getElem_map, List.getElem_range]
    exact Nat.mod_lt _ (by norm_num)
  · rw [List.getD_eq_default _ _ (by simpa using h)]
    norm_num

theorem addr_bytes (a : Nat) (ha : a < 65536) :
    ((a % 65536) >>> 8) % 256 = a >>> 8 ∧ ((a % 65536) &&& 0xFF) % 256 = a &&& 0xFF := by
  rw [Nat.mod_eq_of_lt ha]
  have h1 : a >>> 8 = a / 256 := by rw [Nat.shiftRight_eq_div_pow]
  have h2 : a &&& 0xFF = a % 256 := by
    have := Nat.and_pow_two_sub_one_eq_mod a 8
    simpa using this
  rw [h1, h2]
  constructor
  · exact Nat.mod_eq_of_lt (by omega)
  · omega

/-! ## Packet reader -/

theorem dmp_unpack_quat (b : List Nat) :
    (dmp_unpack b).quat =
      [to_int16 ((b.getD 0 0 <<< 8) ||| b.getD 1 0), to_int16 ((b.getD 4 0 <<< 8) ||| b.getD 5 0),
       to_int16 ((b.getD 8 0 <<< 8) ||| b.getD 9 0),
       to_int16 ((b.getD 12 0 <<< 8) ||| b.getD 13 0)] :=
  rfl

theorem dmp_unpack_accel (b : List Nat) :
    (dmp_unpack b).accel =
      [to_int16 ((b.getD 16 0 <<< 8) ||| b.getD 17 0),
       to_int16 ((b.getD 18 0 <<< 8) ||| b.getD 19 0),
       to_int16 ((b.getD 20 0 <<< 8) ||| b.getD 21 0)] :=
  rfl

theorem dmp_unpack_gyro (b : List Nat) :
    (dmp_unpack b).gyro =
      [to_int16 ((b.getD 22 0 <<< 8) ||| b.getD 23 0),
       to_int16 ((b.getD 24 0 <<< 8) ||| b.getD 25 0),
       to_int16 ((b.getD 26 0 <<< 8) ||| b.getD 27 0)] :=
  rfl

theorem dmp_read_fifo_ok_pckt {σ : Type} (R : MpuRegs) (B : I2cBus σ) (s : Sys σ)
    (pckt : mpu_packet_t) (more : Nat) (fifo_data : List Nat)
    (h : (dmp_read_fifo R B s pckt more fifo_data).ok = true) :
    (dmp_read_fifo R B s pckt more fifo_data).pckt =
      dmp_unpack (i2c_read B (i2c_read B s R.MPU_ADDR R.FIFO_COUNT_H 2).sys
        R.MPU_ADDR R.FIFO_R_W 32).buf := by
  revert h
  simp only [dmp_read_fifo, mpu_read_fifo_stream, PACKET_LENGTH]
  split_ifs <;> simp_all

/-- C1. Packet unpack: whenever `dmp_read_fifo` succeeds, the record `b` it read from
the FIFO data register has 32 bytes and the returned packet holds, for the
quaternion, the signed 16-bit big-endian values of `b[4i], b[4i+1]`, for the
acceleration those of `b[16+2i], b[17+2i]` and for the angular rate those of
`b[22+2i], b[23+2i]`; any record agreeing with `b` on these twenty positions
unpacks to the same packet, so the other bytes have no influence. -/
theorem dmp_read_fifo_unpack {σ : Type} (R : MpuRegs) (B : I2cBus σ) (s : Sys σ)
    (pckt : mpu_packet_t) (more : Nat) (fifo_data : List Nat)
    (h : (dmp_read_fifo R B s pckt more fifo_data).ok = true) :
    let b := (i2c_read B (i2c_read B s R.MPU_ADDR R.FIFO_COUNT_H 2).sys
      R.MPU_ADDR R.FIFO_R_W 32).buf
    let p := (dmp_read_fifo R B s pckt more fifo_data).pckt
    b.length = 32 ∧
    p.quat = [be16_signed (b.getD 0 0) (b.getD 1 0), be16_signed (b.getD 4 0) (b.getD 5 0),
      be16_signed (b.getD 8 0) (b.getD 9 0), be16_signed (b.getD 12 0) (b.getD 13 0)] ∧
    p.accel = [be16_signed (b.getD 16 0) (b.getD 17 0), be16_signed (b.getD 18 0) (b.getD 19 0),
      be16_signed (b.getD 20 0) (b.getD 21 0)] ∧
    p.gyro = [be16_signed (b.getD 22 0) (b.getD 23 0), be16_signed (b.getD 24 0) (b.getD 25 0),
      be16_signed (b.getD 26 0) (b.getD 27 0)] ∧
    ∀ b' : List Nat, (∀ i ∈ used_positions, b'.getD i 0 = b.getD i 0) → dmp_unpack b' = p := by
  intro b p
  have hlt : ∀ i, b.getD i 0 < 256 := fun i => i2c_read_buf_lt B _ _ _ 32 i
  have hp : p = dmp_unpack b := dmp_read_fifo_ok_pckt R B s pckt more fifo_data h
  refine ⟨i2c_read_buf_length B _ _ _ 32, ?_, ?_, ?_, ?_⟩
  · rw [hp, dmp_unpack_quat]
    simp only [to_int16_be _ _ (hlt _) (hlt _)]
  · rw [hp, dmp_unpack_accel]
    simp only [to_int16_be _ _ (hlt _) (hlt _)]
  · rw [hp, dmp_unpack_gyro]
    simp only [to_int16_be _ _ (hlt _) (hlt _)]
  · intro b' hb'
    rw [hp]
    simp only [used_positions, List.mem_cons, List.mem_singleton, forall_eq_or_imp, forall_eq,
      List.not_mem_nil, false_imp_iff, implies_true, and_true] at hb'
    obtain ⟨h0, h1, h4, h5, h8, h9, h12, h13, h16, h17, h18, h19, h20, h21, h22, h23, h24,
      h25, h26, h27⟩ := hb'
    have e : ∀ x : mpu_packet_t,
        x = { quat := x.quat, accel := x.accel, gyro := x.gyro } := fun x => rfl
    rw [e (dmp_unpack b'), e (dmp_unpack b)]
    simp only [dmp_unpack_quat, dmp_unpack_accel, dmp_unpack_gyro, h0, h1, h4, h5, h8, h9, h12,
      h13, h16, h17, h18, h19, h20, h21, h22, h23, h24, h25, h26, h27]

/-- C1, the stated test record: a device whose queue holds exactly one record, the
bytes of `test_record`, yields quaternion `0x10, 0x20, 0x30, 0x40`, acceleration
`100, -50, 16384` and angular rate `0, 2, -3`. -/
theorem dmp_read_fifo_unpack_witness :
    (dmp_read_fifo mpu6050_regs (fifo_bus mpu6050_regs true true 32 test_record) (fresh ())
        zero_packet 0 []).ok = true ∧
    (dmp_read_fifo mpu6050_regs (fifo_bus mpu6050_regs true true 32 test_record) (fresh ())
        zero_packet 0 []).pckt =
      { quat := [0x0010, 0x0020, 0x0030, 0x0040], accel := [100, -50, 16384],
        gyro := [0, 2, -3] } := by
  have h : (dmp_read_fifo mpu6050_regs (fifo_bus mpu6050_regs true true 32 test_record)
      (fresh ()) zero_packet 0 []).ok = true := by decide
  obtain ⟨_, hq, ha, hg, _⟩ := dmp_read_fifo_unpack mpu6050_regs
    (fifo_bus mpu6050_regs true true 32 test_record) (fresh ()) zero_packet 0 [] h
  refine ⟨h, ?_⟩
  have e : ∀ x : mpu_packet_t,
      x = { quat := x.quat, accel := x.accel, gyro := x.gyro } := fun x => rfl
  rw [e (dmp_read_fifo _ _ _ _ _ _).pckt, hq, ha, hg]
  decide

/-- C2. Desync detection: when the queue byte count `c` read from the device is
non-zero and not a multiple of 32, `dmp_read_fifo` returns false, leaves the caller's
packet (and `*more`) unchanged, and the only transaction it issues is the 2-byte read
of the count register: nothing is read from the FIFO data register. -/
theorem dmp_read_fifo_desync {σ : Type} (R : MpuRegs) (B : I2cBus σ) (s : Sys σ)
    (pckt : mpu_packet_t) (more : Nat) (fifo_data : List Nat) (c : Nat)
    (hc0 : c ≠ 0) (hc32 : c % 32 ≠ 0) (hc : c < 65536)
    (hok : (i2c_read B s R.MPU_ADDR R.FIFO_COUNT_H 2).ok = true)
    (hbuf : (i2c_read B s R.MPU_ADDR R.FIFO_COUNT_H 2).buf = [c / 256, c % 256]) :
    (dmp_read_fifo R B s pckt more fifo_data).ok = false ∧
    (dmp_read_fifo R B s pckt more fifo_data).pckt = pckt ∧
    (dmp_read_fifo R B s pckt more fifo_data).more = more ∧
    (dmp_read_fifo R B s pckt more fifo_data).sys.trace =
      s.trace ++ [BusOp.read R.MPU_ADDR R.FIFO_COUNT_H 2] ∧
    (R.FIFO_R_W ≠ R.FIFO_COUNT_H →
      ∀ op ∈ (dmp_read_fifo R B s pckt more fifo_data).sys.trace.drop s.trace.length,
        BusOp.reg op ≠ R.FIFO_R_W) := by
  have hcount : (((i2c_read B s R.MPU_ADDR R.FIFO_COUNT_H 2).buf.getD 0 0 <<< 8) |||
      (i2c_read B s R.MPU_ADDR R.FIFO_COUNT_H 2).buf.getD 1 0) % 65536 = c := by
    rw [hbuf]
    show ((c / 256) <<< 8 ||| c % 256) % 65536 = c
    rw [shl8_or _ _ (Nat.mod_lt _ (by norm_num))]
    omega
  have htr : (i2c_read B s R.MPU_ADDR R.FIFO_COUNT_H 2).sys.trace =
      s.trace ++ [BusOp.read R.MPU_ADDR R.FIFO_COUNT_H 2] := rfl
  have key : dmp_read_fifo R B s pckt more fifo_data =
      { ok := false, pckt := pckt, more := more,
        sys := (i2c_read B s R.MPU_ADDR R.FIFO_COUNT_H 2).sys } := by
    simp only [dmp_read_fifo, mpu_read_fifo_stream, PACKET_LENGTH, hok, hcount]
    simp [hc0, hc32]
  rw [key]
  refine ⟨rfl, rfl, rfl, htr, ?_⟩
  intro hne op hop
  simp only [htr, List.drop_left, List.mem_singleton] at hop
  subst hop
  exact fun h => hne h.symm

/-- C2 at count 50: the read fails, the packet is untouched and the trace holds the
count read only. -/
theorem dmp_read_fifo_desync_witness :
    (dmp_read_fifo mpu6050_regs (fifo_bus mpu6050_regs true true 50 test_record) (fresh ())
        zero_packet 1 []).ok = false ∧
    (dmp_read_fifo mpu6050_regs (fifo_bus mpu6050_regs true true 50 test_record) (fresh ())
        zero_packet 1 []).pckt = zero_packet ∧
    (dmp_read_fifo mpu6050_regs (fifo_bus mpu6050_regs true true 50 test_record) (fresh ())
        zero_packet 1 []).sys.trace = [BusOp.read 0x68 0x72 2] := by
  obtain ⟨h1, h2, _, h4, _⟩ := dmp_read_fifo_desync mpu6050_regs
    (fifo_bus mpu6050_regs true true 50 test_record) (fresh ()) zero_packet 1 [] 50
    (by decide) (by decide) (by decide) (by decide) (by decide)
  exact ⟨h1, h2, h4⟩

/-- C4. One record per call: when the count register reads (big-endian) a non-zero
multiple `c` of 32 and both reads succeed, `dmp_read_fifo` returns true, sets `*more`
to 1 if `c ≠ 32` and to 0 if `c = 32`, and issues, after the count read, exactly one
read of exactly 32 bytes from the FIFO data register. -/
theorem dmp_read_fifo_one_record {σ : Type} (R : MpuRegs) (B : I2cBus σ) (s : Sys σ)
    (pckt : mpu_packet_t) (more : Nat) (fifo_data : List Nat) (c : Nat)
    (hc0 : c ≠ 0) (hc32 : c % 32 = 0) (hc : c < 65536)
    (hok : (i2c_read B s R.MPU_ADDR R.FIFO_COUNT_H 2).ok = true)
    (hbuf : (i2c_read B s R.MPU_ADDR R.FIFO_COUNT_H 2).buf = [c / 256, c % 256])
    (hdata : (i2c_read B (i2c_read B s R.MPU_ADDR R.FIFO_COUNT_H 2).sys
      R.MPU_ADDR R.FIFO_R_W 32).ok = true) :
    (dmp_read_fifo R B s pckt more fifo_data).ok = true ∧
    (dmp_read_fifo R B s pckt more fifo_data).more = (if c ≠ 32 then 1 else 0) ∧
    (dmp_read_fifo R B s pckt more fifo_data).sys.trace =
      s.trace ++ [BusOp.read R.MPU_ADDR R.FIFO_COUNT_H 2, BusOp.read R.MPU_ADDR R.FIFO_R_W 32] := by
  have hcount : (((i2c_read B s R.MPU_ADDR R.FIFO_COUNT_H 2).buf.getD 0 0 <<< 8) |||
      (i2c_read B s R.MPU_ADDR R.FIFO_COUNT_H 2).buf.getD 1 0) % 65536 = c := by
    rw [hbuf]
    show ((c / 256) <<< 8 ||| c % 256) % 65536 = c
    rw [shl8_or _ _ (Nat.mod_lt _ (by norm_num))]
    omega
  have htr : (i2c_read B (i2c_read B s R.MPU_ADDR R.FIFO_COUNT_H 2).sys
      R.MPU_ADDR R.FIFO_R_W 32).sys.trace =
      s.trace ++ [BusOp.read R.MPU_ADDR R.FIFO_COUNT_H 2, BusOp.read R.MPU_ADDR R.FIFO_R_W 32] := by
    simp [i2c_read]
  have key : dmp_read_fifo R B s pckt more fifo_data =
      { ok := true
        pckt := dmp_unpack (i2c_read B (i2c_read B s R.MPU_ADDR R.FIFO_COUNT_H 2).sys
          R.MPU_ADDR R.FIFO_R_W 32).buf
        more := if c ≠ 32 then 1 else 0
        sys := (i2c_read B (i2c_read B s R.MPU_ADDR R.FIFO_COUNT_H 2).sys
          R.MPU_ADDR R.FIFO_R_W 32).sys } := by
    simp only [dmp_read_fifo, mpu_read_fifo_stream, PACKET_LENGTH, hok, hcount, hdata]
    simp [hc0, hc32]
  rw [key]
  exact ⟨rfl, rfl, htr⟩

/-- C4 at counts 32 and 96: one record is read; `*more` becomes 0, respectively 1. -/
theorem dmp_read_fifo_one_record_witness :
    ((dmp_read_fifo mpu6050_regs (fifo_bus mpu6050_regs true true 32 test_record) (fresh ())
        zero_packet 7 []).ok = true ∧
     (dmp_read_fifo mpu6050_regs (fifo_bus mpu6050_regs true true 32 test_record) (fresh ())
        zero_packet 7 []).more = 0 ∧
     (dmp_read_fifo mpu6050_regs (fifo_bus mpu6050_regs true true 32 test_record) (fresh ())
        zero_packet 7 []).sys.trace = [BusOp.read 0x68 0x72 2, BusOp.read 0x68 0x74 32]) ∧
    (dmp_read_fifo mpu6050_regs (fifo_bus mpu6050_regs true true 96 test_record) (fresh ())
        zero_packet 0 []).more = 1 := by
  have h32 := dmp_read_fifo_one_record mpu6050_regs
    (fifo_bus mpu6050_regs true true 32 test_record) (fresh ()) zero_packet 7 [] 32
    (by decide) (by decide) (by decide) (by decide) (by decide) (by decide)
  have h96 := dmp_read_fifo_one_record mpu6050_regs
    (fifo_bus mpu6050_regs true true 96 test_record) (fresh ()) zero_packet 0 [] 96
    (by decide) (by decide) (by decide) (by decide) (by decide) (by decide)
  exact ⟨h32, h96.2.1⟩

/-- C3, as stated, fails: with `*more = 0` before the call, the outcome (returned
flag, final `*more`) for an empty queue (count 0) equals the outcome for a desync
(count 50) and the outcome for a bus failure on the count read. -/
theorem dmp_read_fifo_empty_not_distinct :
    ((dmp_read_fifo mpu6050_regs (fifo_bus mpu6050_regs true true 0 test_record) (fresh ())
        zero_packet 0 []).ok,
     (dmp_read_fifo mpu6050_regs (fifo_bus mpu6050_regs true true 0 test_record) (fresh ())
        zero_packet 0 []).more) =
    ((dmp_read_fifo mpu6050_regs (fifo_bus mpu6050_regs true true 50 test_record) (fresh ())
        zero_packet 0 []).ok,
     (dmp_read_fifo mpu6050_regs (fifo_bus mpu6050_regs true true 50 test_record) (fresh ())
        zero_packet 0 []).more) ∧
    ((dmp_read_fifo mpu6050_regs (fifo_bus mpu6050_regs true true 0 test_record) (fresh ())
        zero_packet 0 []).ok,
     (dmp_read_fifo mpu6050_regs (fifo_bus mpu6050_regs true true 0 test_record) (fresh ())
        zero_packet 0 []).more) =
    ((dmp_read_fifo mpu6050_regs (fifo_bus mpu6050_regs false true 32 test_record) (fresh ())
        zero_packet 0 []).ok,
     (dmp_read_fifo mpu6050_regs (fifo_bus mpu6050_regs false true 32 test_record) (fresh ())
        zero_packet 0 []).more) := by
  decide

/-- C3, amended. When the count reads 0, `dmp_read_fifo` returns false with
`*more = 0`, the packet unchanged and only the count read issued.  On a device `B'`
where the call fails otherwise (the count read fails, or the count is non-zero and not
a multiple of 32, or the count is a non-zero multiple of 32 and the data read fails)
it returns false with `*more` unchanged.  Hence the two outcomes (flag, `*more`)
differ exactly when `*more` was non-zero before the call. -/
theorem dmp_read_fifo_empty_outcome {σ τ : Type} (R : MpuRegs) (B : I2cBus σ) (s : Sys σ)
    (B' : I2cBus τ) (s' : Sys τ) (pckt : mpu_packet_t) (more : Nat) (fifo_data : List Nat)
    (hok : (i2c_read B s R.MPU_ADDR R.FIFO_COUNT_H 2).ok = true)
    (hbuf : (i2c_read B s R.MPU_ADDR R.FIFO_COUNT_H 2).buf = [0, 0])
    (hfail : (i2c_read B' s' R.MPU_ADDR R.FIFO_COUNT_H 2).ok = false ∨
      (∃ c, c ≠ 0 ∧ c < 65536 ∧
        (i2c_read B' s' R.MPU_ADDR R.FIFO_COUNT_H 2).ok = true ∧
        (i2c_read B' s' R.MPU_ADDR R.FIFO_COUNT_H 2).buf = [c / 256, c % 256] ∧
        (c % 32 ≠ 0 ∨
          (i2c_read B' (i2c_read B' s' R.MPU_ADDR R.FIFO_COUNT_H 2).sys
            R.MPU_ADDR R.FIFO_R_W 32).ok = false))) :
    (dmp_read_fifo R B s pckt more fifo_data).ok = false ∧
    (dmp_read_fifo R B s pckt more fifo_data).more = 0 ∧
    (dmp_read_fifo R B s pckt more fifo_data).pckt = pckt ∧
    (dmp_read_fifo R B s pckt more fifo_data).sys.trace =
      s.trace ++ [BusOp.read R.MPU_ADDR R.FIFO_COUNT_H 2] ∧
    (dmp_read_fifo R B' s' pckt more fifo_data).ok = false ∧
    (dmp_read_fifo R B' s' pckt more fifo_data).more = more ∧
    (((dmp_read_fifo R B s pckt more fifo_data).ok,
        (dmp_read_fifo R B s pckt more fifo_data).more) ≠
      ((dmp_read_fifo R B' s' pckt more fifo_data).ok,
        (dmp_read_fifo R B' s' pckt more fifo_data).more) ↔ more ≠ 0) := by
  have he : dmp_read_fifo R B s pckt more fifo_data =
      { ok := false, pckt := pckt, more := 0,
        sys := (i2c_read B s R.MPU_ADDR R.FIFO_COUNT_H 2).sys } := by
    simp only [dmp_read_fifo, mpu_read_fifo_stream, PACKET_LENGTH, hok, hbuf]
    simp
  have hf : (dmp_read_fifo R B' s' pckt more fifo_data).ok = false ∧
      (dmp_read_fifo R B' s' pckt more fifo_data).more = more := by
    rcases hfail with h | ⟨c, hc0, hc, hok', hbuf', h⟩
    · simp only [dmp_read_fifo, mpu_read_fifo_stream, PACKET_LENGTH, h]
      simp
    · have hcount : (((i2c_read B' s' R.MPU_ADDR R.FIFO_COUNT_H 2).buf.getD 0 0 <<< 8) |||
          (i2c_read B' s' R.MPU_ADDR R.FIFO_COUNT_H 2).buf.getD 1 0) % 65536 = c := by
        rw [hbuf']
        show ((c / 256) <<< 8 ||| c % 256) % 65536 = c
        rw [shl8_or _ _ (Nat.mod_lt _ (by norm_num))]
        omega
      rcases h with h | h
      · simp only [dmp_read_fifo, mpu_read_fifo_stream, PACKET_LENGTH, hok', hcount]
        simp [hc0, h]
      · simp only [dmp_read_fifo, mpu_read_fifo_stream, PACKET_LENGTH, hok', hcount, h]
        by_cases h32 : c % 32 = 0
        · simp [hc0, h32]
        · simp [hc0, h32]
  rw [he, hf.1, hf.2]
  refine ⟨rfl, rfl, rfl, rfl, rfl, rfl, ?_⟩
  simp only [ne_eq, Prod.mk.injEq, true_and]
  exact ⟨fun h hm => h hm.symm, fun h hm => h hm.symm⟩

/-- C3, amended, on concrete devices: an empty queue against a count of 50, with
`*more = 1` before the call, gives the distinct outcomes `(false, 0)` and
`(false, 1)`. -/
theorem dmp_read_fifo_empty_outcome_witness :
    (dmp_read_fifo mpu6050_regs (fifo_bus mpu6050_regs true true 0 test_record) (fresh ())
        zero_packet 1 []).more = 0 ∧
    (dmp_read_fifo mpu6050_regs (fifo_bus mpu6050_regs true true 50 test_record) (fresh ())
        zero_packet 1 []).more = 1 := by
  have h := dmp_read_fifo_empty_outcome mpu6050_regs
    (fifo_bus mpu6050_regs true true 0 test_record) (fresh ())
    (fifo_bus mpu6050_regs true true 50 test_record) (fresh ()) zero_packet 1 []
    (by decide) (by decide)
    (Or.inr ⟨50, by decide, by decide, by decide, by decide, Or.inl (by decide)⟩)
  exact ⟨h.2.1, h.2.2.2.2.2.1⟩

/-! ## Transport -/

theorem mpu_mem_shape {σ : Type} (R : MpuRegs) (B : I2cBus σ) (s : Sys σ)
    (a n : Nat) (data buf0 : List Nat) (ha : a < 65536) :
    let sel := i2c_write B s R.MPU_ADDR R.BANK_SEL [a >>> 8, a &&& 0xFF]
    let wr := i2c_write B sel.2 R.MPU_ADDR R.MEM_R_W data
    let rd := i2c_read B sel.2 R.MPU_ADDR R.MEM_R_W n
    (mpu_write_mem R B s a data).2.trace =
      s.trace ++ BusOp.write R.MPU_ADDR R.BANK_SEL [a >>> 8, a &&& 0xFF] ::
        (if sel.1 then [BusOp.write R.MPU_ADDR R.MEM_R_W data] else []) ∧
    ((mpu_write_mem R B s a data).1 = true ↔ sel.1 = true ∧ wr.1 = true) ∧
    (mpu_read_mem R B s a n buf0).sys.trace =
      s.trace ++ BusOp.write R.MPU_ADDR R.BANK_SEL [a >>> 8, a &&& 0xFF] ::
        (if sel.1 then [BusOp.read R.MPU_ADDR R.MEM_R_W n] else []) ∧
    ((mpu_read_mem R B s a n buf0).ok = true ↔ sel.1 = true ∧ rd.ok = true) ∧
    (sel.1 = true → (mpu_read_mem R B s a n buf0).buf.length = n) := by
  intro sel wr rd
  obtain ⟨h1, h2⟩ := addr_bytes a ha
  have hsel : sel.2.trace = s.trace ++ [BusOp.write R.MPU_ADDR R.BANK_SEL [a >>> 8, a &&& 0xFF]] :=
    rfl
  have hwr : wr.2.trace = sel.2.trace ++ [BusOp.write R.MPU_ADDR R.MEM_R_W data] := rfl
  have hrd : rd.sys.trace = sel.2.trace ++ [BusOp.read R.MPU_ADDR R.MEM_R_W n] := rfl
  have hlen : rd.buf.length = n := i2c_read_buf_length B _ _ _ n
  simp only [mpu_write_mem, mpu_read_mem, h1, h2]
  cases hs : sel.1 <;> cases hw : wr.1 <;> cases hr : rd.ok <;>
    simp_all [sel, wr, rd]

/-- C8. Bank-addressed access: for a 16-bit address `a`, `mpu_write_mem` and
`mpu_read_mem` first issue the 2-byte write of `[a >> 8, a & 0xFF]` to `BANK_SEL`;
if it succeeds the very next transaction is the single data transfer at `MEM_R_W`
(write of `data`, respectively read of `n` bytes) and nothing else is issued; if it
fails no data transfer is issued.  Each function returns true iff the select and the
transfer both succeed. -/
theorem mem_access_select_then_transfer {σ : Type} (R : MpuRegs) (B : I2cBus σ) (s : Sys σ)
    (a n : Nat) (data buf0 : List Nat) (ha : a < 65536) :
    let sel := i2c_write B s R.MPU_ADDR R.BANK_SEL [a >>> 8, a &&& 0xFF]
    let wr := i2c_write B sel.2 R.MPU_ADDR R.MEM_R_W data
    let rd := i2c_read B sel.2 R.MPU_ADDR R.MEM_R_W n
    (mpu_write_mem R B s a data).2.trace =
      s.trace ++ BusOp.write R.MPU_ADDR R.BANK_SEL [a >>> 8, a &&& 0xFF] ::
        (if sel.1 then [BusOp.write R.MPU_ADDR R.MEM_R_W data] else []) ∧
    ((mpu_write_mem R B s a data).1 = true ↔ sel.1 = true ∧ wr.1 = true) ∧
    (mpu_read_mem R B s a n buf0).sys.trace =
      s.trace ++ BusOp.write R.MPU_ADDR R.BANK_SEL [a >>> 8, a &&& 0xFF] ::
        (if sel.1 then [BusOp.read R.MPU_ADDR R.MEM_R_W n] else []) ∧
    ((mpu_read_mem R B s a n buf0).ok = true ↔ sel.1 = true ∧ rd.ok = true) ∧
    (sel.1 = true → (mpu_read_mem R B s a n buf0).buf.length = n) :=
  mpu_mem_shape R B s a n data buf0 ha

/-- C8 on the memory device at address `0x0123`: select `[0x01, 0x23]`, then the
transfer, and both calls return true. -/
theorem mem_access_select_then_transfer_witness :
    (mpu_write_mem mpu6050_regs (ram_bus mpu6050_regs none) (fresh ram0) 0x0123 [5, 6, 7]).2.trace =
      [BusOp.write 0x68 0x6D [0x01, 0x23], BusOp.write 0x68 0x6F [5, 6, 7]] ∧
    (mpu_write_mem mpu6050_regs (ram_bus mpu6050_regs none) (fresh ram0) 0x0123 [5, 6, 7]).1 = true ∧
    (mpu_read_mem mpu6050_regs (ram_bus mpu6050_regs none) (fresh ram0) 0x0123 3 []).sys.trace =
      [BusOp.write 0x68 0x6D [0x01, 0x23], BusOp.read 0x68 0x6F 3] ∧
    (mpu_read_mem mpu6050_regs (ram_bus mpu6050_regs none) (fresh ram0) 0x0123 3 []).ok = true := by
  obtain ⟨h1, h2, h3, h4, _⟩ := mem_access_select_then_transfer mpu6050_regs
    (ram_bus mpu6050_regs none) (fresh ram0) 0x0123 3 [5, 6, 7] [] (by decide)
  exact ⟨h1.trans (by decide), h2.2 ⟨by decide, by decide⟩, h3.trans (by decide),
    h4.2 ⟨by decide, by decide⟩⟩

/-! ## Firmware loader -/

theorem this_write_eq (img : List Nat) (k : Nat) (hN : img.length < 65536)
    (hk : 16 * k < img.length) :
    this_write img.length (16 * k) = (chunk img k).length ∧
    (img.drop (16 * k)).take (this_write img.length (16 * k)) = chunk img k ∧
    (16 * k + this_write img.length (16 * k)) % 65536 = min (16 * (k + 1)) img.length ∧
    0 < (chunk img k).length := by
  have hm : (img.length - 16 * k) % 65536 = img.length - 16 * k := Nat.mod_eq_of_lt (by omega)
  have hlen : (chunk img k).length = min 16 (img.length - 16 * k) := by
    simp [chunk]
  unfold this_write LOAD_CHUNK
  rw [hm, hlen]
  by_cases h : img.length - 16 * k > 16
  · rw [if_pos h]
    refine ⟨by omega, rfl, ?_, by omega⟩
    rw [Nat.mod_eq_of_lt (by omega)]
    omega
  · rw [if_neg h]
    refine ⟨by omega, ?_, ?_, by omega⟩
    · unfold chunk
      rw [List.take_of_length_le (by simp), List.take_of_length_le (by simp; omega)]
    · rw [Nat.mod_eq_of_lt (by omega)]
      omega

theorem chunk_length (img : List Nat) (k : Nat) :
    (chunk img k).length = min 16 (img.length - 16 * k) := by
  simp [chunk]

theorem chunk_getD (img : List Nat) (k i : Nat) (hi : i < (chunk img k).length) :
    (chunk img k).getD i 0 = img.getD (16 * k + i) 0 := by
  have h16 : i < 16 := by
    rw [chunk_length] at hi
    omega
  simp only [chunk, List.getD_eq_getElem?_getD, List.getElem?_take, List.getElem?_drop, h16,
    if_true]

theorem dmp_load_chunks_step {σ : Type} (R : MpuRegs) (B : I2cBus σ) (img : List Nat)
    (fuel ii : Nat) (cur : List Nat) (s : Sys σ) (h : ii < img.length) :
    dmp_load_chunks R B img (fuel + 1) ii cur s =
      if (dmp_load_chunk R B img ii cur s).ok = true then
        dmp_load_chunks R B img fuel ((ii + this_write img.length ii) % 65536)
          (dmp_load_chunk R B img ii cur s).cur (dmp_load_chunk R B img ii cur s).sys
      else some (false, (dmp_load_chunk R B img ii cur s).sys) := by
  rw [dmp_load_chunks, if_pos h]
  by_cases hc : (dmp_load_chunk R B img ii cur s).ok = true <;> simp [hc]

theorem dmp_load_chunks_done {σ : Type} (R : MpuRegs) (B : I2cBus σ) (img : List Nat)
    (fuel ii : Nat) (cur : List Nat) (s : Sys σ) (h : ¬ ii < img.length) :
    dmp_load_chunks R B img fuel ii cur s = some (true, s) := by
  cases fuel <;> simp [dmp_load_chunks, h]

/-- One pass of the loading loop at offset `16 * k`, in terms of the single bus
transactions. -/
theorem dmp_load_chunk_eq {σ : Type} (R : MpuRegs) (B : I2cBus σ) (img : List Nat)
    (k : Nat) (cur : List Nat) (s : Sys σ) (hN : img.length < 65536)
    (hk : 16 * k < img.length) :
    dmp_load_chunk R B img (16 * k) cur s =
      if (mpu_write_mem R B s (16 * k) (chunk img k)).1 = true then
        if (mpu_read_mem R B (mpu_write_mem R B s (16 * k) (chunk img k)).2 (16 * k)
            (chunk img k).length cur).ok = true then
          { ok := !memcmp_ne (img.drop (16 * k))
              (mpu_read_mem R B (mpu_write_mem R B s (16 * k) (chunk img k)).2 (16 * k)
                (chunk img k).length cur).buf (chunk img k).length
            cur := (mpu_read_mem R B (mpu_write_mem R B s (16 * k) (chunk img k)).2 (16 * k)
                (chunk img k).length cur).buf
            sys := (mpu_read_mem R B (mpu_write_mem R B s (16 * k) (chunk img k)).2 (16 * k)
                (chunk img k).length cur).sys }
        else
          { ok := false
            cur := (mpu_read_mem R B (mpu_write_mem R B s (16 * k) (chunk img k)).2 (16 * k)
                (chunk img k).length cur).buf
            sys := (mpu_read_mem R B (mpu_write_mem R B s (16 * k) (chunk img k)).2 (16 * k)
                (chunk img k).length cur).sys }
      else { ok := false, cur := cur, sys := (mpu_write_mem R B s (16 * k) (chunk img k)).2 } := by
  obtain ⟨h1, h2, _, _⟩ := this_write_eq img k hN hk
  rw [h1] at h2
  simp only [dmp_load_chunk, h1, h2]
  by_cases hw : (mpu_write_mem R B s (16 * k) (chunk img k)).1 = true
  · by_cases hr : (mpu_read_mem R B (mpu_write_mem R B s (16 * k) (chunk img k)).2 (16 * k)
        (chunk img k).length cur).ok = true
    · by_cases hm : memcmp_ne (img.drop (16 * k))
          (mpu_read_mem R B (mpu_write_mem R B s (16 * k) (chunk img k)).2 (16 * k)
            (chunk img k).length cur).buf (chunk img k).length = true
      · simp [hw, hr, hm]
      · simp [hw, hr, hm]
    · simp [hw, hr]
  · simp [hw]

/-- Shape of one pass: its transactions are a non-empty initial segment of
`chunk_ops`, the whole of it when the pass succeeds. -/
theorem dmp_load_chunk_trace {σ : Type} (R : MpuRegs) (B : I2cBus σ) (img : List Nat)
    (k : Nat) (cur : List Nat) (s : Sys σ) (hN : img.length < 65536)
    (hk : 16 * k < img.length) :
    ((dmp_load_chunk R B img (16 * k) cur s).ok = true →
      (dmp_load_chunk R B img (16 * k) cur s).sys.trace = s.trace ++ chunk_ops R img k) ∧
    ∃ n, 1 ≤ n ∧ n ≤ 4 ∧
      (dmp_load_chunk R B img (16 * k) cur s).sys.trace =
        s.trace ++ (chunk_ops R img k).take n := by
  have ha : 16 * k < 65536 := by omega
  obtain ⟨w1, w2, _, _, _⟩ := mpu_mem_shape R B s (16 * k) 0 (chunk img k) cur ha
  obtain ⟨_, _, r1, r2, _⟩ := mpu_mem_shape R B (mpu_write_mem R B s (16 * k) (chunk img k)).2
    (16 * k) (chunk img k).length [] cur ha
  rw [dmp_load_chunk_eq R B img k cur s hN hk]
  by_cases hw : (mpu_write_mem R B s (16 * k) (chunk img k)).1 = true
  · have hsel := (w2.1 hw).1
    rw [hsel] at w1
    rw [if_pos hw]
    by_cases hsel2 : (i2c_write B (mpu_write_mem R B s (16 * k) (chunk img k)).2 R.MPU_ADDR
        R.BANK_SEL [(16 * k) >>> 8, (16 * k) &&& 0xFF]).1 = true
    · have hfull : (mpu_read_mem R B (mpu_write_mem R B s (16 * k) (chunk img k)).2 (16 * k)
          (chunk img k).length cur).sys.trace = s.trace ++ chunk_ops R img k := by
        rw [r1, w1, hsel2]
        simp [chunk_ops]
      have hfull4 : s.trace ++ chunk_ops R img k = s.trace ++ (chunk_ops R img k).take 4 := by
        simp [chunk_ops]
      split_ifs
      · exact ⟨fun _ => hfull, 4, by norm_num, by norm_num, hfull.trans hfull4⟩
      · exact ⟨fun _ => hfull, 4, by norm_num, by norm_num, hfull.trans hfull4⟩
    · have hr : ¬ (mpu_read_mem R B (mpu_write_mem R B s (16 * k) (chunk img k)).2 (16 * k)
          (chunk img k).length cur).ok = true := fun h => hsel2 (r2.1 h).1
      rw [if_neg hr]
      refine ⟨by simp, 3, by norm_num, by norm_num, ?_⟩
      simp only [Bool.not_eq_true] at hsel2
      rw [r1, w1, hsel2]
      simp [chunk_ops]
  · rw [if_neg hw]
    refine ⟨by simp, ?_⟩
    by_cases hsel : (i2c_write B s R.MPU_ADDR R.BANK_SEL [(16 * k) >>> 8, (16 * k) &&& 0xFF]).1 = true
    · refine ⟨2, by norm_num, by norm_num, ?_⟩
      rw [hsel] at w1
      show (mpu_write_mem R B s (16 * k) (chunk img k)).2.trace = _
      rw [w1]
      simp [chunk_ops]
    · refine ⟨1, by norm_num, by norm_num, ?_⟩
      simp only [Bool.not_eq_true] at hsel
      rw [hsel] at w1
      show (mpu_write_mem R B s (16 * k) (chunk img k)).2.trace = _
      rw [w1]
      simp [chunk_ops]

theorem chunk_passes_eq {σ : Type} (R : MpuRegs) (B : I2cBus σ) (img : List Nat)
    (cur : List Nat) (s : Sys σ) (k : Nat) :
    chunk_passes R B img cur s k =
      (dmp_load_chunk R B img (16 * k)
        (after_chunks R B img k { ok := true, cur := cur, sys := s }).cur
        (after_chunks R B img k { ok := true, cur := cur, sys := s }).sys).ok :=
  rfl

/-- While the passes succeed, the loop started at offset 0 reaches offset
`min (16 * k) size` in the state `after_chunks k`. -/
theorem dmp_load_chunks_reach {σ : Type} (R : MpuRegs) (B : I2cBus σ) (img : List Nat)
    (cur : List Nat) (s : Sys σ) (hN : img.length < 65536) :
    ∀ k, 16 * k < img.length + 16 → (∀ j < k, chunk_passes R B img cur s j = true) →
      ∀ fuel, k ≤ fuel →
        dmp_load_chunks R B img fuel 0 cur s =
          dmp_load_chunks R B img (fuel - k) (min (16 * k) img.length)
            (after_chunks R B img k { ok := true, cur := cur, sys := s }).cur
            (after_chunks R B img k { ok := true, cur := cur, sys := s }).sys := by
  intro k
  induction k with
  | zero =>
    intro _ _ fuel _
    simp [after_chunks]
  | succ k ih =>
    intro hk hpass fuel hfuel
    have hk' : 16 * k < img.length := by omega
    rw [ih (by omega) (fun j hj => hpass j (by omega)) fuel (by omega)]
    have hmin : min (16 * k) img.length = 16 * k := by omega
    have hf : fuel - k = (fuel - (k + 1)) + 1 := by omega
    rw [hmin, hf, dmp_load_chunks_step R B img _ _ _ _ hk']
    have hp := hpass k (by omega)
    rw [chunk_passes_eq] at hp
    rw [if_pos hp, (this_write_eq img k hN hk').2.2.1]
    rfl

theorem after_chunks_trace {σ : Type} (R : MpuRegs) (B : I2cBus σ) (img : List Nat)
    (cur : List Nat) (s : Sys σ) (hN : img.length < 65536) :
    ∀ k, 16 * k < img.length + 16 → (∀ j < k, chunk_passes R B img cur s j = true) →
      (after_chunks R B img k { ok := true, cur := cur, sys := s }).sys.trace =
        s.trace ++ (List.range k).flatMap (chunk_ops R img) := by
  intro k
  induction k with
  | zero =>
    intro _ _
    simp [after_chunks]
  | succ k ih =>
    intro hk hpass
    have hk' : 16 * k < img.length := by omega
    have hp := hpass k (by omega)
    rw [chunk_passes_eq] at hp
    have h := (dmp_load_chunk_trace R B img k
      (after_chunks R B img k { ok := true, cur := cur, sys := s }).cur
      (after_chunks R B img k { ok := true, cur := cur, sys := s }).sys hN hk').1 hp
    rw [ih (by omega) (fun j hj => hpass j (by omega))] at h
    show (dmp_load_chunk R B img (16 * k) _ _).sys.trace = _
    rw [h, List.range_succ, List.flatMap_append, List.flatMap_singleton, List.append_assoc]

theorem chunk_count_bounds (n : Nat) :
    16 * chunk_count n < n + 16 ∧ n ≤ 16 * chunk_count n := by
  unfold chunk_count
  omega

theorem chunks_concat (img : List Nat) :
    ∀ n, (List.range n).flatMap (chunk img) = img.take (16 * n) := by
  intro n
  induction n with
  | zero => simp
  | succ n ih =>
    rw [List.range_succ, List.flatMap_append, List.flatMap_singleton, ih, Nat.mul_succ,
      List.take_add]
    rfl

theorem mem_writes_chunks (R : MpuRegs) (img : List Nat) (h1 : R.MEM_R_W ≠ R.BANK_SEL) :
    ∀ n, mem_writes R ((List.range n).flatMap (chunk_ops R img)) =
      (List.range n).map (chunk img) := by
  intro n
  induction n with
  | zero => simp [mem_writes]
  | succ n ih =>
    rw [List.range_succ, List.flatMap_append, List.flatMap_singleton, List.map_append]
    unfold mem_writes at ih ⊢
    rw [List.filterMap_append, ih]
    simp [chunk_ops, List.filterMap_cons, h1.symm]

/-- When every pass succeeds the loader ends with the write of the entry address,
whose result it returns. -/
theorem dmp_load_firmware_all_pass {σ : Type} (R : MpuRegs) (B : I2cBus σ) (img : List Nat)
    (cur : List Nat) (s : Sys σ) (fuel : Nat) (hN : img.length < 65536)
    (hfuel : chunk_count img.length ≤ fuel)
    (hpass : ∀ j < chunk_count img.length, chunk_passes R B img cur s j = true) :
    dmp_load_firmware R B img fuel cur s =
      some (i2c_write B
        (after_chunks R B img (chunk_count img.length) { ok := true, cur := cur, sys := s }).sys
        R.MPU_ADDR R.PRGM_START_H [0x04, 0x00]) ∧
    (i2c_write B
        (after_chunks R B img (chunk_count img.length) { ok := true, cur := cur, sys := s }).sys
        R.MPU_ADDR R.PRGM_START_H [0x04, 0x00]).2.trace =
      s.trace ++ (List.range (chunk_count img.length)).flatMap (chunk_ops R img) ++
        [entry_op R] := by
  obtain ⟨hc1, hc2⟩ := chunk_count_bounds img.length
  have hreach := dmp_load_chunks_reach R B img cur s hN (chunk_count img.length) hc1 hpass
    fuel hfuel
  have hmin : min (16 * chunk_count img.length) img.length = img.length := by omega
  rw [hmin, dmp_load_chunks_done R B img _ _ _ _ (lt_irrefl _)] at hreach
  have htr := after_chunks_trace R B img cur s hN (chunk_count img.length) hc1 hpass
  constructor
  · unfold dmp_load_firmware
    rw [hreach]
    have e : (START_ADDR >>> 8) % 256 = 0x04 ∧ (START_ADDR &&& 0xFF) % 256 = 0x00 := by decide
    simp only [e.1, e.2]
    by_cases hw : (i2c_write B
        (after_chunks R B img (chunk_count img.length) { ok := true, cur := cur, sys := s }).sys
        R.MPU_ADDR R.PRGM_START_H [0x04, 0x00]).1 = true
    · simp only [hw, Bool.not_true, Bool.false_eq_true, if_false]
      exact congrArg some (Prod.ext hw.symm rfl)
    · simp only [Bool.not_eq_true] at hw
      simp only [hw, Bool.not_false, if_true]
      exact congrArg some (Prod.ext hw.symm rfl)
  · show _ ++ [_] = _
    rw [htr]
    rfl

theorem memcmp_chunk (img : List Nat) (k : Nat) (buf : List Nat)
    (hlen : buf.length = (chunk img k).length) :
    memcmp_ne (img.drop (16 * k)) buf (chunk img k).length = false ↔ buf = chunk img k := by
  have h1 : (img.drop (16 * k)).take (chunk img k).length = chunk img k := by
    unfold chunk
    rw [List.length_take]
    rcases Nat.le_total 16 (img.drop (16 * k)).length with h | h
    · rw [Nat.min_eq_left h]
    · rw [Nat.min_eq_right h, List.take_of_length_le (le_refl _), List.take_of_length_le h]
  have h2 : buf.take (chunk img k).length = buf := List.take_of_length_le (by omega)
  unfold memcmp_ne
  rw [h1, h2]
  by_cases h : buf = chunk img k
  · simp [h]
  · have h' : chunk img k ≠ buf := fun e => h e.symm
    simp [h, h']

/-- A pass succeeds exactly when the chunk write succeeds, the readback succeeds and
the bytes read back equal the chunk. -/
theorem dmp_load_chunk_ok_iff {σ : Type} (R : MpuRegs) (B : I2cBus σ) (img : List Nat)
    (k : Nat) (cur : List Nat) (s : Sys σ) (hN : img.length < 65536)
    (hk : 16 * k < img.length) :
    (dmp_load_chunk R B img (16 * k) cur s).ok = true ↔
      (mpu_write_mem R B s (16 * k) (chunk img k)).1 = true ∧
      (mpu_read_mem R B (mpu_write_mem R B s (16 * k) (chunk img k)).2 (16 * k)
        (chunk img k).length cur).ok = true ∧
      (mpu_read_mem R B (mpu_write_mem R B s (16 * k) (chunk img k)).2 (16 * k)
        (chunk img k).length cur).buf = chunk img k := by
  obtain ⟨_, _, _, r2, r3⟩ := mpu_mem_shape R B (mpu_write_mem R B s (16 * k) (chunk img k)).2
    (16 * k) (chunk img k).length [] cur (by omega)
  rw [dmp_load_chunk_eq R B img k cur s hN hk]
  by_cases hw : (mpu_write_mem R B s (16 * k) (chunk img k)).1 = true
  · by_cases hr : (mpu_read_mem R B (mpu_write_mem R B s (16 * k) (chunk img k)).2 (16 * k)
        (chunk img k).length cur).ok = true
    · have hlen := r3 (r2.1 hr).1
      have hm := memcmp_chunk img k _ hlen
      rw [if_pos hw, if_pos hr]
      simp only [hw, hr, true_and, Bool.not_eq_true', hm]
    · simp [hw, hr]
  · simp [hw]

theorem chunk_bytes (img : List Nat) (k : Nat) (hb : ∀ x ∈ img, x < 256) :
    ∀ x ∈ chunk img k, x < 256 :=
  fun x hx => hb x (List.mem_of_mem_drop (List.mem_of_mem_take hx))

theorem faithful_passes {σ : Type} (R : MpuRegs) (B : I2cBus σ) (img : List Nat)
    (cur : List Nat) (s : Sys σ) (hF : Faithful R B) (hN : img.length < 65536)
    (hb : ∀ x ∈ img, x < 256) :
    ∀ j < chunk_count img.length, chunk_passes R B img cur s j = true := by
  intro j hj
  have hj' : 16 * j < img.length := by
    unfold chunk_count at hj
    omega
  rw [chunk_passes_eq, dmp_load_chunk_ok_iff R B img j _ _ hN hj']
  obtain ⟨_, w2, _, _, _⟩ := mpu_mem_shape R B
    (after_chunks R B img j { ok := true, cur := cur, sys := s }).sys (16 * j) 0 (chunk img j)
    cur (by omega)
  refine ⟨w2.2 ⟨hF.1 _ _ _ _, hF.1 _ _ _ _⟩, ?_⟩
  exact hF.2 _ (16 * j) (chunk img j) _ (by omega) (chunk_bytes img j hb)

theorem ram_bus_faithful (R : MpuRegs) (hne : R.BANK_SEL ≠ R.MEM_R_W) :
    Faithful R (ram_bus R none) := by
  constructor
  · intro st dev reg data
    simp only [ram_bus]
    split_ifs <;> rfl
  · intro s a data cur ha hd
    obtain ⟨a1, a2⟩ := addr_bytes a ha
    have hdiv : a >>> 8 = a / 256 := by rw [Nat.shiftRight_eq_div_pow]
    have hmod : a &&& 0xFF = a % 256 := by
      have := Nat.and_pow_two_sub_one_eq_mod a 8
      simpa using this
    have hne' : R.MEM_R_W ≠ R.BANK_SEL := fun e => hne e.symm
    simp only [mpu_read_mem, mpu_write_mem, i2c_write, i2c_read, ram_bus, a1, a2, hne',
      if_true, if_false, Bool.not_true, Bool.false_eq_true, List.getD_cons_zero,
      List.getD_cons_succ, true_and]
    refine List.ext_getElem (by simp) ?_
    intro i h1 h2
    have hi : i < data.length := h2
    have hlt : data[i] < 256 := hd _ (List.getElem_mem _)
    simp only [List.getElem_map, List.getElem_range, hdiv, hmod]
    have hbank : a / 256 * 256 + a % 256 = a := by omega
    rw [hbank]
    have hcond : a ≤ a + i ∧ a + i < a + data.length := ⟨by omega, by omega⟩
    simp only [reduceCtorEq, if_false, hcond, and_self, if_true, Nat.add_sub_cancel_left]
    rw [List.getD_eq_getElem _ _ hi]
    exact Nat.mod_eq_of_lt hlt

theorem chunk_passes_iff {σ : Type} (R : MpuRegs) (B : I2cBus σ) (img : List Nat)
    (cur : List Nat) (s : Sys σ) (k : Nat) (hN : img.length < 65536)
    (hk : 16 * k < img.length) :
    chunk_passes R B img cur s k = true ↔
      chunk_write_ok R B img cur s k = true ∧ (chunk_readback R B img cur s k).ok = true ∧
      (chunk_readback R B img cur s k).buf = chunk img k := by
  rw [chunk_passes_eq, dmp_load_chunk_ok_iff R B img k _ _ hN hk]
  rfl

theorem faithful_chunks {σ : Type} (R : MpuRegs) (B : I2cBus σ) (img : List Nat)
    (cur : List Nat) (s : Sys σ) (hF : Faithful R B) (hN : img.length < 65536)
    (hb : ∀ x ∈ img, x < 256) :
    ∀ j < chunk_count img.length,
      chunk_write_ok R B img cur s j = true ∧ (chunk_readback R B img cur s j).ok = true ∧
      (chunk_readback R B img cur s j).buf = chunk img j := by
  intro j hj
  have hj' : 16 * j < img.length := by
    unfold chunk_count at hj
    omega
  exact (chunk_passes_iff R B img cur s j hN hj').1 (faithful_passes R B img cur s hF hN hb j hj)

theorem chunk_ops_reg (R : MpuRegs) (img : List Nat) (k : Nat) :
    ∀ op ∈ chunk_ops R img k, BusOp.reg op = R.BANK_SEL ∨ BusOp.reg op = R.MEM_R_W := by
  intro op hop
  simp only [chunk_ops, List.mem_cons, List.mem_singleton, List.not_mem_nil, or_false] at hop
  rcases hop with h | h | h | h <;> subst h <;> simp [BusOp.reg]

/-- C5. Chunking completeness: on a device where every write succeeds and every
banked read returns what was just written, loading an image of `N` bytes
(`0 < N < 2^16`, with enough loop budget) returns true; the transactions issued are
exactly the passes `chunk_ops` for the chunks `0 .. ceil(N/16) - 1` in order (chunk `k`
selected at address `16 * k`) followed by the entry-address write, so the writes to
`MEM_R_W` are exactly the `ceil(N/16)` chunks; every chunk but the last has 16 bytes,
the last has `N mod 16` bytes (16 if that is 0), and the chunks concatenated give the
image. -/
theorem dmp_load_firmware_chunking {σ : Type} (R : MpuRegs) (B : I2cBus σ) (img : List Nat)
    (cur : List Nat) (s : Sys σ) (fuel : Nat) (hF : Faithful R B) (h0 : 0 < img.length)
    (hN : img.length < 65536) (hb : ∀ x ∈ img, x < 256)
    (hfuel : chunk_count img.length ≤ fuel) :
    ∃ s', dmp_load_firmware R B img fuel cur s = some (true, s') ∧
      s'.trace = s.trace ++ (List.range (chunk_count img.length)).flatMap (chunk_ops R img) ++
        [entry_op R] ∧
      (R.MEM_R_W ≠ R.BANK_SEL → R.MEM_R_W ≠ R.PRGM_START_H →
        mem_writes R (s'.trace.drop s.trace.length) =
          (List.range (chunk_count img.length)).map (chunk img)) ∧
      (∀ k, k + 1 < chunk_count img.length → (chunk img k).length = 16) ∧
      (chunk img (chunk_count img.length - 1)).length =
        (if img.length % 16 = 0 then 16 else img.length % 16) ∧
      (List.range (chunk_count img.length)).flatMap (chunk img) = img := by
  obtain ⟨hrun, htr⟩ := dmp_load_firmware_all_pass R B img cur s fuel hN hfuel
    (faithful_passes R B img cur s hF hN hb)
  have hok : (i2c_write B
      (after_chunks R B img (chunk_count img.length) { ok := true, cur := cur, sys := s }).sys
      R.MPU_ADDR R.PRGM_START_H [0x04, 0x00]).1 = true := hF.1 _ _ _ _
  refine ⟨_, hrun.trans (congrArg some (Prod.ext hok rfl)), htr, ?_, ?_, ?_, ?_⟩
  · intro h1 h2
    rw [htr, List.append_assoc, List.drop_left]
    unfold mem_writes
    have := mem_writes_chunks R img h1 (chunk_count img.length)
    unfold mem_writes at this
    rw [List.filterMap_append, this]
    simp [entry_op, h2.symm]
  · intro k hk
    rw [chunk_length]
    unfold chunk_count at hk
    omega
  · rw [chunk_length]
    unfold chunk_count
    split_ifs <;> omega
  · rw [chunks_concat]
    exact List.take_of_length_le (chunk_count_bounds img.length).2

/-- C5 on the memory device with the 35-byte test image: the load returns true and
the writes to `MEM_R_W` are the three chunks of 16, 16 and 3 bytes. -/
theorem dmp_load_firmware_chunking_witness :
    ∃ s', dmp_load_firmware mpu6050_regs (ram_bus mpu6050_regs none) test_image 3 []
        (fresh ram0) = some (true, s') ∧
      mem_writes mpu6050_regs s'.trace =
        [[3, 10, 17, 24, 31, 38, 45, 52, 59, 66, 73, 80, 87, 94, 101, 108],
         [115, 122, 129, 136, 143, 150, 157, 164, 171, 178, 185, 192, 199, 206, 213, 220],
         [227, 234, 241]] := by
  obtain ⟨s', h1, _, h3, _⟩ := dmp_load_firmware_chunking mpu6050_regs
    (ram_bus mpu6050_regs none) test_image [] (fresh ram0) 3
    (ram_bus_faithful mpu6050_regs (by decide)) (by decide) (by decide) (by decide) (by decide)
  exact ⟨s', h1, (h3 (by decide) (by decide)).trans (by decide)⟩

theorem flatMap_chunk_ops_reg (R : MpuRegs) (img : List Nat) (k : Nat) :
    ∀ op ∈ (List.range k).flatMap (chunk_ops R img),
      BusOp.reg op = R.BANK_SEL ∨ BusOp.reg op = R.MEM_R_W := by
  intro op hop
  rw [List.mem_flatMap] at hop
  obtain ⟨j, _, hj⟩ := hop
  exact chunk_ops_reg R img j op hj

/-- C6. Firmware verify, failure side: if the passes for the chunks before chunk `k`
succeed and in the pass for chunk `k` the chunk write fails, or the readback fails,
or some byte read back differs from the image, then `dmp_load_firmware` returns
false; the transactions it issued are the complete passes of the chunks before `k`
followed by a non-empty initial part of the pass for chunk `k`, hence nothing for a
later chunk, and no write to `PRGM_START_H`. -/
theorem dmp_load_firmware_abort {σ : Type} (R : MpuRegs) (B : I2cBus σ) (img : List Nat)
    (cur : List Nat) (s : Sys σ) (fuel k : Nat) (hN : img.length < 65536)
    (hk : 16 * k < img.length) (hfuel : k < fuel)
    (hpass : ∀ j < k,
      chunk_write_ok R B img cur s j = true ∧ (chunk_readback R B img cur s j).ok = true ∧
      (chunk_readback R B img cur s j).buf = chunk img j)
    (hfail : chunk_write_ok R B img cur s k = false ∨
      (chunk_readback R B img cur s k).ok = false ∨
      ∃ i, i < (chunk img k).length ∧
        (chunk_readback R B img cur s k).buf.getD i 0 ≠ img.getD (16 * k + i) 0) :
    ∃ s', dmp_load_firmware R B img fuel cur s = some (false, s') ∧
      (∃ n, 1 ≤ n ∧ n ≤ 4 ∧
        s'.trace = s.trace ++ (List.range k).flatMap (chunk_ops R img) ++
          (chunk_ops R img k).take n) ∧
      (R.PRGM_START_H ≠ R.BANK_SEL → R.PRGM_START_H ≠ R.MEM_R_W →
        ∀ op ∈ s'.trace.drop s.trace.length, BusOp.reg op ≠ R.PRGM_START_H) := by
  have hpass' : ∀ j < k, chunk_passes R B img cur s j = true := fun j hj =>
    (chunk_passes_iff R B img cur s j hN (by omega)).2 (hpass j hj)
  have hnot : ¬ chunk_passes R B img cur s k = true := by
    rw [chunk_passes_iff R B img cur s k hN hk]
    rintro ⟨h1, h2, h3⟩
    rcases hfail with h | h | ⟨i, hi, h⟩
    · rw [h1] at h
      exact Bool.noConfusion h
    · rw [h2] at h
      exact Bool.noConfusion h
    · rw [h3, chunk_getD img k i hi] at h
      exact h rfl
  have hreach := dmp_load_chunks_reach R B img cur s hN k (by omega) hpass' fuel (by omega)
  have hmin : min (16 * k) img.length = 16 * k := by omega
  have hf : fuel - k = (fuel - (k + 1)) + 1 := by omega
  rw [hmin, hf, dmp_load_chunks_step R B img _ _ _ _ hk] at hreach
  rw [chunk_passes_eq] at hnot
  rw [if_neg hnot] at hreach
  obtain ⟨n, hn1, hn4, htr⟩ := (dmp_load_chunk_trace R B img k
    (after_chunks R B img k { ok := true, cur := cur, sys := s }).cur
    (after_chunks R B img k { ok := true, cur := cur, sys := s }).sys hN hk).2
  rw [after_chunks_trace R B img cur s hN k (by omega) hpass'] at htr
  refine ⟨_, ?_, ⟨n, hn1, hn4, htr⟩, ?_⟩
  · unfold dmp_load_firmware
    rw [hreach]
  · intro h1 h2 op hop
    rw [htr, List.append_assoc, List.drop_left, List.mem_append] at hop
    rcases hop with hop | hop
    · rcases flatMap_chunk_ops_reg R img k op hop with h | h
      · rw [h]
        exact fun e => h1 e.symm
      · rw [h]
        exact fun e => h2 e.symm
    · rcases chunk_ops_reg R img k op (List.mem_of_mem_take hop) with h | h
      · rw [h]
        exact fun e => h1 e.symm
      · rw [h]
        exact fun e => h2 e.symm

/-- C6 on a memory device that corrupts the byte at address 20 when read: chunk 0
passes, chunk 1 reads back a wrong byte at position 4, the load returns false and
the trace holds the passes of chunks 0 and 1 only, without `PRGM_START_H` (0x70). -/
theorem dmp_load_firmware_abort_witness :
    ∃ s', dmp_load_firmware mpu6050_regs (ram_bus mpu6050_regs (some 20)) test_image 3 []
        (fresh ram0) = some (false, s') ∧
      s'.trace.length = 8 ∧ ∀ op ∈ s'.trace, BusOp.reg op ≠ 0x70 := by
  obtain ⟨s', h1, ⟨n, hn1, hn4, h2⟩, h3⟩ := dmp_load_firmware_abort mpu6050_regs
    (ram_bus mpu6050_regs (some 20)) test_image [] (fresh ram0) 3 1 (by decide) (by decide)
    (by decide) (by decide) (Or.inr (Or.inr ⟨4, by decide, by decide⟩))
  refine ⟨s', h1, ?_, h3 (by decide) (by decide)⟩
  have h4 : s' = (dmp_load_chunk mpu6050_regs (ram_bus mpu6050_regs (some 20)) test_image 16
      (after_chunks mpu6050_regs (ram_bus mpu6050_regs (some 20)) test_image 1
        { ok := true, cur := [], sys := fresh ram0 }).cur
      (after_chunks mpu6050_regs (ram_bus mpu6050_regs (some 20)) test_image 1
        { ok := true, cur := [], sys := fresh ram0 }).sys).sys := by
    have h5 : dmp_load_firmware mpu6050_regs (ram_bus mpu6050_regs (some 20)) test_image 3 []
        (fresh ram0) = some (false, _) := rfl
    rw [h1] at h5
    exact (Prod.mk.inj (Option.some.inj h5)).2
  rw [h4]
  decide

/-- C7. Firmware verify, success side: when in every pass the chunk write succeeds,
the readback succeeds and the bytes read back equal the chunk, `dmp_load_firmware`
(with enough loop budget) issues, after the passes of all `ceil(N/16)` chunks, the
2-byte write of `[0x04, 0x00]` to `PRGM_START_H` as its last transaction, and it
returns true if that write succeeds and false if it fails. -/
theorem dmp_load_firmware_entry {σ : Type} (R : MpuRegs) (B : I2cBus σ) (img : List Nat)
    (cur : List Nat) (s : Sys σ) (fuel : Nat) (hN : img.length < 65536)
    (hfuel : chunk_count img.length ≤ fuel)
    (hpass : ∀ j < chunk_count img.length,
      chunk_write_ok R B img cur s j = true ∧ (chunk_readback R B img cur s j).ok = true ∧
      (chunk_readback R B img cur s j).buf = chunk img j) :
    ∃ ok s', dmp_load_firmware R B img fuel cur s = some (ok, s') ∧
      s'.trace = s.trace ++ (List.range (chunk_count img.length)).flatMap (chunk_ops R img) ++
        [BusOp.write R.MPU_ADDR R.PRGM_START_H [0x04, 0x00]] ∧
      ok = (B.i2c_write
        (after_chunks R B img (chunk_count img.length) { ok := true, cur := cur, sys := s }).sys.dev
        R.MPU_ADDR R.PRGM_START_H [0x04, 0x00]).1 := by
  have hpass' : ∀ j < chunk_count img.length, chunk_passes R B img cur s j = true := by
    intro j hj
    have hj' : 16 * j < img.length := by
      unfold chunk_count at hj
      omega
    exact (chunk_passes_iff R B img cur s j hN hj').2 (hpass j hj)
  obtain ⟨hrun, htr⟩ := dmp_load_firmware_all_pass R B img cur s fuel hN hfuel hpass'
  exact ⟨_, _, hrun, htr, rfl⟩

/-- C7 on the memory device with the 35-byte test image: the load returns true and
ends with the write of `[0x04, 0x00]` to `PRGM_START_H` (0x70), the 13th
transaction. -/
theorem dmp_load_firmware_entry_witness :
    ∃ s', dmp_load_firmware mpu6050_regs (ram_bus mpu6050_regs none) test_image 3 []
        (fresh ram0) = some (true, s') ∧
      s'.trace.getLast? = some (BusOp.write 0x68 0x70 [0x04, 0x00]) ∧
      s'.trace.length = 13 := by
  obtain ⟨ok, s', h1, h2, h3⟩ := dmp_load_firmware_entry mpu6050_regs
    (ram_bus mpu6050_regs none) test_image [] (fresh ram0) 3 (by decide) (by decide)
    (faithful_chunks mpu6050_regs (ram_bus mpu6050_regs none) test_image [] (fresh ram0)
      (ram_bus_faithful mpu6050_regs (by decide)) (by decide) (by decide))
  have hok : ok = true := by
    rw [h3]
    exact (ram_bus_faithful mpu6050_regs (by decide)).1 _ _ _ _
  subst hok
  refine ⟨s', h1, ?_, ?_⟩
  · rw [h2, List.getLast?_append]
    rfl
  · rw [h2]
    decide

/-! ## Calibration -/

theorem hi_lo_byte_cast (v : Int) :
    ((hi_byte v : Nat) : Int) = (v / 256) % 256 ∧ ((lo_byte v : Nat) : Int) = v % 256 := by
  unfold hi_byte lo_byte
  constructor
  · exact Int.toNat_of_nonneg (Int.emod_nonneg _ (by norm_num))
  · exact Int.toNat_of_nonneg (Int.emod_nonneg _ (by norm_num))

theorem hi_lo_byte_lt (v : Int) : hi_byte v < 256 ∧ lo_byte v < 256 := by
  obtain ⟨h1, h2⟩ := hi_lo_byte_cast v
  constructor <;> omega

theorem to_int16_bytes (v : Int) : to_int16 (hi_byte v * 256 + lo_byte v) = wrap16 v := by
  obtain ⟨h1, h2⟩ := hi_lo_byte_cast v
  unfold to_int16 wrap16
  split_ifs <;> omega

theorem wrap16_range (x : Int) : -32768 ≤ wrap16 x ∧ wrap16 x ≤ 32767 := by
  unfold wrap16
  omega

theorem wrap16_id (x : Int) (h1 : -32768 ≤ x) (h2 : x ≤ 32767) : wrap16 x = x := by
  unfold wrap16
  omega

theorem decode_bytes (v : Int) :
    to_int16 (((hi_byte v % 256) <<< 8) ||| (lo_byte v % 256)) = wrap16 v := by
  obtain ⟨h1, h2⟩ := hi_lo_byte_lt v
  rw [Nat.mod_eq_of_lt h1, Nat.mod_eq_of_lt h2, shl8_or _ _ h2]
  exact to_int16_bytes v

theorem i2c_read_buf_getD {σ : Type} (B : I2cBus σ) (s : Sys σ) (dev reg len i : Nat)
    (h : i < len) :
    (i2c_read B s dev reg len).buf.getD i 0 = (B.i2c_read s.dev dev reg len).2.1 i % 256 := by
  simp only [i2c_read]
  rw [List.getD_eq_getElem _ _ (by simpa using h)]
  simp only [List.getElem_map, List.getElem_range]

/-- A call of `dmp_read_fifo` on the synthetic device reads the one pending record. -/
theorem synth_read_fifo (R : MpuRegs) (hR : synth_regs_ok R) (gain : Int) (ta tg : Vec3)
    (s : Sys SynthDev) (pckt : mpu_packet_t) (more : Nat) :
    dmp_read_fifo R (synth_bus R gain ta tg) s pckt more [] =
      { ok := true, pckt := synth_packet gain ta tg s.dev.accel_reg s.dev.gyro_reg, more := 0,
        sys := { dev := s.dev
                 trace := s.trace ++ [BusOp.read R.MPU_ADDR R.FIFO_COUNT_H 2,
                   BusOp.read R.MPU_ADDR R.FIFO_R_W 32] } } := by
  have hne : R.FIFO_R_W ≠ R.FIFO_COUNT_H := fun e => hR.1 e.symm
  have hcnt : i2c_read (synth_bus R gain ta tg) s R.MPU_ADDR R.FIFO_COUNT_H 2 =
      { ok := true, buf := [0, 32],
        sys := { dev := s.dev, trace := s.trace ++ [BusOp.read R.MPU_ADDR R.FIFO_COUNT_H 2] } } := by
    simp [i2c_read, synth_bus, List.range_succ]
  have hdat : ∀ s1 : Sys SynthDev,
      (i2c_read (synth_bus R gain ta tg) s1 R.MPU_ADDR R.FIFO_R_W 32).ok = true ∧
      (i2c_read (synth_bus R gain ta tg) s1 R.MPU_ADDR R.FIFO_R_W 32).sys =
        { dev := s1.dev, trace := s1.trace ++ [BusOp.read R.MPU_ADDR R.FIFO_R_W 32] } ∧
      ∀ i, i < 32 → (i2c_read (synth_bus R gain ta tg) s1 R.MPU_ADDR R.FIFO_R_W 32).buf.getD i 0 =
        (synth_record gain ta tg s1.dev).getD i 0 % 256 := by
    intro s1
    refine ⟨by simp [i2c_read, synth_bus, hne], by simp [i2c_read, synth_bus, hne], ?_⟩
    intro i hi
    rw [i2c_read_buf_getD _ _ _ _ _ _ hi]
    simp [synth_bus, hne]
  obtain ⟨d1, d2, d3⟩ := hdat
    { dev := s.dev, trace := s.trace ++ [BusOp.read R.MPU_ADDR R.FIFO_COUNT_H 2] }
  have hunpack : dmp_unpack (i2c_read (synth_bus R gain ta tg)
      { dev := s.dev, trace := s.trace ++ [BusOp.read R.MPU_ADDR R.FIFO_COUNT_H 2] }
      R.MPU_ADDR R.FIFO_R_W 32).buf = synth_packet gain ta tg s.dev.accel_reg s.dev.gyro_reg := by
    have e : ∀ x : mpu_packet_t,
        x = { quat := x.quat, accel := x.accel, gyro := x.gyro } := fun x => rfl
    rw [e (dmp_unpack _), dmp_unpack_quat, dmp_unpack_accel, dmp_unpack_gyro]
    simp only [d3 _ (by norm_num : (0 : Nat) < 32), d3 _ (by norm_num : (1 : Nat) < 32),
      d3 _ (by norm_num : (4 : Nat) < 32), d3 _ (by norm_num : (5 : Nat) < 32),
      d3 _ (by norm_num : (8 : Nat) < 32), d3 _ (by norm_num : (9 : Nat) < 32),
      d3 _ (by norm_num : (12 : Nat) < 32), d3 _ (by norm_num : (13 : Nat) < 32),
      d3 _ (by norm_num : (16 : Nat) < 32), d3 _ (by norm_num : (17 : Nat) < 32),
      d3 _ (by norm_num : (18 : Nat) < 32), d3 _ (by norm_num : (19 : Nat) < 32),
      d3 _ (by norm_num : (20 : Nat) < 32), d3 _ (by norm_num : (21 : Nat) < 32),
      d3 _ (by norm_num : (22 : Nat) < 32), d3 _ (by norm_num : (23 : Nat) < 32),
      d3 _ (by norm_num : (24 : Nat) < 32), d3 _ (by norm_num : (25 : Nat) < 32),
      d3 _ (by norm_num : (26 : Nat) < 32), d3 _ (by norm_num : (27 : Nat) < 32)]
    simp only [synth_record, List.getD_cons_zero, List.getD_cons_succ, decode_bytes]
    rfl
  simp only [dmp_read_fifo, mpu_read_fifo_stream, PACKET_LENGTH, hcnt]
  have h32 : (([0, 32] : List Nat).getD 0 0 <<< 8 ||| ([0, 32] : List Nat).getD 1 0) % 65536 = 32 := by
    decide
  simp only [h32, d1, d2, hunpack]
  simp
  exact hunpack

theorem synth_set_gyro_bias (R : MpuRegs) (gain : Int) (ta tg : Vec3) (s : Sys SynthDev)
    (gb : Vec3) (h : gb.in_int16) :
    (mpu_set_gyro_bias R (synth_bus R gain ta tg) s gb).dev =
      { accel_reg := s.dev.accel_reg, gyro_reg := gb } := by
  obtain ⟨⟨a1, a2⟩, ⟨b1, b2⟩, ⟨c1, c2⟩⟩ := h
  simp only [mpu_set_gyro_bias, i2c_write, synth_bus, Vec3.get, List.getD_cons_zero,
    List.getD_cons_succ, to_int16_bytes]
  norm_num
  rw [wrap16_id _ a1 a2, wrap16_id _ b1 b2, wrap16_id _ c1 c2]

theorem synth_set_accel_bias (R : MpuRegs) (gain : Int) (ta tg : Vec3) (s : Sys SynthDev)
    (ab : Vec3) (h : ab.in_int16) :
    (mpu_set_accel_bias R (synth_bus R gain ta tg) s ab).dev =
      { accel_reg := ab, gyro_reg := s.dev.gyro_reg } := by
  obtain ⟨⟨a1, a2⟩, ⟨b1, b2⟩, ⟨c1, c2⟩⟩ := h
  simp only [mpu_set_accel_bias, i2c_write, synth_bus, Vec3.get, List.getD_cons_zero,
    List.getD_cons_succ, to_int16_bytes]
  norm_num
  rw [wrap16_id _ a1 a2, wrap16_id _ b1 b2, wrap16_id _ c1 c2]

theorem accel_correct_in_int16 (step : Int) (pckt : mpu_packet_t) (ab : Vec3)
    (h : ab.in_int16) : (accel_correct step pckt ab).in_int16 := by
  obtain ⟨⟨a1, a2⟩, ⟨b1, b2⟩, ⟨c1, c2⟩⟩ := h
  unfold accel_correct Vec3.in_int16
  refine ⟨?_, ?_, ?_⟩ <;> dsimp only <;> split_ifs <;>
    first | exact wrap16_range _ | exact ⟨by assumption, by assumption⟩

theorem gyro_correct_in_int16 (pckt : mpu_packet_t) (gb : Vec3)
    (h : gb.in_int16) : (gyro_correct pckt gb).in_int16 := by
  obtain ⟨⟨a1, a2⟩, ⟨b1, b2⟩, ⟨c1, c2⟩⟩ := h
  unfold gyro_correct Vec3.in_int16
  refine ⟨?_, ?_, ?_⟩ <;> dsimp only <;> split_ifs <;>
    first | exact wrap16_range _ | exact ⟨by assumption, by assumption⟩

/-- One iteration of the calibration loop on the synthetic device: one record is
read, the correction is computed from the readings for the applied biases, and the
new biases are applied. -/
theorem synth_iteration (R : MpuRegs) (hR : synth_regs_ok R) (gain : Int) (ta tg : Vec3)
    (fuel scnt : Nat) (st : CalibState SynthDev) (hfuel : 1 ≤ fuel) (hinv : synth_inv st) :
    ∃ st1, calib_iteration R (synth_bus R gain ta tg) fuel scnt st = some st1 ∧
      synth_inv st1 ∧
      st1.accel_step = (if scnt = 40 then 2 else st.accel_step) ∧
      st1.accel_bias = accel_correct (if scnt = 40 then 2 else st.accel_step)
        (synth_packet gain ta tg st.accel_bias st.gyro_bias) st.accel_bias ∧
      st1.gyro_bias = gyro_correct (synth_packet gain ta tg st.accel_bias st.gyro_bias)
        st.gyro_bias ∧
      st1.pckt = synth_packet gain ta tg st.accel_bias st.gyro_bias := by
  obtain ⟨h1, h2, h3, h4⟩ := hinv
  obtain ⟨f, rfl⟩ : ∃ f, fuel = f + 1 := ⟨fuel - 1, by omega⟩
  have hdrain : drain_fifo R (synth_bus R gain ta tg) (f + 1) st.pckt st.more st.sys =
      some (synth_packet gain ta tg st.accel_bias st.gyro_bias, 0,
        { dev := st.sys.dev
          trace := st.sys.trace ++ [BusOp.read R.MPU_ADDR R.FIFO_COUNT_H 2,
            BusOp.read R.MPU_ADDR R.FIFO_R_W 32] }) := by
    rw [drain_fifo, synth_read_fifo R hR, h1, h2]
    simp
  have ha := accel_correct_in_int16 (if scnt = 40 then 2 else st.accel_step)
    (synth_packet gain ta tg st.accel_bias st.gyro_bias) st.accel_bias h3
  have hg := gyro_correct_in_int16 (synth_packet gain ta tg st.accel_bias st.gyro_bias)
    st.gyro_bias h4
  simp only [calib_iteration, hdrain, beq_iff_eq]
  refine ⟨_, rfl, ⟨?_, ?_, ha, hg⟩, rfl, rfl, rfl, rfl⟩
  · rw [synth_set_accel_bias R gain ta tg _ _ ha]
  · rw [synth_set_accel_bias R gain ta tg _ _ ha, synth_set_gyro_bias R gain ta tg _ _ hg]

/-- The calibration loop on the synthetic device never blocks and follows
`synth_traj`. -/
theorem synth_loop (R : MpuRegs) (hR : synth_regs_ok R) (gain : Int) (ta tg : Vec3)
    (fuel : Nat) (hfuel : 1 ≤ fuel) :
    ∀ (n scnt : Nat) (st : CalibState SynthDev), synth_inv st →
      ∃ st1, calib_loop R (synth_bus R gain ta tg) fuel n scnt st = some st1 ∧
        synth_inv st1 ∧
        (st1.accel_step, st1.accel_bias, st1.gyro_bias) =
          synth_traj gain ta tg n scnt (st.accel_step, st.accel_bias, st.gyro_bias) := by
  intro n
  induction n with
  | zero =>
    intro scnt st hinv
    exact ⟨st, rfl, hinv, rfl⟩
  | succ n ih =>
    intro scnt st hinv
    obtain ⟨st1, h1, hinv1, hs, ha, hg, _⟩ :=
      synth_iteration R hR gain ta tg fuel scnt st hfuel hinv
    obtain ⟨st2, h2, hinv2, htraj⟩ := ih (scnt + 1) st1 hinv1
    refine ⟨st2, ?_, hinv2, ?_⟩
    · rw [calib_loop, h1]
      exact h2
    · rw [htraj, synth_traj, synth_step, hs, ha, hg]

theorem synth_traj_succ (gain : Int) (ta tg : Vec3) :
    ∀ (n scnt : Nat) (c : Int × Vec3 × Vec3),
      synth_traj gain ta tg (n + 1) scnt c =
        synth_step gain ta tg (scnt + n) (synth_traj gain ta tg n scnt c) := by
  intro n
  induction n with
  | zero =>
    intro scnt c
    rfl
  | succ n ih =>
    intro scnt c
    rw [synth_traj, ih (scnt + 1) (synth_step gain ta tg scnt c)]
    have e : scnt + 1 + n = scnt + (n + 1) := by omega
    rw [e]
    rfl

theorem synth_begin (R : MpuRegs) (hR : synth_regs_ok R) (gain : Int) (ta tg : Vec3)
    (a0 g0 : Vec3) (tr : List BusOp) (pckt : mpu_packet_t) (more : Nat) (h : a0.in_int16) :
    synth_inv (calib_begin R (synth_bus R gain ta tg)
      { dev := { accel_reg := a0, gyro_reg := g0 }, trace := tr } pckt more) ∧
    (calib_begin R (synth_bus R gain ta tg)
      { dev := { accel_reg := a0, gyro_reg := g0 }, trace := tr } pckt more).accel_step = 10 ∧
    (calib_begin R (synth_bus R gain ta tg)
      { dev := { accel_reg := a0, gyro_reg := g0 }, trace := tr } pckt more).accel_bias = a0 ∧
    (calib_begin R (synth_bus R gain ta tg)
      { dev := { accel_reg := a0, gyro_reg := g0 }, trace := tr } pckt more).gyro_bias =
        { x0 := 0, x1 := 0, x2 := 0 } := by
  obtain ⟨h1, h2, h3, h4, h5, h6, h7⟩ := hR
  obtain ⟨⟨a1, a2⟩, ⟨b1, b2⟩, ⟨c1, c2⟩⟩ := h
  have hz : Vec3.in_int16 { x0 := 0, x1 := 0, x2 := 0 } := by
    unfold Vec3.in_int16
    norm_num
  have hread : mpu_read_accel_bias R (synth_bus R gain ta tg)
      { dev := { accel_reg := a0, gyro_reg := g0 }, trace := tr } =
      (a0, { dev := { accel_reg := a0, gyro_reg := g0 },
             trace := tr ++ [BusOp.read R.MPU_ADDR 0x06 2, BusOp.read R.MPU_ADDR 0x08 2,
               BusOp.read R.MPU_ADDR 0x0A 2] }) := by
    simp only [mpu_read_accel_bias, i2c_read, synth_bus]
    have e6 : ¬ (0x06 + 0 * 2 = R.FIFO_COUNT_H) := fun e => h2 e.symm
    have e8 : ¬ (0x06 + 1 * 2 = R.FIFO_COUNT_H) := fun e => h3 e.symm
    have e10 : ¬ (0x06 + 2 * 2 = R.FIFO_COUNT_H) := fun e => h4 e.symm
    have f6 : ¬ (0x06 + 0 * 2 = R.FIFO_R_W) := fun e => h5 e.symm
    have f8 : ¬ (0x06 + 1 * 2 = R.FIFO_R_W) := fun e => h6 e.symm
    have f10 : ¬ (0x06 + 2 * 2 = R.FIFO_R_W) := fun e => h7 e.symm
    simp only [e6, e8, e10, f6, f8, f10, if_false]
    norm_num [List.range_succ, decode_bytes]
    rw [wrap16_id _ a1 a2, wrap16_id _ b1 b2, wrap16_id _ c1 c2]
  simp only [calib_begin, hread]
  refine ⟨⟨?_, ?_, ⟨⟨a1, a2⟩, ⟨b1, b2⟩, ⟨c1, c2⟩⟩, hz⟩, trivial, trivial, trivial⟩
  · rw [synth_set_gyro_bias R gain ta tg _ _ hz]
  · rw [synth_set_gyro_bias R gain ta tg _ _ hz]

theorem gain_sign (k d : Int) (hk : 1 ≤ k) :
    (0 < d → 0 < k * d) ∧ (d < 0 → k * d < 0) ∧ (d = 0 → k * d = 0) := by
  refine ⟨fun h => by positivity, fun h => ?_, fun h => by simp [h]⟩
  have : 0 < k * (-d) := by
    have hd : 0 < -d := by omega
    positivity
  linarith [mul_neg k d]

theorem gain_bound (k d m : Int) (hk : 1 ≤ k) (h1 : -m ≤ d) (h2 : d ≤ m) :
    -(k * m) ≤ k * d ∧ k * d ≤ k * m := by
  have hk0 : (0 : Int) ≤ k := by omega
  constructor
  · have := mul_le_mul_of_nonneg_left h1 hk0
    linarith [mul_neg k m]
  · exact mul_le_mul_of_nonneg_left h2 hk0

/-- One axis under negative feedback: with `p = k * (a - t)`, `k ≥ 1`, a bias moved by
`s ≤ 10` against the sign of `p` stays within `m ≥ 9` of the true value `t`, and for
`s ≤ 2` its distance to `t` does not grow. -/
theorem axis_update (k d p s m a t a1 : Int) (hk : 1 ≤ k) (hp : p = k * d) (hd : d = a - t)
    (hs1 : 1 ≤ s) (hs : s ≤ 10) (hm : 9 ≤ m) (hd1 : -m ≤ d) (hd2 : d ≤ m)
    (ht1 : -32768 ≤ t - m) (ht2 : t + m ≤ 32767)
    (ha : (0 < p ∧ a1 = wrap16 (a - s)) ∨ (p < 0 ∧ a1 = wrap16 (a + s)) ∨ a1 = a) :
    (-m ≤ a1 - t ∧ a1 - t ≤ m) ∧ (s ≤ 2 → |a1 - t| ≤ |a - t|) := by
  obtain ⟨g1, g2, g3⟩ := gain_sign k d hk
  have hpos : 0 < p → 0 < d := by
    intro h
    by_contra hc
    rcases lt_or_eq_of_le (not_lt.mp hc) with h1 | h1
    · have := g2 h1
      omega
    · have := g3 h1
      omega
  have hneg : p < 0 → d < 0 := by
    intro h
    by_contra hc
    rcases lt_or_eq_of_le (not_lt.mp hc) with h1 | h1
    · have := g1 h1
      omega
    · have := g3 h1.symm
      omega
  rcases abs_cases (a1 - t) with ⟨e1, _⟩ | ⟨e1, _⟩ <;>
  rcases abs_cases (a - t) with ⟨e2, _⟩ | ⟨e2, _⟩ <;>
  rcases ha with ⟨h, rfl⟩ | ⟨h, rfl⟩ | rfl <;>
  first
  | (have hq := hpos h
     unfold wrap16 at *
     omega)
  | (have hq := hneg h
     unfold wrap16 at *
     omega)
  | omega

theorem accel_axis (gain t a s m c : Int) (hg : gain ≤ -1) (hs1 : 1 ≤ s) (hs : s ≤ 10)
    (hm : 9 ≤ m) (hgm : -gain * m ≤ 16383) (hd1 : -m ≤ a - t) (hd2 : a - t ≤ m)
    (ht1 : -32768 ≤ t - m) (ht2 : t + m ≤ 32767) (hc : c = 0 ∨ c = 16384) :
    (-m ≤ (if wrap16 (c + gain * (t - a)) > c then wrap16 (a - s)
        else if wrap16 (c + gain * (t - a)) < c then wrap16 (a + s) else a) - t ∧
      (if wrap16 (c + gain * (t - a)) > c then wrap16 (a - s)
        else if wrap16 (c + gain * (t - a)) < c then wrap16 (a + s) else a) - t ≤ m) ∧
    (s ≤ 2 →
      |(if wrap16 (c + gain * (t - a)) > c then wrap16 (a - s)
        else if wrap16 (c + gain * (t - a)) < c then wrap16 (a + s) else a) - t| ≤ |a - t|) := by
  have hp : gain * (t - a) = -gain * (a - t) := by ring
  obtain ⟨b1, b2⟩ := gain_bound (-gain) (a - t) m (by omega) hd1 hd2
  have hw : wrap16 (c + gain * (t - a)) = c + gain * (t - a) := by
    apply wrap16_id <;> rcases hc with rfl | rfl <;> omega
  rw [hw]
  apply axis_update (-gain) (a - t) (gain * (t - a)) s m a t _ (by omega) hp rfl hs1 hs hm
    hd1 hd2 ht1 ht2
  split_ifs with h1 h2
  · exact Or.inl ⟨by omega, rfl⟩
  · exact Or.inr (Or.inl ⟨by omega, rfl⟩)
  · exact Or.inr (Or.inr rfl)

theorem gyro_axis (gain t a m : Int) (hg : gain ≤ -1)
    (hm : 9 ≤ m) (hgm : -gain * m ≤ 16383) (hd1 : -m ≤ a - t) (hd2 : a - t ≤ m)
    (ht1 : -32768 ≤ t - m) (ht2 : t + m ≤ 32767) :
    (-m ≤ (if wrap16 (gain * (t - a)) > 1 then wrap16 (a - 1)
        else if wrap16 (gain * (t - a)) < -1 then wrap16 (a + 1) else a) - t ∧
      (if wrap16 (gain * (t - a)) > 1 then wrap16 (a - 1)
        else if wrap16 (gain * (t - a)) < -1 then wrap16 (a + 1) else a) - t ≤ m) ∧
    |(if wrap16 (gain * (t - a)) > 1 then wrap16 (a - 1)
        else if wrap16 (gain * (t - a)) < -1 then wrap16 (a + 1) else a) - t| ≤ |a - t| := by
  have hp : gain * (t - a) = -gain * (a - t) := by ring
  obtain ⟨b1, b2⟩ := gain_bound (-gain) (a - t) m (by omega) hd1 hd2
  have hw : wrap16 (gain * (t - a)) = gain * (t - a) := by
    apply wrap16_id <;> omega
  rw [hw]
  have key := axis_update (-gain) (a - t) (gain * (t - a)) 1 m a t
    (if gain * (t - a) > 1 then wrap16 (a - 1)
      else if gain * (t - a) < -1 then wrap16 (a + 1) else a)
    (by omega) hp rfl (le_refl 1) (by norm_num) hm hd1 hd2 ht1 ht2
    (by
      split_ifs with h1 h2
      · exact Or.inl ⟨by omega, rfl⟩
      · exact Or.inr (Or.inl ⟨by omega, rfl⟩)
      · exact Or.inr (Or.inr rfl))
  exact ⟨key.1, key.2 (by norm_num)⟩

/-- One iteration against the synthetic device with negative feedback
(`gain ≤ -1`) keeps every bias within `m` of its true value; the gyro distances do not
grow, and from iteration 40 on neither do the accel distances. -/
theorem synth_step_bounded (gain : Int) (ta tg : Vec3) (m : Int) (scnt : Nat)
    (c : Int × Vec3 × Vec3) (hg : gain ≤ -1) (hm : 9 ≤ m) (hgm : -gain * m ≤ 16383)
    (hta : ta.margin m) (htg : tg.margin m) (hstep : c.1 = entry_step scnt)
    (ha : c.2.1.within ta m) (hgy : c.2.2.within tg m) :
    (synth_step gain ta tg scnt c).1 = entry_step (scnt + 1) ∧
    (synth_step gain ta tg scnt c).2.1.within ta m ∧
    (synth_step gain ta tg scnt c).2.2.within tg m ∧
    (40 ≤ scnt → ∀ i, i < 3 →
      |(synth_step gain ta tg scnt c).2.1.get i - ta.get i| ≤ |c.2.1.get i - ta.get i|) ∧
    (∀ i, i < 3 →
      |(synth_step gain ta tg scnt c).2.2.get i - tg.get i| ≤ |c.2.2.get i - tg.get i|) := by
  obtain ⟨a0, a1, a2⟩ := ha
  obtain ⟨g0, g1, g2⟩ := hgy
  obtain ⟨⟨p0, q0⟩, ⟨p1, q1⟩, ⟨p2, q2⟩⟩ := hta
  obtain ⟨⟨u0, v0⟩, ⟨u1, v1⟩, ⟨u2, v2⟩⟩ := htg
  rw [abs_le] at a0 a1 a2 g0 g1 g2
  have hs : (1 : Int) ≤ (if scnt = 40 then 2 else c.1) ∧ (if scnt = 40 then 2 else c.1) ≤ 10 ∧
      (40 ≤ scnt → (if scnt = 40 then 2 else c.1) ≤ 2) ∧
      (if scnt = 40 then 2 else c.1) = entry_step (scnt + 1) := by
    rw [hstep]
    unfold entry_step
    split_ifs <;> omega
  obtain ⟨s1, s10, s2, se⟩ := hs
  have A0 := accel_axis gain ta.x0 c.2.1.x0 _ m 0 hg s1 s10 hm hgm a0.1 a0.2 p0 q0 (Or.inl rfl)
  have A1 := accel_axis gain ta.x1 c.2.1.x1 _ m 0 hg s1 s10 hm hgm a1.1 a1.2 p1 q1 (Or.inl rfl)
  have A2 := accel_axis gain ta.x2 c.2.1.x2 _ m 16384 hg s1 s10 hm hgm a2.1 a2.2 p2 q2
    (Or.inr rfl)
  have G0 := gyro_axis gain tg.x0 c.2.2.x0 m hg hm hgm g0.1 g0.2 u0 v0
  have G1 := gyro_axis gain tg.x1 c.2.2.x1 m hg hm hgm g1.1 g1.2 u1 v1
  have G2 := gyro_axis gain tg.x2 c.2.2.x2 m hg hm hgm g2.1 g2.2 u2 v2
  simp only [zero_add] at A0 A1
  have e0 : ∀ x : Int, (x ≥ 1) = (x > 0) := fun x => by
    apply propext
    constructor <;> intro h <;> omega
  have e1 : ∀ x : Int, (x ≤ -1) = (x < 0) := fun x => by
    apply propext
    constructor <;> intro h <;> omega
  simp only [synth_step, accel_correct, gyro_correct, synth_packet, List.getD_cons_zero,
    List.getD_cons_succ, Vec3.within, Vec3.get, abs_le, e0, e1]
  refine ⟨se, ⟨A0.1, A1.1, A2.1⟩, ⟨G0.1, G1.1, G2.1⟩, ?_, ?_⟩
  · intro h40 i hi
    have hi3 : i = 0 ∨ i = 1 ∨ i = 2 := by omega
    rcases hi3 with rfl | rfl | rfl
    · exact abs_le.mp (A0.2 (s2 h40))
    · exact abs_le.mp (A1.2 (s2 h40))
    · exact abs_le.mp (A2.2 (s2 h40))
  · intro i hi
    have hi3 : i = 0 ∨ i = 1 ∨ i = 2 := by omega
    rcases hi3 with rfl | rfl | rfl
    · exact abs_le.mp G0.2
    · exact abs_le.mp G1.2
    · exact abs_le.mp G2.2

set_option maxRecDepth 100000 in
theorem synth_traj_gain_one_40 :
    synth_traj 1 { x0 := 100, x1 := 0, x2 := 0 } { x0 := 0, x1 := 0, x2 := 0 } 40 0
      (10, { x0 := 0, x1 := 0, x2 := 0 }, { x0 := 0, x1 := 0, x2 := 0 }) =
      (10, { x0 := -400, x1 := 0, x2 := 0 }, { x0 := 0, x1 := 0, x2 := 0 }) := by
  decide

set_option maxRecDepth 100000 in
theorem synth_traj_gain_one_41 :
    synth_traj 1 { x0 := 100, x1 := 0, x2 := 0 } { x0 := 0, x1 := 0, x2 := 0 } 41 0
      (10, { x0 := 0, x1 := 0, x2 := 0 }, { x0 := 0, x1 := 0, x2 := 0 }) =
      (2, { x0 := -402, x1 := 0, x2 := 0 }, { x0 := 0, x1 := 0, x2 := 0 }) := by
  decide

set_option maxRecDepth 100000 in
theorem synth_traj_edge_40 :
    synth_traj (-1) { x0 := 32767, x1 := 0, x2 := 0 } { x0 := 0, x1 := 0, x2 := 0 } 40 0
      (10, { x0 := 32366, x1 := 0, x2 := 0 }, { x0 := 0, x1 := 0, x2 := 0 }) =
      (10, { x0 := 32766, x1 := 0, x2 := 0 }, { x0 := 0, x1 := 0, x2 := 0 }) := by
  decide

set_option maxRecDepth 100000 in
theorem synth_traj_edge_41 :
    synth_traj (-1) { x0 := 32767, x1 := 0, x2 := 0 } { x0 := 0, x1 := 0, x2 := 0 } 41 0
      (10, { x0 := 32366, x1 := 0, x2 := 0 }, { x0 := 0, x1 := 0, x2 := 0 }) =
      (2, { x0 := -32768, x1 := 0, x2 := 0 }, { x0 := 0, x1 := 0, x2 := 0 }) := by
  decide

/-- The states after 40 and after 41 iterations on the synthetic device, read off
`synth_traj`. -/
theorem synth_run_40_41 (gain : Int) (ta tg a0 : Vec3) (h : a0.in_int16) :
    ∃ st40 st41,
      calib_run mpu6050_regs (synth_bus mpu6050_regs gain ta tg) 1 40
        (calib_begin mpu6050_regs (synth_bus mpu6050_regs gain ta tg)
          { dev := { accel_reg := a0, gyro_reg := { x0 := 0, x1 := 0, x2 := 0 } }, trace := [] }
          zero_packet 0) = some st40 ∧
      calib_run mpu6050_regs (synth_bus mpu6050_regs gain ta tg) 1 41
        (calib_begin mpu6050_regs (synth_bus mpu6050_regs gain ta tg)
          { dev := { accel_reg := a0, gyro_reg := { x0 := 0, x1 := 0, x2 := 0 } }, trace := [] }
          zero_packet 0) = some st41 ∧
      st40.accel_bias =
        (synth_traj gain ta tg 40 0 (10, a0, { x0 := 0, x1 := 0, x2 := 0 })).2.1 ∧
      st41.accel_bias =
        (synth_traj gain ta tg 41 0 (10, a0, { x0 := 0, x1 := 0, x2 := 0 })).2.1 := by
  have hR : synth_regs_ok mpu6050_regs := by
    unfold synth_regs_ok
    decide
  obtain ⟨hinv, hs, ha, hg⟩ := synth_begin mpu6050_regs hR gain ta tg a0
    { x0 := 0, x1 := 0, x2 := 0 } [] zero_packet 0 h
  obtain ⟨st40, h40, _, t40⟩ := synth_loop mpu6050_regs hR gain ta tg 1 (le_refl 1) 40 0 _ hinv
  obtain ⟨st41, h41, _, t41⟩ := synth_loop mpu6050_regs hR gain ta tg 1 (le_refl 1) 41 0 _ hinv
  rw [hs, ha, hg] at t40 t41
  refine ⟨st40, st41, h40, h41, ?_, ?_⟩
  · rw [← t40]
  · rw [← t41]

/-- C9, as stated, fails.  (1) On the synthetic device whose readings are
`+1 * (true bias - applied bias)`, with true accel bias 100 on axis 0 and initial
accel bias 0, the bias after iteration 40 is further from the true value than before
it (`|b_41 - 100| = 502 > 500 = |b_40 - 100|`).  (2) With readings
`-1 * (true bias - applied bias)`, true accel bias 32767 and initial accel bias 32366
on axis 0, the bias is 32766 after 40 iterations and wraps to -32768 in iteration
40 (`|b_41 - 32767| = 65535 > 1 = |b_40 - 32767|`). -/
theorem calib_convergence_fails :
    (∃ st40 st41,
      calib_run mpu6050_regs
        (synth_bus mpu6050_regs 1 { x0 := 100, x1 := 0, x2 := 0 } { x0 := 0, x1 := 0, x2 := 0 })
        1 40
        (calib_begin mpu6050_regs
          (synth_bus mpu6050_regs 1 { x0 := 100, x1 := 0, x2 := 0 } { x0 := 0, x1 := 0, x2 := 0 })
          { dev := { accel_reg := { x0 := 0, x1 := 0, x2 := 0 },
                     gyro_reg := { x0 := 0, x1 := 0, x2 := 0 } }, trace := [] }
          zero_packet 0) = some st40 ∧
      calib_run mpu6050_regs
        (synth_bus mpu6050_regs 1 { x0 := 100, x1 := 0, x2 := 0 } { x0 := 0, x1 := 0, x2 := 0 })
        1 41
        (calib_begin mpu6050_regs
          (synth_bus mpu6050_regs 1 { x0 := 100, x1 := 0, x2 := 0 } { x0 := 0, x1 := 0, x2 := 0 })
          { dev := { accel_reg := { x0 := 0, x1 := 0, x2 := 0 },
                     gyro_reg := { x0 := 0, x1 := 0, x2 := 0 } }, trace := [] }
          zero_packet 0) = some st41 ∧
      st40.accel_bias.get 0 = -400 ∧ st41.accel_bias.get 0 = -402 ∧
      |st40.accel_bias.get 0 - 100| < |st41.accel_bias.get 0 - 100|) ∧
    (∃ st40 st41,
      calib_run mpu6050_regs
        (synth_bus mpu6050_regs (-1) { x0 := 32767, x1 := 0, x2 := 0 }
          { x0 := 0, x1 := 0, x2 := 0 }) 1 40
        (calib_begin mpu6050_regs
          (synth_bus mpu6050_regs (-1) { x0 := 32767, x1 := 0, x2 := 0 }
            { x0 := 0, x1 := 0, x2 := 0 })
          { dev := { accel_reg := { x0 := 32366, x1 := 0, x2 := 0 },
                     gyro_reg := { x0 := 0, x1 := 0, x2 := 0 } }, trace := [] }
          zero_packet 0) = some st40 ∧
      calib_run mpu6050_regs
        (synth_bus mpu6050_regs (-1) { x0 := 32767, x1 := 0, x2 := 0 }
          { x0 := 0, x1 := 0, x2 := 0 }) 1 41
        (calib_begin mpu6050_regs
          (synth_bus mpu6050_regs (-1) { x0 := 32767, x1 := 0, x2 := 0 }
            { x0 := 0, x1 := 0, x2 := 0 })
          { dev := { accel_reg := { x0 := 32366, x1 := 0, x2 := 0 },
                     gyro_reg := { x0 := 0, x1 := 0, x2 := 0 } }, trace := [] }
          zero_packet 0) = some st41 ∧
      st40.accel_bias.get 0 = 32766 ∧ st41.accel_bias.get 0 = -32768 ∧
      |st40.accel_bias.get 0 - 32767| < |st41.accel_bias.get 0 - 32767|) := by
  constructor
  · obtain ⟨st40, st41, h40, h41, a40, a41⟩ := synth_run_40_41 1
      { x0 := 100, x1 := 0, x2 := 0 } { x0 := 0, x1 := 0, x2 := 0 }
      { x0 := 0, x1 := 0, x2 := 0 } (by unfold Vec3.in_int16; decide)
    rw [synth_traj_gain_one_40] at a40
    rw [synth_traj_gain_one_41] at a41
    refine ⟨st40, st41, h40, h41, ?_, ?_, ?_⟩
    · rw [a40]
      rfl
    · rw [a41]
      rfl
    · rw [a40, a41]
      decide
  · obtain ⟨st40, st41, h40, h41, a40, a41⟩ := synth_run_40_41 (-1)
      { x0 := 32767, x1 := 0, x2 := 0 } { x0 := 0, x1 := 0, x2 := 0 }
      { x0 := 32366, x1 := 0, x2 := 0 } (by unfold Vec3.in_int16; decide)
    rw [synth_traj_edge_40] at a40
    rw [synth_traj_edge_41] at a41
    refine ⟨st40, st41, h40, h41, ?_, ?_, ?_⟩
    · rw [a40]
      rfl
    · rw [a41]
      rfl
    · rw [a40, a41]
      decide

theorem synth_traj_bounded (gain : Int) (ta tg : Vec3) (m : Int) (hg : gain ≤ -1)
    (hm : 9 ≤ m) (hgm : -gain * m ≤ 16383) (hta : ta.margin m) (htg : tg.margin m) :
    ∀ (n scnt : Nat) (c : Int × Vec3 × Vec3), c.1 = entry_step scnt → c.2.1.within ta m →
      c.2.2.within tg m →
      (synth_traj gain ta tg n scnt c).1 = entry_step (scnt + n) ∧
      (synth_traj gain ta tg n scnt c).2.1.within ta m ∧
      (synth_traj gain ta tg n scnt c).2.2.within tg m := by
  intro n
  induction n with
  | zero =>
    intro scnt c h1 h2 h3
    exact ⟨h1, h2, h3⟩
  | succ n ih =>
    intro scnt c h1 h2 h3
    obtain ⟨k1, k2, k3, _, _⟩ := synth_step_bounded gain ta tg m scnt c hg hm hgm hta htg h1 h2 h3
    have := ih (scnt + 1) _ k1 k2 k3
    have e : scnt + 1 + n = scnt + (n + 1) := by omega
    rw [e] at this
    exact this

/-- C9, amended. On the synthetic device whose readings are `gain` times
(true bias - applied bias) with `gain ≤ -1`, that is a positive multiple of
(applied bias - true bias), and as long as every initial bias is within `m` of its
true value with `9 ≤ m`, `|gain| * m ≤ 16383` and `true ± m` inside the `int16_t`
range (so that no reading and no bias wraps), the calibration loop started by
`calib_begin` completes every iteration, and for every `k` from 40 on the distance of
each accel and gyro bias to its true value after iteration `k` is at most the
distance before it. -/
theorem calib_converges_negative_feedback (R : MpuRegs) (hR : synth_regs_ok R) (gain : Int)
    (hg : gain ≤ -1) (ta tg a0 g0 : Vec3) (m : Int) (hm : 9 ≤ m) (hgm : -gain * m ≤ 16383)
    (hta : ta.margin m) (htg : tg.margin m) (ha : a0.within ta m)
    (hgy : Vec3.within { x0 := 0, x1 := 0, x2 := 0 } tg m) (fuel : Nat) (hfuel : 1 ≤ fuel)
    (tr : List BusOp) (pckt : mpu_packet_t) (more : Nat) (k : Nat) (hk40 : 40 ≤ k)
    (_hk : k < 100) :
    ∃ st st1,
      calib_run R (synth_bus R gain ta tg) fuel k
        (calib_begin R (synth_bus R gain ta tg)
          { dev := { accel_reg := a0, gyro_reg := g0 }, trace := tr } pckt more) = some st ∧
      calib_run R (synth_bus R gain ta tg) fuel (k + 1)
        (calib_begin R (synth_bus R gain ta tg)
          { dev := { accel_reg := a0, gyro_reg := g0 }, trace := tr } pckt more) = some st1 ∧
      (∀ i, i < 3 → |st1.accel_bias.get i - ta.get i| ≤ |st.accel_bias.get i - ta.get i|) ∧
      (∀ i, i < 3 → |st1.gyro_bias.get i - tg.get i| ≤ |st.gyro_bias.get i - tg.get i|) := by
  have hin : a0.in_int16 := by
    obtain ⟨a1, a2, a3⟩ := ha
    obtain ⟨⟨p0, q0⟩, ⟨p1, q1⟩, ⟨p2, q2⟩⟩ := hta
    rw [abs_le] at a1 a2 a3
    unfold Vec3.in_int16
    omega
  obtain ⟨hinv, hs, hab, hgb⟩ := synth_begin R hR gain ta tg a0 g0 tr pckt more hin
  obtain ⟨st, h1, _, t1⟩ := synth_loop R hR gain ta tg fuel hfuel k 0 _ hinv
  obtain ⟨st1, h2, _, t2⟩ := synth_loop R hR gain ta tg fuel hfuel (k + 1) 0 _ hinv
  rw [hs, hab, hgb] at t1 t2
  rw [synth_traj_succ, ← t1, Nat.zero_add] at t2
  have hb := synth_traj_bounded gain ta tg m hg hm hgm hta htg k 0
    (10, a0, { x0 := 0, x1 := 0, x2 := 0 }) rfl ha hgy
  rw [← t1, Nat.zero_add] at hb
  obtain ⟨_, _, _, m1, m2⟩ := synth_step_bounded gain ta tg m k
    (st.accel_step, st.accel_bias, st.gyro_bias) hg hm hgm hta htg hb.1 hb.2.1 hb.2.2
  rw [← t2] at m1 m2
  exact ⟨st, st1, h1, h2, m1 hk40, m2⟩

/-- C9, amended, on a concrete device: gain -1, true accel biases 100, -50, 30, true
gyro biases 5, -3, 0, initial accel bias 0, bound 100, iteration 40. -/
theorem calib_converges_negative_feedback_witness :
    ∃ st st1,
      calib_run mpu6050_regs
        (synth_bus mpu6050_regs (-1) { x0 := 100, x1 := -50, x2 := 30 }
          { x0 := 5, x1 := -3, x2 := 0 }) 1 40
        (calib_begin mpu6050_regs
          (synth_bus mpu6050_regs (-1) { x0 := 100, x1 := -50, x2 := 30 }
            { x0 := 5, x1 := -3, x2 := 0 })
          { dev := { accel_reg := { x0 := 0, x1 := 0, x2 := 0 },
                     gyro_reg := { x0 := 0, x1 := 0, x2 := 0 } }, trace := [] }
          zero_packet 0) = some st ∧
      calib_run mpu6050_regs
        (synth_bus mpu6050_regs (-1) { x0 := 100, x1 := -50, x2 := 30 }
          { x0 := 5, x1 := -3, x2 := 0 }) 1 41
        (calib_begin mpu6050_regs
          (synth_bus mpu6050_regs (-1) { x0 := 100, x1 := -50, x2 := 30 }
            { x0 := 5, x1 := -3, x2 := 0 })
          { dev := { accel_reg := { x0 := 0, x1 := 0, x2 := 0 },
                     gyro_reg := { x0 := 0, x1 := 0, x2 := 0 } }, trace := [] }
          zero_packet 0) = some st1 ∧
      (∀ i, i < 3 →
        |st1.accel_bias.get i - Vec3.get { x0 := 100, x1 := -50, x2 := 30 } i| ≤
          |st.accel_bias.get i - Vec3.get { x0 := 100, x1 := -50, x2 := 30 } i|) ∧
      (∀ i, i < 3 →
        |st1.gyro_bias.get i - Vec3.get { x0 := 5, x1 := -3, x2 := 0 } i| ≤
          |st.gyro_bias.get i - Vec3.get { x0 := 5, x1 := -3, x2 := 0 } i|) :=
  calib_converges_negative_feedback mpu6050_regs (by unfold synth_regs_ok; decide) (-1)
    (by decide) { x0 := 100, x1 := -50, x2 := 30 } { x0 := 5, x1 := -3, x2 := 0 }
    { x0 := 0, x1 := 0, x2 := 0 } { x0 := 0, x1 := 0, x2 := 0 } 100 (by decide) (by decide)
    (by unfold Vec3.margin; decide) (by unfold Vec3.margin; decide)
    (by unfold Vec3.within; simp only [abs_le]; decide)
    (by unfold Vec3.within; simp only [abs_le]; decide) 1 (by decide) [] zero_packet 0 40
    (by decide) (by decide)

theorem calib_iteration_spec {σ : Type} (R : MpuRegs) (B : I2cBus σ) (fuel scnt : Nat)
    (st st1 : CalibState σ) (h : calib_iteration R B fuel scnt st = some st1) :
    st1.accel_step = (if scnt = 40 then 2 else st.accel_step) ∧
    st1.accel_bias = accel_correct st1.accel_step st1.pckt st.accel_bias ∧
    st1.gyro_bias = gyro_correct st1.pckt st.gyro_bias := by
  unfold calib_iteration at h
  cases hd : drain_fifo R B fuel st.pckt st.more st.sys with
  | none =>
    rw [hd] at h
    exact Option.noConfusion h
  | some r =>
    obtain ⟨p, m, s1⟩ := r
    rw [hd] at h
    simp only [Option.some.injEq, beq_iff_eq] at h
    subst h
    exact ⟨rfl, rfl, rfl⟩

theorem calib_loop_entry_step {σ : Type} (R : MpuRegs) (B : I2cBus σ) (fuel : Nat) :
    ∀ (n scnt : Nat) (st st1 : CalibState σ), calib_loop R B fuel n scnt st = some st1 →
      st.accel_step = entry_step scnt → st1.accel_step = entry_step (scnt + n) := by
  intro n
  induction n with
  | zero =>
    intro scnt st st1 h hs
    simp only [calib_loop, Option.some.injEq] at h
    subst h
    exact hs
  | succ n ih =>
    intro scnt st st1 h hs
    rw [calib_loop] at h
    cases hi : calib_iteration R B fuel scnt st with
    | none =>
      rw [hi] at h
      exact Option.noConfusion h
    | some st2 =>
      rw [hi] at h
      have h2 := (calib_iteration_spec R B fuel scnt st st2 hi).1
      have h3 : st2.accel_step = entry_step (scnt + 1) := by
        rw [h2, hs]
        unfold entry_step
        split_ifs <;> omega
      have := ih (scnt + 1) st2 st1 h h3
      have e : scnt + 1 + n = scnt + (n + 1) := by omega
      rw [e] at this
      exact this

theorem accel_correct_delta (step : Int) (pckt : mpu_packet_t) (ab : Vec3) (i : Nat)
    (hi : i < 3) :
    (accel_correct step pckt ab).get i = wrap16 (ab.get i - step) ∨
    (accel_correct step pckt ab).get i = wrap16 (ab.get i + step) ∨
    (accel_correct step pckt ab).get i = ab.get i := by
  have hi3 : i = 0 ∨ i = 1 ∨ i = 2 := by omega
  rcases hi3 with rfl | rfl | rfl <;> simp only [accel_correct, Vec3.get] <;> split_ifs <;> simp

/-- C10, as stated, fails where the 16-bit arithmetic wraps: with accel bias -32768 on
axis 0 and a reading of 100, iteration 0 (step 10) takes the bias to 32758, a change
of +65526, which is none of -10, 0, +10. -/
theorem calib_delta_wraps :
    ∃ st1,
      calib_iteration mpu6050_regs
        (synth_bus mpu6050_regs 1 { x0 := -32668, x1 := 0, x2 := 0 } { x0 := 0, x1 := 0, x2 := 0 })
        1 0
        (calib_begin mpu6050_regs
          (synth_bus mpu6050_regs 1 { x0 := -32668, x1 := 0, x2 := 0 }
            { x0 := 0, x1 := 0, x2 := 0 })
          { dev := { accel_reg := { x0 := -32768, x1 := 0, x2 := 0 },
                     gyro_reg := { x0 := 0, x1 := 0, x2 := 0 } }, trace := [] }
          zero_packet 0) = some st1 ∧
      (calib_begin mpu6050_regs
          (synth_bus mpu6050_regs 1 { x0 := -32668, x1 := 0, x2 := 0 }
            { x0 := 0, x1 := 0, x2 := 0 })
          { dev := { accel_reg := { x0 := -32768, x1 := 0, x2 := 0 },
                     gyro_reg := { x0 := 0, x1 := 0, x2 := 0 } }, trace := [] }
          zero_packet 0).accel_bias.get 0 = -32768 ∧
      st1.accel_step = 10 ∧ st1.pckt.accel = [100, 0, 16384] ∧
      st1.accel_bias.get 0 = 32758 ∧
      st1.accel_bias.get 0 -
        (calib_begin mpu6050_regs
          (synth_bus mpu6050_regs 1 { x0 := -32668, x1 := 0, x2 := 0 }
            { x0 := 0, x1 := 0, x2 := 0 })
          { dev := { accel_reg := { x0 := -32768, x1 := 0, x2 := 0 },
                     gyro_reg := { x0 := 0, x1 := 0, x2 := 0 } }, trace := [] }
          zero_packet 0).accel_bias.get 0 = 65526 := by
  have hR : synth_regs_ok mpu6050_regs := by
    unfold synth_regs_ok
    decide
  have hin : Vec3.in_int16 { x0 := -32768, x1 := 0, x2 := 0 } := by
    unfold Vec3.in_int16
    norm_num
  obtain ⟨hinv, hs, ha, hg⟩ := synth_begin mpu6050_regs hR 1 { x0 := -32668, x1 := 0, x2 := 0 }
    { x0 := 0, x1 := 0, x2 := 0 } { x0 := -32768, x1 := 0, x2 := 0 }
    { x0 := 0, x1 := 0, x2 := 0 } [] zero_packet 0 hin
  obtain ⟨st1, h1, _, s1, a1, _, p1⟩ := synth_iteration mpu6050_regs hR 1
    { x0 := -32668, x1 := 0, x2 := 0 } { x0 := 0, x1 := 0, x2 := 0 } 1 0 _ (le_refl 1) hinv
  rw [hs] at s1
  rw [hs, ha, hg] at a1
  rw [ha, hg] at p1
  have e : accel_correct (if 0 = 40 then 2 else 10)
      (synth_packet 1 { x0 := -32668, x1 := 0, x2 := 0 } { x0 := 0, x1 := 0, x2 := 0 }
        { x0 := -32768, x1 := 0, x2 := 0 } { x0 := 0, x1 := 0, x2 := 0 })
      { x0 := -32768, x1 := 0, x2 := 0 } = { x0 := 32758, x1 := 0, x2 := 0 } := by decide
  rw [e] at a1
  refine ⟨st1, h1, ?_, s1, ?_, ?_, ?_⟩
  · rw [ha]
    rfl
  · rw [p1]
    decide
  · rw [a1]
    rfl
  · rw [a1, ha]
    rfl

/-- C10, amended. In the loop started by `calib_begin`, whenever iteration `k`
(`k < 100`) is reached and completes, the accelerometer step it applies is exactly 10
if `k < 40` and exactly 2 if `40 ≤ k`; each accel bias after the iteration is the bias
before it, or that bias minus or plus the step wrapped to 16 bits, so the change taken
as a signed 16-bit difference is `-step`, `0` or `+step`; it is the plain integer
difference whenever the bias before the iteration is at least 10 away from both ends
of the `int16_t` range. -/
theorem calib_step_schedule {σ : Type} (R : MpuRegs) (B : I2cBus σ) (s : Sys σ)
    (pckt : mpu_packet_t) (more : Nat) (fuel k : Nat) (stk st1 : CalibState σ) (_hk : k < 100)
    (hrun : calib_run R B fuel k (calib_begin R B s pckt more) = some stk)
    (hit : calib_iteration R B fuel k stk = some st1) :
    (k < 40 → st1.accel_step = 10) ∧ (40 ≤ k → st1.accel_step = 2) ∧
    st1.accel_bias = accel_correct st1.accel_step st1.pckt stk.accel_bias ∧
    (∀ i, i < 3 →
      wrap16 (st1.accel_bias.get i - stk.accel_bias.get i) = -st1.accel_step ∨
      wrap16 (st1.accel_bias.get i - stk.accel_bias.get i) = 0 ∨
      wrap16 (st1.accel_bias.get i - stk.accel_bias.get i) = st1.accel_step) ∧
    (∀ i, i < 3 → -32768 + 10 ≤ stk.accel_bias.get i → stk.accel_bias.get i ≤ 32767 - 10 →
      st1.accel_bias.get i - stk.accel_bias.get i = -st1.accel_step ∨
      st1.accel_bias.get i - stk.accel_bias.get i = 0 ∨
      st1.accel_bias.get i - stk.accel_bias.get i = st1.accel_step) := by
  have h0 : (calib_begin R B s pckt more).accel_step = entry_step 0 := rfl
  have hentry := calib_loop_entry_step R B fuel k 0 _ stk hrun h0
  obtain ⟨hs, ha, _⟩ := calib_iteration_spec R B fuel k stk st1 hit
  rw [hentry, Nat.zero_add] at hs
  have h10 : k < 40 → st1.accel_step = 10 := by
    intro h
    rw [hs]
    unfold entry_step
    split_ifs <;> omega
  have h2 : 40 ≤ k → st1.accel_step = 2 := by
    intro h
    rw [hs]
    unfold entry_step
    split_ifs <;> omega
  have hstep : st1.accel_step = 10 ∨ st1.accel_step = 2 := by
    rcases Nat.lt_or_ge k 40 with h | h
    · exact Or.inl (h10 h)
    · exact Or.inr (h2 h)
  refine ⟨h10, h2, ha, ?_, ?_⟩
  · intro i hi
    have hd := accel_correct_delta st1.accel_step st1.pckt stk.accel_bias i hi
    rw [← ha] at hd
    rcases hd with h | h | h <;> rw [h] <;> unfold wrap16 <;> rcases hstep with e | e <;>
      rw [e] <;> omega
  · intro i hi hlo hhi
    have hd := accel_correct_delta st1.accel_step st1.pckt stk.accel_bias i hi
    rw [← ha] at hd
    unfold wrap16 at hd
    rcases hstep with e | e <;> rw [e] at hd ⊢ <;> omega

/-- C10, amended, on the synthetic device: iteration 40 is reached and applies
step 2. -/
theorem calib_step_schedule_witness :
    ∃ stk st1,
      calib_run mpu6050_regs
        (synth_bus mpu6050_regs (-1) { x0 := 100, x1 := -50, x2 := 30 }
          { x0 := 5, x1 := -3, x2 := 0 }) 1 40
        (calib_begin mpu6050_regs
          (synth_bus mpu6050_regs (-1) { x0 := 100, x1 := -50, x2 := 30 }
            { x0 := 5, x1 := -3, x2 := 0 })
          { dev := { accel_reg := { x0 := 0, x1 := 0, x2 := 0 },
                     gyro_reg := { x0 := 0, x1 := 0, x2 := 0 } }, trace := [] }
          zero_packet 0) = some stk ∧
      calib_iteration mpu6050_regs
        (synth_bus mpu6050_regs (-1) { x0 := 100, x1 := -50, x2 := 30 }
          { x0 := 5, x1 := -3, x2 := 0 }) 1 40 stk = some st1 ∧
      st1.accel_step = 2 := by
  have hR : synth_regs_ok mpu6050_regs := by
    unfold synth_regs_ok
    decide
  have hin : Vec3.in_int16 { x0 := 0, x1 := 0, x2 := 0 } := by
    unfold Vec3.in_int16
    norm_num
  obtain ⟨hinv, _, _, _⟩ := synth_begin mpu6050_regs hR (-1) { x0 := 100, x1 := -50, x2 := 30 }
    { x0 := 5, x1 := -3, x2 := 0 } { x0 := 0, x1 := 0, x2 := 0 }
    { x0 := 0, x1 := 0, x2 := 0 } [] zero_packet 0 hin
  obtain ⟨stk, hk, hinvk, _⟩ := synth_loop mpu6050_regs hR (-1)
    { x0 := 100, x1 := -50, x2 := 30 } { x0 := 5, x1 := -3, x2 := 0 } 1 (le_refl 1) 40 0 _ hinv
  obtain ⟨st1, h1, _⟩ := synth_iteration mpu6050_regs hR (-1)
    { x0 := 100, x1 := -50, x2 := 30 } { x0 := 5, x1 := -3, x2 := 0 } 1 40 stk (le_refl 1) hinvk
  exact ⟨stk, st1, hk, h1,
    (calib_step_schedule mpu6050_regs _ _ zero_packet 0 1 40 stk st1 (by decide) hk h1).2.1
      (le_refl 40)⟩

/-- On `demo_bus` every iteration is reached and completes. -/
theorem demo_reach (k : Nat) :
    ∃ stk st1, calib_run mpu6050_regs demo_bus 1 k demo_start = some stk ∧
      calib_iteration mpu6050_regs demo_bus 1 k stk = some st1 := by
  have hR : synth_regs_ok mpu6050_regs := by
    unfold synth_regs_ok
    decide
  have hin : Vec3.in_int16 { x0 := 0, x1 := 0, x2 := 0 } := by
    unfold Vec3.in_int16
    norm_num
  obtain ⟨hinv, _, _, _⟩ := synth_begin mpu6050_regs hR (-1) { x0 := 100, x1 := -50, x2 := 30 }
    { x0 := 5, x1 := -3, x2 := 0 } { x0 := 0, x1 := 0, x2 := 0 }
    { x0 := 0, x1 := 0, x2 := 0 } [] zero_packet 0 hin
  obtain ⟨stk, hk, hinvk, _⟩ := synth_loop mpu6050_regs hR (-1)
    { x0 := 100, x1 := -50, x2 := 30 } { x0 := 5, x1 := -3, x2 := 0 } 1 (le_refl 1) k 0 _ hinv
  obtain ⟨st1, h1, _⟩ := synth_iteration mpu6050_regs hR (-1)
    { x0 := 100, x1 := -50, x2 := 30 } { x0 := 5, x1 := -3, x2 := 0 } 1 k stk (le_refl 1) hinvk
  exact ⟨stk, st1, hk, h1⟩

theorem wrap16_ne_self (b s : Int) (hs : s = 10 ∨ s = 2) :
    wrap16 (b - s) ≠ b ∧ wrap16 (b + s) ≠ b := by
  unfold wrap16
  rcases hs with rfl | rfl <;> constructor <;> omega

theorem calib_reached_step {σ : Type} (R : MpuRegs) (B : I2cBus σ) (s : Sys σ)
    (pckt : mpu_packet_t) (more : Nat) (fuel k : Nat) (stk st1 : CalibState σ)
    (hrun : calib_run R B fuel k (calib_begin R B s pckt more) = some stk)
    (hit : calib_iteration R B fuel k stk = some st1) :
    st1.accel_step = 10 ∨ st1.accel_step = 2 := by
  have h0 : (calib_begin R B s pckt more).accel_step = entry_step 0 := rfl
  have hentry := calib_loop_entry_step R B fuel k 0 _ stk hrun h0
  have hs := (calib_iteration_spec R B fuel k stk st1 hit).1
  rw [hentry, Nat.zero_add] at hs
  rw [hs]
  unfold entry_step
  split_ifs <;> simp

/-- C11. Accelerometer correction rule: in every iteration `k < 100` of the loop
started by `calib_begin`, with `s` the step of the iteration (10 or 2) and `p` the
packet held after the drain, each horizontal accel bias (axes 0, 1) becomes
`bias - s` if `p.accel[i] ≥ 1`, `bias + s` if `p.accel[i] ≤ -1` and stays if
`p.accel[i] = 0`; the vertical one (axis 2) becomes `bias - s` if
`p.accel[2] > 0x4000`, `bias + s` if `p.accel[2] < 0x4000` and is unchanged exactly
when `p.accel[2] = 0x4000`; sums and differences are wrapped to 16 bits. -/
theorem accel_correction_rule {σ : Type} (R : MpuRegs) (B : I2cBus σ) (s : Sys σ)
    (pckt : mpu_packet_t) (more : Nat) (fuel k : Nat) (stk st1 : CalibState σ) (_hk : k < 100)
    (hrun : calib_run R B fuel k (calib_begin R B s pckt more) = some stk)
    (hit : calib_iteration R B fuel k stk = some st1) :
    (st1.accel_step = 10 ∨ st1.accel_step = 2) ∧
    (∀ i, i < 2 →
      (st1.pckt.accel.getD i 0 ≥ 1 →
        st1.accel_bias.get i = wrap16 (stk.accel_bias.get i - st1.accel_step)) ∧
      (st1.pckt.accel.getD i 0 ≤ -1 →
        st1.accel_bias.get i = wrap16 (stk.accel_bias.get i + st1.accel_step)) ∧
      (st1.pckt.accel.getD i 0 = 0 → st1.accel_bias.get i = stk.accel_bias.get i)) ∧
    (st1.pckt.accel.getD 2 0 > 0x4000 →
      st1.accel_bias.get 2 = wrap16 (stk.accel_bias.get 2 - st1.accel_step)) ∧
    (st1.pckt.accel.getD 2 0 < 0x4000 →
      st1.accel_bias.get 2 = wrap16 (stk.accel_bias.get 2 + st1.accel_step)) ∧
    (st1.accel_bias.get 2 = stk.accel_bias.get 2 ↔ st1.pckt.accel.getD 2 0 = 0x4000) := by
  have hstep := calib_reached_step R B s pckt more fuel k stk st1 hrun hit
  obtain ⟨_, ha, _⟩ := calib_iteration_spec R B fuel k stk st1 hit
  obtain ⟨n1, n2⟩ := wrap16_ne_self (stk.accel_bias.get 2) st1.accel_step hstep
  refine ⟨hstep, ?_, ?_, ?_, ?_⟩
  · intro i hi
    have hi2 : i = 0 ∨ i = 1 := by omega
    rw [ha]
    rcases hi2 with rfl | rfl <;> simp only [accel_correct, Vec3.get] <;>
      refine ⟨fun h => ?_, fun h => ?_, fun h => ?_⟩ <;> split_ifs <;>
      first | rfl | omega
  · intro h
    rw [ha]
    simp only [accel_correct, Vec3.get]
    rw [if_pos h]
  · intro h
    rw [ha]
    simp only [accel_correct, Vec3.get]
    rw [if_neg (by omega), if_pos h]
  · rw [ha]
    simp only [Vec3.get] at n1 n2
    simp only [accel_correct, Vec3.get]
    split_ifs with h1 h2
    · exact ⟨fun e => absurd e n1, fun e => by omega⟩
    · exact ⟨fun e => absurd e n2, fun e => by omega⟩
    · exact ⟨fun _ => by omega, fun _ => rfl⟩

/-- C11 on `demo_bus`: iteration 40 is reached, applies step 2, and the rule holds for
the vertical axis. -/
theorem accel_correction_rule_witness :
    ∃ stk st1, calib_run mpu6050_regs demo_bus 1 40 demo_start = some stk ∧
      calib_iteration mpu6050_regs demo_bus 1 40 stk = some st1 ∧
      (st1.accel_bias.get 2 = stk.accel_bias.get 2 ↔ st1.pckt.accel.getD 2 0 = 0x4000) := by
  obtain ⟨stk, st1, h1, h2⟩ := demo_reach 40
  exact ⟨stk, st1, h1, h2,
    (accel_correction_rule mpu6050_regs demo_bus _ zero_packet 0 1 40 stk st1 (by decide)
      h1 h2).2.2.2.2⟩

theorem gyro_correct_cases (pckt : mpu_packet_t) (gb : Vec3) (i : Nat) (hi : i < 3) :
    (pckt.gyro.getD i 0 > 1 → (gyro_correct pckt gb).get i = wrap16 (gb.get i - 1)) ∧
    (pckt.gyro.getD i 0 < -1 → (gyro_correct pckt gb).get i = wrap16 (gb.get i + 1)) ∧
    (-1 ≤ pckt.gyro.getD i 0 → pckt.gyro.getD i 0 ≤ 1 → (gyro_correct pckt gb).get i = gb.get i) := by
  have hi3 : i = 0 ∨ i = 1 ∨ i = 2 := by omega
  rcases hi3 with rfl | rfl | rfl <;> simp only [gyro_correct, Vec3.get] <;>
    refine ⟨fun h => ?_, fun h => ?_, fun h1 h2 => ?_⟩ <;> split_ifs <;>
    first | rfl | omega

theorem gyro_correct_bound (pckt : mpu_packet_t) (gb : Vec3) (m : Int)
    (h : ∀ i, i < 3 → -m ≤ gb.get i ∧ gb.get i ≤ m) :
    ∀ i, i < 3 → -(m + 1) ≤ (gyro_correct pckt gb).get i ∧ (gyro_correct pckt gb).get i ≤ m + 1 := by
  intro i hi
  obtain ⟨c1, c2, c3⟩ := gyro_correct_cases pckt gb i hi
  obtain ⟨b1, b2⟩ := h i hi
  by_cases g1 : pckt.gyro.getD i 0 > 1
  · rw [c1 g1]
    unfold wrap16
    omega
  · by_cases g2 : pckt.gyro.getD i 0 < -1
    · rw [c2 g2]
      unfold wrap16
      omega
    · rw [c3 (by omega) (by omega)]
      omega

/-- After `n` iterations the gyro biases have moved by at most `n`. -/
theorem calib_loop_gyro_bound {σ : Type} (R : MpuRegs) (B : I2cBus σ) (fuel : Nat) :
    ∀ (n scnt : Nat) (st st1 : CalibState σ) (m : Int),
      calib_loop R B fuel n scnt st = some st1 → m + n ≤ 1000 →
      (∀ i, i < 3 → -m ≤ st.gyro_bias.get i ∧ st.gyro_bias.get i ≤ m) →
      ∀ i, i < 3 → -(m + n) ≤ st1.gyro_bias.get i ∧ st1.gyro_bias.get i ≤ m + n := by
  intro n
  induction n with
  | zero =>
    intro scnt st st1 m h _ hb
    simp only [calib_loop, Option.some.injEq] at h
    subst h
    simpa using hb
  | succ n ih =>
    intro scnt st st1 m h hm hb
    rw [calib_loop] at h
    cases hi : calib_iteration R B fuel scnt st with
    | none =>
      rw [hi] at h
      exact Option.noConfusion h
    | some st2 =>
      rw [hi] at h
      have hg := (calib_iteration_spec R B fuel scnt st st2 hi).2.2
      have hb2 : ∀ i, i < 3 → -(m + 1) ≤ st2.gyro_bias.get i ∧ st2.gyro_bias.get i ≤ m + 1 := by
        rw [hg]
        exact gyro_correct_bound st2.pckt st.gyro_bias m hb
      have := ih (scnt + 1) st2 st1 (m + 1) h (by push_cast at hm ⊢; omega) hb2
      intro i hi3
      have h3 := this i hi3
      push_cast at h3 ⊢
      omega

/-- C12. Gyro correction rule: in every iteration `k < 100` of the loop started by
`calib_begin`, with `g` the reading `p.gyro[i]` of the packet held after the drain,
each gyro bias becomes `bias - 1` if `g > 1`, `bias + 1` if `g < -1` and stays if
`-1 ≤ g ≤ 1` (plain integer arithmetic: the gyro bias starts at 0 and never wraps);
so it changes, by exactly one unit against the sign of the reading, iff `|g| > 1`.
Neither the iteration number nor the accel step enters the rule. -/
theorem gyro_correction_rule {σ : Type} (R : MpuRegs) (B : I2cBus σ) (s : Sys σ)
    (pckt : mpu_packet_t) (more : Nat) (fuel k : Nat) (stk st1 : CalibState σ) (hk : k < 100)
    (hrun : calib_run R B fuel k (calib_begin R B s pckt more) = some stk)
    (hit : calib_iteration R B fuel k stk = some st1) :
    ∀ i, i < 3 →
      (st1.pckt.gyro.getD i 0 > 1 → st1.gyro_bias.get i = stk.gyro_bias.get i - 1) ∧
      (st1.pckt.gyro.getD i 0 < -1 → st1.gyro_bias.get i = stk.gyro_bias.get i + 1) ∧
      (-1 ≤ st1.pckt.gyro.getD i 0 → st1.pckt.gyro.getD i 0 ≤ 1 →
        st1.gyro_bias.get i = stk.gyro_bias.get i) ∧
      (st1.gyro_bias.get i ≠ stk.gyro_bias.get i ↔ 1 < |st1.pckt.gyro.getD i 0|) := by
  intro i hi
  have h0 : ∀ j, j < 3 → -(0 : Int) ≤ (calib_begin R B s pckt more).gyro_bias.get j ∧
      (calib_begin R B s pckt more).gyro_bias.get j ≤ 0 := by
    intro j hj
    have hj3 : j = 0 ∨ j = 1 ∨ j = 2 := by omega
    rcases hj3 with rfl | rfl | rfl <;> exact ⟨le_refl _, le_refl _⟩
  obtain ⟨b1, b2⟩ := calib_loop_gyro_bound R B fuel k 0 _ stk 0 hrun
    (by omega) h0 i hi
  have hk' : (k : Int) < 100 := by exact_mod_cast hk
  obtain ⟨_, _, hg⟩ := calib_iteration_spec R B fuel k stk st1 hit
  obtain ⟨c1, c2, c3⟩ := gyro_correct_cases st1.pckt stk.gyro_bias i hi
  rw [← hg] at c1 c2 c3
  have w1 : wrap16 (stk.gyro_bias.get i - 1) = stk.gyro_bias.get i - 1 :=
    wrap16_id _ (by omega) (by omega)
  have w2 : wrap16 (stk.gyro_bias.get i + 1) = stk.gyro_bias.get i + 1 :=
    wrap16_id _ (by omega) (by omega)
  rw [w1] at c1
  rw [w2] at c2
  refine ⟨c1, c2, c3, ?_⟩
  rcases abs_cases (st1.pckt.gyro.getD i 0) with ⟨e, _⟩ | ⟨e, _⟩ <;> rw [e] <;> constructor
  · intro hne
    by_contra hc
    exact hne (c3 (by omega) (by omega))
  · intro hlt
    rw [c1 (by omega)]
    omega
  · intro hne
    by_contra hc
    exact hne (c3 (by omega) (by omega))
  · intro hlt
    rw [c2 (by omega)]
    omega

/-- C12 on `demo_bus`: iteration 3 is reached and the rule holds for axis 0. -/
theorem gyro_correction_rule_witness :
    ∃ stk st1, calib_run mpu6050_regs demo_bus 1 3 demo_start = some stk ∧
      calib_iteration mpu6050_regs demo_bus 1 3 stk = some st1 ∧
      (st1.gyro_bias.get 0 ≠ stk.gyro_bias.get 0 ↔ 1 < |st1.pckt.gyro.getD 0 0|) := by
  obtain ⟨stk, st1, h1, h2⟩ := demo_reach 3
  exact ⟨stk, st1, h1, h2,
    (gyro_correction_rule mpu6050_regs demo_bus _ zero_packet 0 1 3 stk st1 (by decide)
      h1 h2 0 (by decide)).2.2.2⟩

/-! ## Configuration sequences -/

theorem mpu_write_mem_ops {σ : Type} (R : MpuRegs) (B : I2cBus σ) (s : Sys σ) (a : Nat)
    (d : List Nat) :
    ∃ n, (n = 1 ∨ n = 2) ∧
      (mpu_write_mem R B s a d).2.trace = s.trace ++ (blob_ops R a d).take n ∧
      ((mpu_write_mem R B s a d).1 = true → n = 2) := by
  simp only [mpu_write_mem]
  split_ifs
  · exact ⟨1, Or.inl rfl, by simp [i2c_write, blob_ops], by simp⟩
  · exact ⟨2, Or.inr rfl, by simp [i2c_write, blob_ops], by simp⟩
  · exact ⟨2, Or.inr rfl, by simp [i2c_write, blob_ops], by simp⟩

theorem write_reg_spec {σ τ : Type} (R : MpuRegs) (B : I2cBus σ) (w : World σ τ)
    (reg val : Nat) (hv : val < 256) :
    (write_reg R B w reg val).sys.trace = w.sys.trace ++ [BusOp.write R.MPU_ADDR reg [val]] ∧
    (write_reg R B w reg val).calls = w.calls ∧ (write_reg R B w reg val).svc = w.svc := by
  simp [write_reg, mpu_write_byte, i2c_write, Nat.mod_eq_of_lt hv]

theorem reset_fifo_spec {σ τ : Type} (R : MpuRegs) (C : MpuCtlRegs) (B : I2cBus σ)
    (w : World σ τ) :
    (reset_fifo R C B w).sys.trace = w.sys.trace ++ reset_ops R C ∧
    (reset_fifo R C B w).calls = w.calls ++ [(w.sys.trace.length + 5, ExtCall.delay_ms 50)] ∧
    (reset_fifo R C B w).svc = w.svc := by
  simp [reset_fifo, reset_ops, write_reg, mpu_write_byte, i2c_write, delay_ms]

theorem write_blobs_spec {σ τ : Type} (R : MpuRegs) (B : I2cBus σ) :
    ∀ (blobs : List (Nat × List Nat)) (w : World σ τ),
      ∃ x, (write_blobs R B blobs w).sys.trace = w.sys.trace ++ x ∧ blob_trace R blobs x ∧
        (write_blobs R B blobs w).calls = w.calls ∧ (write_blobs R B blobs w).svc = w.svc := by
  intro blobs
  induction blobs with
  | nil =>
    intro w
    exact ⟨[], by simp [write_blobs], rfl, rfl, rfl⟩
  | cons b rest ih =>
    intro w
    obtain ⟨n, hn, htr, _⟩ := mpu_write_mem_ops R B w.sys b.1 b.2
    obtain ⟨y, hy, hbt, hc, hs⟩ := ih (write_blob R B w b.1 b.2)
    refine ⟨(blob_ops R b.1 b.2).take n ++ y, ?_, ⟨n, y, hn, rfl, hbt⟩, ?_, ?_⟩
    · rw [write_blobs, hy]
      show (mpu_write_mem R B w.sys b.1 b.2).2.trace ++ y = _
      rw [htr, List.append_assoc]
    · rw [write_blobs, hc]
      rfl
    · rw [write_blobs, hs]
      rfl

theorem dmp_enable_feature_eq {σ τ : Type} (R : MpuRegs) (C : MpuCtlRegs) (K : DmpKeys)
    (B : I2cBus σ) (w : World σ τ) :
    dmp_enable_feature R C K B w =
      reset_fifo R C B (write_blobs R B (rate_blobs K)
        (reset_fifo R C B (write_blobs R B (feature_blobs K) w))) :=
  rfl

/-- Shape of `dmp_enable_feature`: the nine feature blobs, a queue reset, the two
rate blobs, a queue reset; one wait inside each reset. -/
theorem dmp_enable_feature_shape {σ τ : Type} (R : MpuRegs) (C : MpuCtlRegs) (K : DmpKeys)
    (B : I2cBus σ) (w : World σ τ) :
    ∃ x1 x2, (dmp_enable_feature R C K B w).sys.trace =
        w.sys.trace ++ x1 ++ reset_ops R C ++ x2 ++ reset_ops R C ∧
      blob_trace R (feature_blobs K) x1 ∧ blob_trace R (rate_blobs K) x2 ∧
      (dmp_enable_feature R C K B w).calls =
        w.calls ++ [(w.sys.trace.length + x1.length + 5, ExtCall.delay_ms 50),
          (w.sys.trace.length + x1.length + 7 + x2.length + 5, ExtCall.delay_ms 50)] ∧
      (dmp_enable_feature R C K B w).svc = w.svc := by
  obtain ⟨x1, h1, b1, c1, s1⟩ := write_blobs_spec R B (feature_blobs K) w
  obtain ⟨r1, rc1, rs1⟩ := reset_fifo_spec R C B (write_blobs R B (feature_blobs K) w)
  obtain ⟨x2, h2, b2, c2, s2⟩ := write_blobs_spec R B (rate_blobs K)
    (reset_fifo R C B (write_blobs R B (feature_blobs K) w))
  obtain ⟨r2, rc2, rs2⟩ := reset_fifo_spec R C B (write_blobs R B (rate_blobs K)
    (reset_fifo R C B (write_blobs R B (feature_blobs K) w)))
  refine ⟨x1, x2, ?_, b1, b2, ?_, ?_⟩
  · rw [dmp_enable_feature_eq, r2, h2, r1, h1]
  · rw [dmp_enable_feature_eq, rc2, c2, rc1, c1, h2, r1, h1]
    simp [reset_ops]
    omega
  · rw [dmp_enable_feature_eq, rs2, s2, rs1, s1]

/-- C16. Fixed reset sequence: for every device and every state, `reset_fifo` issues
exactly the seven register writes of `reset_ops` (0x00 to `INT_ENABLE`, 0x00 to
`FIFO_EN`, 0x00, 0x04, 0x40 to `USER_CTRL`, 0x01 to `INT_ENABLE`, 0x78 to `FIFO_EN`)
and one call `delay_ms(50)`, made after the fifth write; the sequence mentions neither
the device nor any write result.  Within `dmp_enable_feature` both invocations emit
this same sequence. -/
theorem reset_fifo_fixed_sequence {σ τ : Type} (R : MpuRegs) (C : MpuCtlRegs) (K : DmpKeys)
    (B : I2cBus σ) (w : World σ τ) :
    (reset_fifo R C B w).sys.trace = w.sys.trace ++
      [BusOp.write R.MPU_ADDR C.INT_ENABLE [0x00],
       BusOp.write R.MPU_ADDR C.FIFO_EN [0x00],
       BusOp.write R.MPU_ADDR C.USER_CTRL [0x00],
       BusOp.write R.MPU_ADDR C.USER_CTRL [0x04],
       BusOp.write R.MPU_ADDR C.USER_CTRL [0x40],
       BusOp.write R.MPU_ADDR C.INT_ENABLE [0x01],
       BusOp.write R.MPU_ADDR C.FIFO_EN [0x78]] ∧
    (reset_fifo R C B w).calls = w.calls ++ [(w.sys.trace.length + 5, ExtCall.delay_ms 50)] ∧
    ∃ x1 x2, (dmp_enable_feature R C K B w).sys.trace =
        w.sys.trace ++ x1 ++ reset_ops R C ++ x2 ++ reset_ops R C ∧
      (dmp_enable_feature R C K B w).calls =
        w.calls ++ [(w.sys.trace.length + x1.length + 5, ExtCall.delay_ms 50),
          (w.sys.trace.length + x1.length + 7 + x2.length + 5, ExtCall.delay_ms 50)] := by
  obtain ⟨r, rc, _⟩ := reset_fifo_spec R C B w
  obtain ⟨x1, x2, h, _, _, hc, _⟩ := dmp_enable_feature_shape R C K B w
  exact ⟨r, rc, x1, x2, h, hc⟩

/-- C17. Orientation result: `dmp_set_orientation` returns true iff its four banked
writes (`{0xCD,0x4C,0x6C}` to `FCFG_1`, `{0xC9,0x0C,0x2C}` to `FCFG_2`,
`{0x36,0x57,0x76}` to `FCFG_3`, `{0x26,0x47,0x66}` to `FCFG_7`, each issued in the
state the previous one left) all return true; in that case the trace is the four
complete blob writes in this order.  When it returns false, some blob `j` is the
first to fail: the trace holds the complete writes of the blobs before `j` and one
or two transactions of blob `j`, and nothing of a later blob. -/
theorem dmp_set_orientation_and {σ : Type} (R : MpuRegs) (K : DmpKeys) (B : I2cBus σ)
    (s : Sys σ) :
    let r1 := mpu_write_mem R B s K.FCFG_1 [0xCD, 0x4C, 0x6C]
    let r2 := mpu_write_mem R B r1.2 K.FCFG_2 [0xC9, 0x0C, 0x2C]
    let r3 := mpu_write_mem R B r2.2 K.FCFG_3 [0x36, 0x57, 0x76]
    let r4 := mpu_write_mem R B r3.2 K.FCFG_7 [0x26, 0x47, 0x66]
    ((dmp_set_orientation R K B s).1 = true ↔
      r1.1 = true ∧ r2.1 = true ∧ r3.1 = true ∧ r4.1 = true) ∧
    ((dmp_set_orientation R K B s).1 = true →
      (dmp_set_orientation R K B s).2.trace =
        s.trace ++ blob_ops R K.FCFG_1 [0xCD, 0x4C, 0x6C] ++ blob_ops R K.FCFG_2 [0xC9, 0x0C, 0x2C]
          ++ blob_ops R K.FCFG_3 [0x36, 0x57, 0x76] ++ blob_ops R K.FCFG_7 [0x26, 0x47, 0x66]) ∧
    ((dmp_set_orientation R K B s).1 = false →
      ∃ j n, j < 4 ∧ (n = 1 ∨ n = 2) ∧
        (dmp_set_orientation R K B s).2.trace =
          s.trace ++ ((orient_blobs K).take j).flatMap (fun b => blob_ops R b.1 b.2) ++
            (blob_ops R ((orient_blobs K).getD j (0, [])).1
              ((orient_blobs K).getD j (0, [])).2).take n) := by
  intro r1 r2 r3 r4
  obtain ⟨n1, hn1, t1, f1⟩ := mpu_write_mem_ops R B s K.FCFG_1 [0xCD, 0x4C, 0x6C]
  obtain ⟨n2, hn2, t2, f2⟩ := mpu_write_mem_ops R B r1.2 K.FCFG_2 [0xC9, 0x0C, 0x2C]
  obtain ⟨n3, hn3, t3, f3⟩ := mpu_write_mem_ops R B r2.2 K.FCFG_3 [0x36, 0x57, 0x76]
  obtain ⟨n4, hn4, t4, f4⟩ := mpu_write_mem_ops R B r3.2 K.FCFG_7 [0x26, 0x47, 0x66]
  have full : ∀ a d, (blob_ops R a d).take 2 = blob_ops R a d := fun a d => rfl
  by_cases h1 : r1.1 = true
  · have e1 := f1 h1
    subst e1
    rw [full] at t1
    by_cases h2 : r2.1 = true
    · have e2 := f2 h2
      subst e2
      rw [full, t1] at t2
      by_cases h3 : r3.1 = true
      · have e3 := f3 h3
        subst e3
        rw [full, t2] at t3
        have hret : dmp_set_orientation R K B s = (r4.1, r4.2) := by
          simp only [dmp_set_orientation]
          simp [r1, r2, r3] at h1 h2 h3
          simp [h1, h2, h3, r4, r3, r2, r1]
        rw [hret]
        refine ⟨by simp [h1, h2, h3], ?_, ?_⟩
        · intro h4
          have e4 := f4 h4
          subst e4
          rw [full, t3] at t4
          exact t4
        · intro h4
          refine ⟨3, n4, by norm_num, hn4, ?_⟩
          show r4.2.trace = _
          rw [t4, t3]
          simp [orient_blobs, List.append_assoc]
      · have hret : dmp_set_orientation R K B s = (false, r3.2) := by
          simp only [dmp_set_orientation]
          simp [r1, r2, r3] at h1 h2 h3
          simp [h1, h2, h3, r3, r2, r1]
        rw [hret]
        refine ⟨by simp [h3], by simp, ?_⟩
        intro _
        refine ⟨2, n3, by norm_num, hn3, ?_⟩
        show r3.2.trace = _
        rw [t3, t2]
        simp [orient_blobs, List.append_assoc]
    · have hret : dmp_set_orientation R K B s = (false, r2.2) := by
        simp only [dmp_set_orientation]
        simp [r1, r2] at h1 h2
        simp [h1, h2, r2, r1]
      rw [hret]
      refine ⟨by simp [h2], by simp, ?_⟩
      intro _
      refine ⟨1, n2, by norm_num, hn2, ?_⟩
      show r2.2.trace = _
      rw [t2, t1]
      simp [orient_blobs, List.append_assoc]
  · have hret : dmp_set_orientation R K B s = (false, r1.2) := by
      simp only [dmp_set_orientation]
      simp [r1] at h1
      simp [h1, r1]
    rw [hret]
    refine ⟨by simp [h1], by simp, ?_⟩
    intro _
    refine ⟨0, n1, by norm_num, hn1, ?_⟩
    show r1.2.trace = _
    rw [t1]
    simp [orient_blobs]

/-- C18. No configuration after a failed load: if `dmp_load_firmware` returns false,
`dmp_init` ends in exactly the state the loader left (same bus trace, no external
call): no orientation blob, no feature blob, no register write and no bias load
follows.  If the loader returns true and `dmp_set_orientation` returns false,
`dmp_init` ends in exactly the state `dmp_set_orientation` left: no feature blob, no
register write and no bias load follows. -/
theorem dmp_init_aborts {σ τ : Type} (R : MpuRegs) (C : MpuCtlRegs) (K : DmpKeys)
    (B : I2cBus σ) (S : SettingsSvc τ) (img : List Nat) (fuel : Nat) (cur : List Nat)
    (w : World σ τ) :
    (∀ s1, dmp_load_firmware R B img fuel cur w.sys = some (false, s1) →
      dmp_init R C K B S img fuel cur w = some { sys := s1, svc := w.svc, calls := w.calls }) ∧
    (∀ s1, dmp_load_firmware R B img fuel cur w.sys = some (true, s1) →
      (dmp_set_orientation R K B s1).1 = false →
      dmp_init R C K B S img fuel cur w =
        some { sys := (dmp_set_orientation R K B s1).2, svc := w.svc, calls := w.calls }) := by
  constructor
  · intro s1 h
    simp only [dmp_init, h]
  · intro s1 h ho
    simp only [dmp_init, h, ho]
    rfl

set_option maxRecDepth 100000 in
/-- C18 on concrete devices: with a corrupted readback in chunk 1 the trace of
`dmp_init` is the 8 transactions of the loader; with a memory that refuses the write
at `FCFG_1` it is the 13 transactions of the loader and the 2 of the first
orientation blob; no wait is made in either run. -/
theorem dmp_init_aborts_witness :
    (∃ w1, dmp_init mpu6050_regs mpu6050_ctl empl_keys (ram_bus mpu6050_regs (some 20)) mem_svc
        test_image 3 [] (fresh_world ram0) = some w1 ∧
      w1.sys.trace.length = 8 ∧ w1.calls = []) ∧
    (∃ w1, dmp_init mpu6050_regs mpu6050_ctl empl_keys
        (picky_ram_bus mpu6050_regs (fun a => a == 1062)) mem_svc
        test_image 3 [] (fresh_world ram0) = some w1 ∧
      w1.sys.trace.length = 15 ∧ w1.calls = []) := by
  constructor
  · have h : ∃ s1, dmp_load_firmware mpu6050_regs (ram_bus mpu6050_regs (some 20)) test_image 3 []
        (fresh_world ram0).sys = some (false, s1) ∧ s1.trace.length = 8 := ⟨_, rfl, by decide⟩
    obtain ⟨s1, h1, h2⟩ := h
    exact ⟨_, (dmp_init_aborts mpu6050_regs mpu6050_ctl empl_keys (ram_bus mpu6050_regs (some 20))
      mem_svc test_image 3 [] (fresh_world ram0)).1 s1 h1, h2, rfl⟩
  · have h : ∃ s1, dmp_load_firmware mpu6050_regs (picky_ram_bus mpu6050_regs (fun a => a == 1062))
        test_image 3 [] (fresh_world ram0).sys = some (true, s1) ∧
        (dmp_set_orientation mpu6050_regs empl_keys
          (picky_ram_bus mpu6050_regs (fun a => a == 1062)) s1).1 = false ∧
        (dmp_set_orientation mpu6050_regs empl_keys
          (picky_ram_bus mpu6050_regs (fun a => a == 1062)) s1).2.trace.length = 15 :=
      ⟨_, rfl, by decide, by decide⟩
    obtain ⟨s1, h1, h2, h3⟩ := h
    exact ⟨_, (dmp_init_aborts mpu6050_regs mpu6050_ctl empl_keys
      (picky_ram_bus mpu6050_regs (fun a => a == 1062)) mem_svc test_image 3 []
      (fresh_world ram0)).2 s1 h1 h2, h3, rfl⟩

theorem push_trace {σ : Type} (R : MpuRegs) (B : I2cBus σ) (s : Sys σ) (g a : Vec3) :
    (mpu_set_accel_bias R B (mpu_set_gyro_bias R B s g) a).trace = s.trace ++ push_ops R g a := by
  simp [mpu_set_accel_bias, mpu_set_gyro_bias, i2c_write, push_ops, Vec3.get]

theorem load_biases_spec {σ τ : Type} (R : MpuRegs) (B : I2cBus σ) (S : SettingsSvc τ)
    (w : World σ τ) :
    (load_biases R B S w).sys.trace = w.sys.trace ++ bias_ops R (S.get_tracker_settings w.svc) ∧
    (load_biases R B S w).calls = w.calls ∧ (load_biases R B S w).svc = w.svc := by
  unfold load_biases bias_ops
  cases S.get_tracker_settings w.svc with
  | none => simp
  | some p =>
    by_cases hc : (p.is_calibrated != 0) = true
    · simpa [hc] using push_trace R B w.sys p.gyro_bias p.accel_bias
    · simp [hc]

/-- When the loader and `dmp_set_orientation` succeed, `dmp_init` runs to its end
whatever the feature writes return. -/
theorem dmp_init_shape {σ τ : Type} (R : MpuRegs) (C : MpuCtlRegs) (K : DmpKeys)
    (B : I2cBus σ) (S : SettingsSvc τ) (img : List Nat) (fuel : Nat) (cur : List Nat)
    (w : World σ τ) (s1 : Sys σ)
    (hload : dmp_load_firmware R B img fuel cur w.sys = some (true, s1))
    (ho : (dmp_set_orientation R K B s1).1 = true) :
    ∃ x1 x2 w1, dmp_init R C K B S img fuel cur w = some w1 ∧
      w1.sys.trace = (dmp_set_orientation R K B s1).2.trace ++ x1 ++ reset_ops R C ++ x2 ++
        reset_ops R C ++ init_tail_ops R C ++ bias_ops R (S.get_tracker_settings w.svc) ∧
      blob_trace R (feature_blobs K) x1 ∧ blob_trace R (rate_blobs K) x2 ∧
      w1.svc = w.svc ∧
      saves_of w1.calls = saves_of w.calls := by
  obtain ⟨x1, x2, h, b1, b2, hc, hs⟩ := dmp_enable_feature_shape R C K B
    { w with sys := (dmp_set_orientation R K B s1).2 }
  refine ⟨x1, x2, ?_⟩
  simp only [dmp_init, hload, ho, Bool.not_true, Bool.false_eq_true, if_false]
  refine ⟨_, rfl, ?_, b1, b2, ?_, ?_⟩
  · rw [(load_biases_spec R B S _).1]
    simp only [write_reg, delay_ms, mpu_write_byte, i2c_write, h]
    simp [init_tail_ops, hs]
  · rw [(load_biases_spec R B S _).2.2]
    simp only [write_reg, delay_ms, hs]
  · rw [(load_biases_spec R B S _).2.1]
    simp only [write_reg, delay_ms, hc]
    simp [saves_of]

/-- C15, as stated, fails: on the memory device, in the trace of
`dmp_enable_feature` the first register write of a queue reset (`INT_ENABLE`, 0x38)
is transaction 18, and the blob at `D_0_22` (address 0x0216) is written after it, as
transactions 25 and 26. -/
theorem dmp_enable_feature_blob_after_reset :
    (dmp_enable_feature mpu6050_regs mpu6050_ctl empl_keys (ram_bus mpu6050_regs none)
      (fresh_world ram0)).sys.trace.length = 36 ∧
    (∀ op ∈ (dmp_enable_feature mpu6050_regs mpu6050_ctl empl_keys (ram_bus mpu6050_regs none)
      (fresh_world ram0)).sys.trace.take 18, BusOp.reg op = 0x6D ∨ BusOp.reg op = 0x6F) ∧
    (dmp_enable_feature mpu6050_regs mpu6050_ctl empl_keys (ram_bus mpu6050_regs none)
      (fresh_world ram0)).sys.trace[18]? = some (BusOp.write 0x68 0x38 [0x00]) ∧
    (dmp_enable_feature mpu6050_regs mpu6050_ctl empl_keys (ram_bus mpu6050_regs none)
      (fresh_world ram0)).sys.trace[25]? = some (BusOp.write 0x68 0x6D [0x02, 0x16]) ∧
    (dmp_enable_feature mpu6050_regs mpu6050_ctl empl_keys (ram_bus mpu6050_regs none)
      (fresh_world ram0)).sys.trace[26]? = some (BusOp.write 0x68 0x6F [0x00, 0x00]) := by
  decide

/-- C15, amended. For every device, the transactions of `dmp_enable_feature` are:
the nine feature blobs (for each its bank select, followed by its data write unless
the select failed), the queue reset sequence, the two queue-rate blobs at `D_0_22` and
`CFG_6` (the bank select of `D_0_22` first), and the queue reset sequence again, which
ends the function: nothing follows the last queue reset sequence. -/
theorem dmp_enable_feature_reset_last {σ τ : Type} (R : MpuRegs) (C : MpuCtlRegs)
    (K : DmpKeys) (B : I2cBus σ) (w : World σ τ) :
    ∃ x1 x2, (dmp_enable_feature R C K B w).sys.trace =
        w.sys.trace ++ x1 ++ reset_ops R C ++ x2 ++ reset_ops R C ∧
      blob_trace R (feature_blobs K) x1 ∧ blob_trace R (rate_blobs K) x2 ∧
      x2.head? = some (BusOp.write R.MPU_ADDR R.BANK_SEL
        [((K.D_0_22 % 65536) >>> 8) % 256, ((K.D_0_22 % 65536) &&& 0xFF) % 256]) := by
  obtain ⟨x1, x2, h, b1, b2, _, _⟩ := dmp_enable_feature_shape R C K B w
  refine ⟨x1, x2, h, b1, b2, ?_⟩
  obtain ⟨n, y, hn, hx, _⟩ := b2
  rw [hx]
  rcases hn with rfl | rfl <;> rfl

set_option maxRecDepth 100000 in
/-- C19, as stated, fails: on a memory that refuses the data write at `CFG_15`, the
loader and `dmp_set_orientation` succeed, the second blob write of `dmp_enable_feature`
(at `CFG_15`) returns false, and `dmp_init` nevertheless goes on through all 66
transactions, the last being its closing write of 0x02 to `INT_ENABLE`:
`dmp_enable_feature` has no result and no failure reaches the caller. -/
theorem dmp_enable_feature_failure_unreported :
    ∃ s1, dmp_load_firmware mpu6050_regs (picky_ram_bus mpu6050_regs (fun a => a == 2727))
        test_image 3 [] (fresh_world ram0).sys = some (true, s1) ∧
      (dmp_set_orientation mpu6050_regs empl_keys
        (picky_ram_bus mpu6050_regs (fun a => a == 2727)) s1).1 = true ∧
      (mpu_write_mem mpu6050_regs (picky_ram_bus mpu6050_regs (fun a => a == 2727))
        (mpu_write_mem mpu6050_regs (picky_ram_bus mpu6050_regs (fun a => a == 2727))
          (dmp_set_orientation mpu6050_regs empl_keys
            (picky_ram_bus mpu6050_regs (fun a => a == 2727)) s1).2
          empl_keys.D_0_104 [0x02, 0xca, 0xe3, 0x09]).2
        empl_keys.CFG_15 [0xa3, 0xc0, 0xc8, 0xc2, 0xc4, 0xcc, 0xc6, 0xa3, 0xa3, 0xa3]).1 = false ∧
      ∃ w1, dmp_init mpu6050_regs mpu6050_ctl empl_keys
          (picky_ram_bus mpu6050_regs (fun a => a == 2727)) mem_svc test_image 3 []
          (fresh_world ram0) = some w1 ∧
        w1.sys.trace.length = 66 ∧
        w1.sys.trace.getLast? = some (BusOp.write 0x68 0x38 [0x02]) :=
  ⟨_, rfl, by decide, by decide, _, rfl, by decide, by decide⟩

/-- C19, amended. `dmp_enable_feature` has no result and `dmp_init` examines none of
its writes: whenever the loader and `dmp_set_orientation` succeed, `dmp_init` runs to
its end whatever the eleven blob writes of `dmp_enable_feature` return.  Its trace
after the orientation blobs is: the nine feature blobs (each its bank select, and its
data write unless the select failed), the queue reset, the two queue-rate blobs, the
queue reset, the nine closing register writes of `dmp_init`, and the bias writes of
`load_biases`. -/
theorem dmp_init_ignores_feature_results {σ τ : Type} (R : MpuRegs) (C : MpuCtlRegs)
    (K : DmpKeys) (B : I2cBus σ) (S : SettingsSvc τ) (img : List Nat) (fuel : Nat)
    (cur : List Nat) (w : World σ τ) (s1 : Sys σ)
    (hload : dmp_load_firmware R B img fuel cur w.sys = some (true, s1))
    (ho : (dmp_set_orientation R K B s1).1 = true) :
    ∃ x1 x2 w1, dmp_init R C K B S img fuel cur w = some w1 ∧
      w1.sys.trace = (dmp_set_orientation R K B s1).2.trace ++ x1 ++ reset_ops R C ++ x2 ++
        reset_ops R C ++ init_tail_ops R C ++ bias_ops R (S.get_tracker_settings w.svc) ∧
      blob_trace R (feature_blobs K) x1 ∧ blob_trace R (rate_blobs K) x2 := by
  obtain ⟨x1, x2, w1, h1, h2, h3, h4, _, _⟩ := dmp_init_shape R C K B S img fuel cur w s1 hload ho
  exact ⟨x1, x2, w1, h1, h2, h3, h4⟩

set_option maxRecDepth 100000 in
/-- C19 amended, on the memory that refuses the data write at `CFG_15`: the
hypotheses hold and `dmp_init` completes with the stated trace. -/
theorem dmp_init_ignores_feature_results_witness :
    ∃ s1, dmp_load_firmware mpu6050_regs (picky_ram_bus mpu6050_regs (fun a => a == 2727))
        test_image 3 [] (fresh_world ram0).sys = some (true, s1) ∧
      (dmp_set_orientation mpu6050_regs empl_keys
        (picky_ram_bus mpu6050_regs (fun a => a == 2727)) s1).1 = true ∧
      ∃ x1 x2 w1, dmp_init mpu6050_regs mpu6050_ctl empl_keys
          (picky_ram_bus mpu6050_regs (fun a => a == 2727)) mem_svc test_image 3 []
          (fresh_world ram0) = some w1 ∧
        w1.sys.trace = (dmp_set_orientation mpu6050_regs empl_keys
            (picky_ram_bus mpu6050_regs (fun a => a == 2727)) s1).2.trace ++ x1 ++
          reset_ops mpu6050_regs mpu6050_ctl ++ x2 ++ reset_ops mpu6050_regs mpu6050_ctl ++
          init_tail_ops mpu6050_regs mpu6050_ctl ++
          bias_ops mpu6050_regs (mem_svc.get_tracker_settings (fresh_world ram0).svc) ∧
        blob_trace mpu6050_regs (feature_blobs empl_keys) x1 ∧
        blob_trace mpu6050_regs (rate_blobs empl_keys) x2 := by
  have h : ∃ s1, dmp_load_firmware mpu6050_regs (picky_ram_bus mpu6050_regs (fun a => a == 2727))
      test_image 3 [] (fresh_world ram0).sys = some (true, s1) ∧
      (dmp_set_orientation mpu6050_regs empl_keys
        (picky_ram_bus mpu6050_regs (fun a => a == 2727)) s1).1 = true :=
    ⟨_, rfl, by decide⟩
  obtain ⟨s1, h1, h2⟩ := h
  exact ⟨s1, h1, h2, dmp_init_ignores_feature_results mpu6050_regs mpu6050_ctl empl_keys
    (picky_ram_bus mpu6050_regs (fun a => a == 2727)) mem_svc test_image 3 []
    (fresh_world ram0) s1 h1 h2⟩

theorem desync_bus_read (n : Nat) (hn : n ≠ 0) (t : List BusOp) (pckt : mpu_packet_t)
    (more : Nat) :
    dmp_read_fifo mpu6050_regs desync_bus { dev := n, trace := t } pckt more [] =
      { ok := false, pckt := pckt, more := more,
        sys := { dev := n + 1, trace := t ++ [BusOp.read 0x68 0x72 2] } } := by
  simp [dmp_read_fifo, mpu_read_fifo_stream, i2c_read, desync_bus, queue_bus, mpu6050_regs, hn,
    PACKET_LENGTH, List.range, List.range.loop]

theorem desync_bus_drain (fuel : Nat) :
    ∀ (n : Nat) (t : List BusOp) (pckt : mpu_packet_t) (more : Nat), n ≠ 0 → more ≠ 0 →
      drain_fifo mpu6050_regs desync_bus fuel pckt more { dev := n, trace := t } = none := by
  induction fuel with
  | zero =>
    intro n t pckt more _ _
    rfl
  | succ fuel ih =>
    intro n t pckt more hn hm
    rw [drain_fifo, desync_bus_read n hn]
    simp only [bne_iff_ne, ne_eq, hm, not_false_eq_true, if_true]
    exact ih (n + 1) _ pckt more (by omega) hm

/-- C20: the drain loop retries after a failed read.  On a queue that holds two records
and then reports byte count 50, the first call of `dmp_read_fifo` succeeds with
`more = 1`, the second call fails (desync) and leaves `more = 1`, so the loop
`do ... while (more)` calls again: after the two calls the loop is back in the state
it was in before the second one but for the count reads made, and no bound on the
number of calls lets the drain return. -/
theorem drain_fifo_retries_after_failed_read :
    (dmp_read_fifo mpu6050_regs desync_bus (fresh 0) zero_packet 0 []).ok = true ∧
    (dmp_read_fifo mpu6050_regs desync_bus (fresh 0) zero_packet 0 []).more = 1 ∧
    (dmp_read_fifo mpu6050_regs desync_bus
      (dmp_read_fifo mpu6050_regs desync_bus (fresh 0) zero_packet 0 []).sys
      (dmp_read_fifo mpu6050_regs desync_bus (fresh 0) zero_packet 0 []).pckt
      (dmp_read_fifo mpu6050_regs desync_bus (fresh 0) zero_packet 0 []).more []).ok = false ∧
    (dmp_read_fifo mpu6050_regs desync_bus
      (dmp_read_fifo mpu6050_regs desync_bus (fresh 0) zero_packet 0 []).sys
      (dmp_read_fifo mpu6050_regs desync_bus (fresh 0) zero_packet 0 []).pckt
      (dmp_read_fifo mpu6050_regs desync_bus (fresh 0) zero_packet 0 []).more []).more = 1 ∧
    (∀ fuel, drain_fifo mpu6050_regs desync_bus fuel zero_packet 0 (fresh 0) = none) ∧
    (∀ fuel scnt step ab gb,
      calib_iteration mpu6050_regs desync_bus fuel scnt
        { accel_step := step, pckt := zero_packet, more := 0, accel_bias := ab, gyro_bias := gb,
          sys := fresh 0 } = none) := by
  have h0 : ∀ (pckt : mpu_packet_t) (more : Nat),
      (dmp_read_fifo mpu6050_regs desync_bus (fresh 0) pckt more []).more = 1 ∧
      (dmp_read_fifo mpu6050_regs desync_bus (fresh 0) pckt more []).sys =
        { dev := 1, trace := [BusOp.read 0x68 0x72 2, BusOp.read 0x68 0x74 32] } := by
    intro pckt more
    simp [dmp_read_fifo, mpu_read_fifo_stream, i2c_read, desync_bus, queue_bus, mpu6050_regs,
      PACKET_LENGTH, List.range, List.range.loop, fresh]
  have hd : ∀ (fuel : Nat) (pckt : mpu_packet_t) (more : Nat),
      drain_fifo mpu6050_regs desync_bus fuel pckt more (fresh 0) = none := by
    intro fuel pckt more
    cases fuel with
    | zero => rfl
    | succ fuel =>
      obtain ⟨h1, h2⟩ := h0 pckt more
      rw [drain_fifo]
      simp only [h1, h2, bne_iff_ne, ne_eq, one_ne_zero, not_false_eq_true, if_true]
      exact desync_bus_drain fuel 1 _ _ 1 (by decide) (by decide)
  refine ⟨by decide, by decide, by decide, by decide, fun fuel => hd fuel _ _, ?_⟩
  intro fuel scnt step ab gb
  simp only [calib_iteration, hd]

/-- C14, as stated, fails: on a queue that holds one record and is empty afterwards,
iteration 0 reads the record (accel 100, -50, 16384; gyro 0, 2, -3); in iteration 1
the only call of `dmp_read_fifo` fails, yet the accel bias of axes 0 and 1 and the gyro
bias of axes 1 and 2 change again, by the correction computed from the record of
iteration 0. -/
theorem calib_failed_read_still_corrects :
    ∃ st1 st2,
      calib_iteration mpu6050_regs one_record_bus 2 0
        (calib_begin mpu6050_regs one_record_bus (fresh 0) zero_packet 0) = some st1 ∧
      (dmp_read_fifo mpu6050_regs one_record_bus st1.sys st1.pckt st1.more []).ok = false ∧
      (dmp_read_fifo mpu6050_regs one_record_bus st1.sys st1.pckt st1.more []).more = 0 ∧
      calib_iteration mpu6050_regs one_record_bus 2 1 st1 = some st2 ∧
      st2.pckt = st1.pckt ∧
      st2.accel_bias.x0 = st1.accel_bias.x0 - 10 ∧
      st2.accel_bias.x1 = st1.accel_bias.x1 + 10 ∧
      st2.gyro_bias.x1 = st1.gyro_bias.x1 - 1 ∧
      st2.gyro_bias.x2 = st1.gyro_bias.x2 + 1 :=
  ⟨_, _, rfl, by decide, by decide, rfl, by decide, by decide, by decide, by decide, by decide⟩

/-- C14, amended. In a calibration iteration whose call of `dmp_read_fifo` fails and
leaves `more = 0` (an empty queue; a desync or bus failure when `more` was 0
before), the drain ends after that one call, the packet stays the one held before the
iteration, and the correction is applied all the same, computed from that packet: the
new biases are `accel_correct` and `gyro_correct` of the old ones, they are pushed to
the device, and the loop proceeds to the next iteration. -/
theorem calib_failed_read_uses_stale_packet {σ : Type} (R : MpuRegs) (B : I2cBus σ)
    (fuel scnt n : Nat) (st : CalibState σ)
    (hfail : (dmp_read_fifo R B st.sys st.pckt st.more []).ok = false)
    (hmore : (dmp_read_fifo R B st.sys st.pckt st.more []).more = 0) :
    ∃ st1, calib_iteration R B (fuel + 1) scnt st = some st1 ∧
      st1.pckt = st.pckt ∧
      st1.accel_bias = accel_correct (if scnt = 40 then 2 else st.accel_step) st.pckt
        st.accel_bias ∧
      st1.gyro_bias = gyro_correct st.pckt st.gyro_bias ∧
      st1.sys.trace = (dmp_read_fifo R B st.sys st.pckt st.more []).sys.trace ++
        push_ops R st1.gyro_bias st1.accel_bias ∧
      calib_loop R B (fuel + 1) (n + 1) scnt st = calib_loop R B (fuel + 1) n (scnt + 1) st1 := by
  have hp : (dmp_read_fifo R B st.sys st.pckt st.more []).pckt = st.pckt := by
    unfold dmp_read_fifo at hfail ⊢
    by_cases h : (mpu_read_fifo_stream R B st.sys PACKET_LENGTH [] st.more).ok = true
    · simp [h] at hfail
    · simp [h]
  have hi : calib_iteration R B (fuel + 1) scnt st = some
      { accel_step := if scnt = 40 then 2 else st.accel_step, pckt := st.pckt, more := 0,
        accel_bias := accel_correct (if scnt = 40 then 2 else st.accel_step) st.pckt
          st.accel_bias,
        gyro_bias := gyro_correct st.pckt st.gyro_bias,
        sys := mpu_set_accel_bias R B
          (mpu_set_gyro_bias R B (dmp_read_fifo R B st.sys st.pckt st.more []).sys
            (gyro_correct st.pckt st.gyro_bias))
          (accel_correct (if scnt = 40 then 2 else st.accel_step) st.pckt st.accel_bias) } := by
    simp only [calib_iteration, drain_fifo, hmore, hp, bne_self_eq_false, Bool.false_eq_true,
      if_false, beq_iff_eq]
  refine ⟨_, hi, rfl, rfl, rfl, push_trace R B _ _ _, ?_⟩
  rw [calib_loop, hi]

/-- C14 amended, on the queue that holds one record and is empty afterwards: the
hypotheses hold in iteration 1. -/
theorem calib_failed_read_uses_stale_packet_witness :
    ∃ st0, calib_iteration mpu6050_regs one_record_bus 2 0
        (calib_begin mpu6050_regs one_record_bus (fresh 0) zero_packet 0) = some st0 ∧
      (dmp_read_fifo mpu6050_regs one_record_bus st0.sys st0.pckt st0.more []).ok = false ∧
      (dmp_read_fifo mpu6050_regs one_record_bus st0.sys st0.pckt st0.more []).more = 0 ∧
      ∃ st1, calib_iteration mpu6050_regs one_record_bus (1 + 1) 1 st0 = some st1 ∧
        st1.pckt = st0.pckt ∧
        st1.accel_bias = accel_correct (if 1 = 40 then 2 else st0.accel_step) st0.pckt
          st0.accel_bias ∧
        st1.gyro_bias = gyro_correct st0.pckt st0.gyro_bias ∧
        st1.sys.trace =
          (dmp_read_fifo mpu6050_regs one_record_bus st0.sys st0.pckt st0.more []).sys.trace ++
          push_ops mpu6050_regs st1.gyro_bias st1.accel_bias ∧
        calib_loop mpu6050_regs one_record_bus (1 + 1) (98 + 1) 1 st0 =
          calib_loop mpu6050_regs one_record_bus (1 + 1) 98 (1 + 1) st1 := by
  have h : ∃ st0, calib_iteration mpu6050_regs one_record_bus 2 0
      (calib_begin mpu6050_regs one_record_bus (fresh 0) zero_packet 0) = some st0 ∧
      (dmp_read_fifo mpu6050_regs one_record_bus st0.sys st0.pckt st0.more []).ok = false ∧
      (dmp_read_fifo mpu6050_regs one_record_bus st0.sys st0.pckt st0.more []).more = 0 :=
    ⟨_, rfl, by decide, by decide⟩
  obtain ⟨st0, h1, h2, h3⟩ := h
  exact ⟨st0, h1, h2, h3,
    calib_failed_read_uses_stale_packet mpu6050_regs one_record_bus 1 1 98 st0 h2 h3⟩

/-! ## The calibration routine as a whole -/

theorem dmp_load_chunks_total {σ : Type} (R : MpuRegs) (B : I2cBus σ) (img : List Nat)
    (hN : img.length < 65536) :
    ∀ (fuel k : Nat) (cur : List Nat) (s : Sys σ), chunk_count img.length ≤ fuel + k →
      ∃ r, dmp_load_chunks R B img fuel (min (16 * k) img.length) cur s = some r := by
  intro fuel
  induction fuel with
  | zero =>
    intro k cur s hk
    have h : ¬ min (16 * k) img.length < img.length := by
      unfold chunk_count at hk
      omega
    exact ⟨_, by rw [dmp_load_chunks, if_neg h]⟩
  | succ fuel ih =>
    intro k cur s hk
    by_cases h : 16 * k < img.length
    · have hmin : min (16 * k) img.length = 16 * k := by omega
      rw [hmin, dmp_load_chunks_step R B img fuel (16 * k) cur s h]
      by_cases hc : (dmp_load_chunk R B img (16 * k) cur s).ok = true
      · rw [if_pos hc, (this_write_eq img k hN h).2.2.1]
        exact ih (k + 1) _ _ (by omega)
      · rw [if_neg hc]
        exact ⟨_, rfl⟩
    · have h2 : ¬ min (16 * k) img.length < img.length := by omega
      exact ⟨_, by rw [dmp_load_chunks, if_neg h2]⟩

theorem dmp_load_firmware_total {σ : Type} (R : MpuRegs) (B : I2cBus σ) (img : List Nat)
    (fuel : Nat) (cur : List Nat) (s : Sys σ) (hN : img.length < 65536)
    (hfuel : chunk_count img.length ≤ fuel) :
    ∃ r, dmp_load_firmware R B img fuel cur s = some r := by
  obtain ⟨r, hr⟩ := dmp_load_chunks_total R B img hN fuel 0 cur s (by omega)
  simp only [Nat.mul_zero, Nat.zero_min] at hr
  obtain ⟨b, s1⟩ := r
  unfold dmp_load_firmware
  rw [hr]
  cases b with
  | false => exact ⟨_, rfl⟩
  | true =>
    simp only
    split_ifs
    · exact ⟨_, rfl⟩
    · exact ⟨_, rfl⟩

theorem saves_of_append_delay (c : List (Nat × ExtCall)) (n ms : Nat) :
    saves_of (c ++ [(n, ExtCall.delay_ms ms)]) = saves_of c := by
  simp [saves_of, List.filterMap_append]

/-- With enough passes allowed to the loader, `dmp_init` returns; it makes no save and
leaves the settings service as it was. -/
theorem dmp_init_total {σ τ : Type} (R : MpuRegs) (C : MpuCtlRegs) (K : DmpKeys)
    (B : I2cBus σ) (S : SettingsSvc τ) (img : List Nat) (fuel : Nat) (cur : List Nat)
    (w : World σ τ) (hN : img.length < 65536) (hfuel : chunk_count img.length ≤ fuel) :
    ∃ w1, dmp_init R C K B S img fuel cur w = some w1 ∧
      saves_of w1.calls = saves_of w.calls ∧ w1.svc = w.svc := by
  obtain ⟨r, hr⟩ := dmp_load_firmware_total R B img fuel cur w.sys hN hfuel
  obtain ⟨b, s1⟩ := r
  cases b with
  | false => exact ⟨{ w with sys := s1 }, by simp only [dmp_init, hr], rfl, rfl⟩
  | true =>
    by_cases ho : (dmp_set_orientation R K B s1).1 = true
    · obtain ⟨_, _, w1, h1, _, _, _, h5, h6⟩ := dmp_init_shape R C K B S img fuel cur w s1 hr ho
      exact ⟨w1, h1, h6, h5⟩
    · simp only [Bool.not_eq_true] at ho
      exact ⟨{ w with sys := (dmp_set_orientation R K B s1).2 },
        by simp only [dmp_init, hr, ho]; rfl, rfl, rfl⟩

/-- With enough passes allowed to the loader, `mpu_init` returns; it makes no save and
leaves the settings service as it was. -/
theorem mpu_init_total {σ τ : Type} (R : MpuRegs) (C : MpuCtlRegs) (K : DmpKeys)
    (B : I2cBus σ) (S : SettingsSvc τ) (img : List Nat) (fuel : Nat) (cur : List Nat)
    (w : World σ τ) (hN : img.length < 65536) (hfuel : chunk_count img.length ≤ fuel) :
    ∃ w1, mpu_init R C K B S img fuel cur w = some w1 ∧
      saves_of w1.calls = saves_of w.calls ∧ w1.svc = w.svc := by
  unfold mpu_init
  obtain ⟨w1, h1, h2, h3⟩ := dmp_init_total R C K B S img fuel cur
    (write_reg R B (delay_ms (write_reg R B (write_reg R B (write_reg R B (write_reg R B
      (delay_ms (write_reg R B (write_reg R B (delay_ms (write_reg R B (write_reg R B
      (write_reg R B (write_reg R B (write_reg R B (write_reg R B (write_reg R B (write_reg R B
      (write_reg R B (delay_ms (write_reg R B w C.PWR_MGMT_1 0x80) 100) C.PWR_MGMT_1 0)
      C.GYRO_CONFIG (C.INV_FSR_2000DPS <<< 3)) C.ACCEL_CONFIG (C.INV_FSR_2G <<< 3))
      C.SMPLRT_DIV (1000 / SAMPLE_RATE_HZ - 1)) C.CONFIG C.INV_FILTER_20HZ) C.USER_CTRL 0x20)
      C.INT_PIN_CFG 0x80) C.PWR_MGMT_1 0x40) C.PWR_MGMT_2 0x3F) 50) C.PWR_MGMT_1 0x01)
      C.PWR_MGMT_2 0x00) 50) C.FIFO_EN 0x00) C.USER_CTRL 0x00) C.USER_CTRL 0x04)
      C.USER_CTRL 0x40) 50) C.FIFO_EN 0x78) hN hfuel
  refine ⟨w1, h1, ?_, ?_⟩
  · rw [h2]
    simp only [write_reg, delay_ms, saves_of_append_delay]
  · rw [h3]
    rfl

theorem calib_iteration_total {σ : Type} (R : MpuRegs) (B : I2cBus σ) (fuel scnt : Nat)
    (st : CalibState σ) (hdrain : ∀ p m s, drain_fifo R B fuel p m s ≠ none) :
    ∃ st1, calib_iteration R B fuel scnt st = some st1 ∧
      ∃ t, st1.sys.trace = t ++ push_ops R st1.gyro_bias st1.accel_bias := by
  unfold calib_iteration
  cases hd : drain_fifo R B fuel st.pckt st.more st.sys with
  | none => exact absurd hd (hdrain _ _ _)
  | some r =>
    obtain ⟨p, m, s1⟩ := r
    exact ⟨_, rfl, s1.trace, push_trace R B s1 _ _⟩

theorem calib_loop_total {σ : Type} (R : MpuRegs) (B : I2cBus σ) (fuel : Nat)
    (hdrain : ∀ p m s, drain_fifo R B fuel p m s ≠ none) :
    ∀ (n scnt : Nat) (st : CalibState σ),
      ∃ st1, calib_loop R B fuel (n + 1) scnt st = some st1 ∧
        ∃ t, st1.sys.trace = t ++ push_ops R st1.gyro_bias st1.accel_bias := by
  intro n
  induction n with
  | zero =>
    intro scnt st
    obtain ⟨st1, h1, h2⟩ := calib_iteration_total R B fuel scnt st hdrain
    exact ⟨st1, by simp only [calib_loop, h1], h2⟩
  | succ n ih =>
    intro scnt st
    obtain ⟨st1, h1, _⟩ := calib_iteration_total R B fuel scnt st hdrain
    obtain ⟨st2, h2, h3⟩ := ih (scnt + 1) st1
    exact ⟨st2, by rw [calib_loop, h1]; exact h2, h3⟩

theorem alt_irq_edge (n : Nat) : irq_edge alt_irq 2 n ≠ none := by
  rcases Nat.mod_two_eq_zero_or_one n with h | h
  · have h1 : (n + 1) % 2 = 1 := by omega
    simp [irq_edge, irq_wait, alt_irq, h, h1]
  · have h1 : (n + 1) % 2 = 0 := by omega
    have h2 : (n + 1 + 1) % 2 = 1 := by omega
    simp [irq_edge, irq_wait, alt_irq, h, h1, h2]

/-- When every wait on the interrupt line ends, the loop with the waits reaches the
state the iterations alone reach. -/
theorem calib_loop_irq_ok {σ : Type} (R : MpuRegs) (B : I2cBus σ) (irq : Nat → Bool)
    (fuel_irq fuel : Nat) (hirq : ∀ n, irq_edge irq fuel_irq n ≠ none) :
    ∀ (k scnt n : Nat) (st st1 : CalibState σ), calib_loop R B fuel k scnt st = some st1 →
      ∃ n1, calib_loop_irq R B irq fuel_irq fuel k scnt n st = Except.ok (n1, st1) := by
  intro k
  induction k with
  | zero =>
    intro scnt n st st1 h
    simp only [calib_loop, Option.some.injEq] at h
    subst h
    exact ⟨n, rfl⟩
  | succ k ih =>
    intro scnt n st st1 h
    rw [calib_loop] at h
    cases hi : calib_iteration R B fuel scnt st with
    | none =>
      rw [hi] at h
      exact Option.noConfusion h
    | some st2 =>
      rw [hi] at h
      cases he : irq_edge irq fuel_irq n with
      | none => exact absurd he (hirq n)
      | some n2 =>
        obtain ⟨n1, h1⟩ := ih (scnt + 1) n2 st2 st1 h
        refine ⟨n1, ?_⟩
        simp only [calib_loop_irq, he, hi]
        exact h1

theorem desync_bus_first_read (s : Sys Nat) (hs : s.dev = 0) (pckt : mpu_packet_t)
    (more : Nat) :
    (dmp_read_fifo mpu6050_regs desync_bus s pckt more []).more = 1 ∧
    (dmp_read_fifo mpu6050_regs desync_bus s pckt more []).sys.dev = 1 := by
  obtain ⟨d, t⟩ := s
  simp only at hs
  subst hs
  simp [dmp_read_fifo, mpu_read_fifo_stream, i2c_read, desync_bus, queue_bus, mpu6050_regs,
    PACKET_LENGTH, List.range, List.range.loop]

/-- On `desync_bus`, a drain entered before the first count read never ends. -/
theorem desync_bus_hangs (fuel : Nat) (pckt : mpu_packet_t) (more : Nat) (s : Sys Nat)
    (hs : s.dev = 0) : drain_fifo mpu6050_regs desync_bus fuel pckt more s = none := by
  cases fuel with
  | zero => rfl
  | succ fuel =>
    obtain ⟨h1, h2⟩ := desync_bus_first_read s hs pckt more
    rw [drain_fifo]
    simp only [h1, bne_iff_ne, ne_eq, one_ne_zero, not_false_eq_true, if_true]
    exact desync_bus_drain fuel (dmp_read_fifo mpu6050_regs desync_bus s pckt more []).sys.dev
      (dmp_read_fifo mpu6050_regs desync_bus s pckt more []).sys.trace _ 1
      (by rw [h2]; decide) (by decide)

theorem desync_bus_begin_dev (s : Sys Nat) (pckt : mpu_packet_t) (more : Nat) :
    (calib_begin mpu6050_regs desync_bus s pckt more).sys.dev = s.dev := by
  simp [calib_begin, mpu_read_accel_bias, mpu_set_gyro_bias, i2c_read, i2c_write, desync_bus,
    queue_bus, mpu6050_regs]

set_option maxRecDepth 100000 in
/-- C13, as stated, fails: not every run saves.  On a queue that holds two records and
then reports byte count 50, with settings stored and an interrupt line that keeps
toggling, `mpu_init` returns without a save, every wait on the interrupt line ends, and
the first drain of the loop never ends: for every bound on its calls the first iteration
and the whole routine end with `drain_bound`, before the save that follows the loop. -/
theorem calib_hangs_without_save :
    (∃ w1, mpu_init mpu6050_regs mpu6050_ctl empl_keys desync_bus mem_svc test_image 3 []
        (stored_world 0) = some w1 ∧
      saves_of w1.calls = [] ∧
      mem_svc.get_tracker_settings w1.svc = some stored_settings ∧
      ∀ fuel, calib_loop_irq mpu6050_regs desync_bus alt_irq 2 fuel 1 0 0
        (calib_begin mpu6050_regs desync_bus w1.sys zero_packet 0) =
          Except.error CalibFault.drain_bound) ∧
    (∀ n, irq_edge alt_irq 2 n ≠ none) ∧
    (∀ fuel, mpu_calibrate_bias mpu6050_regs mpu6050_ctl empl_keys desync_bus mem_svc test_image
      3 2 fuel [] zero_packet 0 alt_irq 0 (stored_world 0) =
        Except.error CalibFault.drain_bound) := by
  have h : ∃ w1, mpu_init mpu6050_regs mpu6050_ctl empl_keys desync_bus mem_svc test_image 3 []
      (stored_world 0) = some w1 ∧ w1.sys.dev = 0 ∧ saves_of w1.calls = [] ∧
      mem_svc.get_tracker_settings w1.svc = some stored_settings :=
    ⟨_, rfl, by decide, by decide, by decide⟩
  obtain ⟨w1, h1, hdev, hsav, hset⟩ := h
  have he : irq_edge alt_irq 2 0 = some 2 := by decide
  have hit : ∀ fuel scnt, calib_iteration mpu6050_regs desync_bus fuel scnt
      (calib_begin mpu6050_regs desync_bus w1.sys zero_packet 0) = none := by
    intro fuel scnt
    have hd := desync_bus_hangs fuel
      (calib_begin mpu6050_regs desync_bus w1.sys zero_packet 0).pckt
      (calib_begin mpu6050_regs desync_bus w1.sys zero_packet 0).more
      (calib_begin mpu6050_regs desync_bus w1.sys zero_packet 0).sys
      (by rw [desync_bus_begin_dev, hdev])
    simp only [calib_iteration, hd]
  refine ⟨⟨w1, h1, hsav, hset, ?_⟩, alt_irq_edge, ?_⟩
  · intro fuel
    simp only [calib_loop_irq, he, hit]
  · intro fuel
    simp only [mpu_calibrate_bias, h1, hset, calib_loop_irq, he, hit]

/-- C13, amended. Let the image be shorter than 65536 bytes, the loader be allowed
`ceil(N/16)` passes, `get_tracker_settings()` be non-null, every wait on the interrupt
line end within `fuel_irq` samplings and every queue drain end within `fuel` calls.
Then `mpu_calibrate_bias` returns, and over the whole run `save_tracker_settings` is
called exactly once: the saves recorded at the end are those recorded before the run
followed by a single one, made when the trace holds exactly the transactions up to the
end of the 100th iteration, with `is_calibrated = 1`, the `rf_power` of the stored
settings, and the gyro and accel bias of the state after the 100th iteration, which are
the values of the last six bias writes in the trace at that point. -/
theorem calib_saves_once {σ τ : Type} (R : MpuRegs) (C : MpuCtlRegs) (K : DmpKeys)
    (B : I2cBus σ) (S : SettingsSvc τ) (img : List Nat) (fuel_load fuel_irq fuel : Nat)
    (cur : List Nat) (pckt : mpu_packet_t) (more : Nat) (irq : Nat → Bool) (n0 : Nat)
    (w : World σ τ) (p0 : tracker_settings_t)
    (hN : img.length < 65536) (hfuel : chunk_count img.length ≤ fuel_load)
    (hset : S.get_tracker_settings w.svc = some p0)
    (hirq : ∀ n, irq_edge irq fuel_irq n ≠ none)
    (hdrain : ∀ p m s, drain_fifo R B fuel p m s ≠ none) :
    ∃ w1 st wf,
      mpu_init R C K B S img fuel_load cur w = some w1 ∧
      calib_run R B fuel 100 (calib_begin R B w1.sys pckt more) = some st ∧
      mpu_calibrate_bias R C K B S img fuel_load fuel_irq fuel cur pckt more irq n0 w =
        Except.ok wf ∧
      saves_of wf.calls = saves_of w.calls ++
        [(st.sys.trace.length,
          { is_calibrated := 1, gyro_bias := st.gyro_bias, accel_bias := st.accel_bias,
            rf_power := p0.rf_power })] ∧
      ∃ t, st.sys.trace = t ++ push_ops R st.gyro_bias st.accel_bias := by
  obtain ⟨w1, h1, h2, hsvc⟩ := mpu_init_total R C K B S img fuel_load cur w hN hfuel
  obtain ⟨st, h3, h4⟩ := calib_loop_total R B fuel hdrain 99 0 (calib_begin R B w1.sys pckt more)
  obtain ⟨n1, hl⟩ := calib_loop_irq_ok R B irq fuel_irq fuel hirq 100 0 n0 _ st h3
  obtain ⟨wf, h5, h6, _⟩ := mpu_init_total R C K B S img fuel_load cur
    (save_tracker_settings S { w1 with sys := st.sys }
      { is_calibrated := 1, gyro_bias := st.gyro_bias, accel_bias := st.accel_bias,
        rf_power := p0.rf_power }) hN hfuel
  refine ⟨w1, st, wf, h1, h3, ?_, ?_, h4⟩
  · have hset1 : S.get_tracker_settings w1.svc = some p0 := by rw [hsvc, hset]
    simp only [mpu_calibrate_bias, h1, hset1, hl, h5]
  · rw [h6, ← h2]
    simp [save_tracker_settings, saves_of, List.filterMap_append]

theorem fifo_bus_drain (p : mpu_packet_t) (m : Nat) (s : Sys Unit) :
    drain_fifo mpu6050_regs (fifo_bus mpu6050_regs true true 32 test_record) 1 p m s ≠ none := by
  simp [drain_fifo, dmp_read_fifo, mpu_read_fifo_stream, i2c_read, fifo_bus, mpu6050_regs,
    PACKET_LENGTH, List.range, List.range.loop]

/-- C13 amended, on a device whose queue always holds one record, with the 35-byte
test image, stored settings and an alternating interrupt line: the hypotheses hold and
the run makes its single save after the loop. -/
theorem calib_saves_once_witness :
    test_image.length < 65536 ∧ chunk_count test_image.length ≤ 3 ∧
    mem_svc.get_tracker_settings (stored_world ()).svc = some stored_settings ∧
    (∀ n, irq_edge alt_irq 2 n ≠ none) ∧
    (∀ p m s, drain_fifo mpu6050_regs (fifo_bus mpu6050_regs true true 32 test_record) 1 p m s
      ≠ none) ∧
    ∃ w1 st wf,
      mpu_init mpu6050_regs mpu6050_ctl empl_keys (fifo_bus mpu6050_regs true true 32 test_record)
        mem_svc test_image 3 [] (stored_world ()) = some w1 ∧
      calib_run mpu6050_regs (fifo_bus mpu6050_regs true true 32 test_record) 1 100
        (calib_begin mpu6050_regs (fifo_bus mpu6050_regs true true 32 test_record) w1.sys
          zero_packet 0) = some st ∧
      mpu_calibrate_bias mpu6050_regs mpu6050_ctl empl_keys
        (fifo_bus mpu6050_regs true true 32 test_record) mem_svc test_image 3 2 1 [] zero_packet 0
        alt_irq 0 (stored_world ()) = Except.ok wf ∧
      saves_of wf.calls = saves_of (stored_world ()).calls ++
        [(st.sys.trace.length,
          { is_calibrated := 1, gyro_bias := st.gyro_bias, accel_bias := st.accel_bias,
            rf_power := stored_settings.rf_power })] ∧
      ∃ t, st.sys.trace = t ++ push_ops mpu6050_regs st.gyro_bias st.accel_bias :=
  ⟨by decide, by decide, rfl, alt_irq_edge, fifo_bus_drain,
    calib_saves_once mpu6050_regs mpu6050_ctl empl_keys
      (fifo_bus mpu6050_regs true true 32 test_record) mem_svc test_image 3 2 1 [] zero_packet 0
      alt_irq 0 (stored_world ()) stored_settings (by decide) (by decide) rfl alt_irq_edge
      fifo_bus_drain⟩

/-! ## Parity of the accel bias -/

theorem wrap16_parity (x : Int) : wrap16 x % 2 = x % 2 := by
  unfold wrap16
  omega

theorem lo_byte_parity (v : Int) : ((lo_byte v : Nat) : Int) % 2 = v % 2 := by
  rw [(hi_lo_byte_cast v).2]
  omega

theorem accel_correct_parity (step : Int) (pckt : mpu_packet_t) (ab : Vec3) (i : Nat)
    (hi : i < 3) (hs : step = 10 ∨ step = 2) :
    (accel_correct step pckt ab).get i % 2 = ab.get i % 2 := by
  rcases accel_correct_delta step pckt ab i hi with h | h | h
  · rw [h, wrap16_parity]
    rcases hs with rfl | rfl <;> omega
  · rw [h, wrap16_parity]
    rcases hs with rfl | rfl <;> omega
  · rw [h]

/-- The first `n + 1` iterations are the first `n` followed by iteration `scnt + n`. -/
theorem calib_loop_snoc {σ : Type} (R : MpuRegs) (B : I2cBus σ) (fuel : Nat) :
    ∀ (n scnt : Nat) (st : CalibState σ),
      calib_loop R B fuel (n + 1) scnt st =
        (calib_loop R B fuel n scnt st).bind (calib_iteration R B fuel (scnt + n)) := by
  intro n
  induction n with
  | zero =>
    intro scnt st
    simp only [calib_loop, Nat.add_zero, Option.some_bind]
    cases calib_iteration R B fuel scnt st <;> rfl
  | succ n ih =>
    intro scnt st
    rw [calib_loop]
    conv_rhs => rw [calib_loop]
    cases calib_iteration R B fuel scnt st with
    | none => rfl
    | some st1 =>
      have e : scnt + (n + 1) = scnt + 1 + n := by omega
      simp only [e]
      exact ih (scnt + 1) st1

/-- In every state the loop reaches, each accel bias has the parity of the value
read from the device before the loop. -/
theorem calib_run_parity {σ : Type} (R : MpuRegs) (B : I2cBus σ) (s : Sys σ)
    (pckt : mpu_packet_t) (more : Nat) (fuel : Nat) :
    ∀ (k : Nat) (stk : CalibState σ),
      calib_run R B fuel k (calib_begin R B s pckt more) = some stk →
      ∀ i, i < 3 → stk.accel_bias.get i % 2 = (mpu_read_accel_bias R B s).1.get i % 2 := by
  intro k
  induction k with
  | zero =>
    intro stk h i _
    simp only [calib_run, calib_loop, Option.some.injEq] at h
    subst h
    rfl
  | succ k ih =>
    intro stk h i hi
    have h2 := h
    unfold calib_run at h2
    rw [calib_loop_snoc, Nat.zero_add] at h2
    cases hk : calib_loop R B fuel k 0 (calib_begin R B s pckt more) with
    | none =>
      rw [hk] at h2
      exact Option.noConfusion h2
    | some st0 =>
      rw [hk, Option.some_bind] at h2
      have hstep := calib_reached_step R B s pckt more fuel k st0 stk hk h2
      obtain ⟨_, ha, _⟩ := calib_iteration_spec R B fuel k st0 stk h2
      rw [ha, accel_correct_parity _ _ _ i hi hstep]
      exact ih st0 hk i hi

/-- When every drain ends, every iteration is reached and completes, with the pushes of
its biases as its last transactions. -/
theorem calib_run_reach {σ : Type} (R : MpuRegs) (B : I2cBus σ) (fuel : Nat)
    (hdrain : ∀ p m s, drain_fifo R B fuel p m s ≠ none) (st : CalibState σ) (k : Nat) :
    ∃ stk st1, calib_run R B fuel k st = some stk ∧
      calib_iteration R B fuel k stk = some st1 ∧
      calib_run R B fuel (k + 1) st = some st1 ∧
      ∃ t, st1.sys.trace = t ++ push_ops R st1.gyro_bias st1.accel_bias := by
  have hk : ∃ stk, calib_run R B fuel k st = some stk := by
    cases k with
    | zero => exact ⟨st, rfl⟩
    | succ k =>
      obtain ⟨stk, h, _⟩ := calib_loop_total R B fuel hdrain k 0 st
      exact ⟨stk, h⟩
  obtain ⟨stk, hstk⟩ := hk
  obtain ⟨st1, h1, h2⟩ := calib_iteration_total R B fuel k stk hdrain
  refine ⟨stk, st1, hstk, h1, ?_, h2⟩
  unfold calib_run at hstk ⊢
  rw [calib_loop_snoc, hstk, Option.some_bind, Nat.zero_add]
  exact h1

/-- C21. Low-bit preservation.  Let the image be shorter than 65536 bytes, the loader
be allowed `ceil(N/16)` passes, `get_tracker_settings()` be non-null, every wait on the
interrupt line end within `fuel_irq` samplings and every queue drain end within `fuel`
calls.  Then `mpu_calibrate_bias` returns, and with `b0` the accel bias read from the
device before the loop: every iteration `k < 100` is reached and ends with the push of
its biases, and for each axis the accel bias after the iteration, and the low byte
written to the device for it, have the parity of `b0`; the run makes a single save,
whose accel bias is the one after the 100th iteration and has the parity of `b0` on
each axis.  The 16-bit wrap-around is part of the arithmetic (`wrap16`). -/
theorem accel_bias_low_bit {σ τ : Type} (R : MpuRegs) (C : MpuCtlRegs) (K : DmpKeys)
    (B : I2cBus σ) (S : SettingsSvc τ) (img : List Nat) (fuel_load fuel_irq fuel : Nat)
    (cur : List Nat) (pckt : mpu_packet_t) (more : Nat) (irq : Nat → Bool) (n0 : Nat)
    (w : World σ τ) (p0 : tracker_settings_t)
    (hN : img.length < 65536) (hfuel : chunk_count img.length ≤ fuel_load)
    (hset : S.get_tracker_settings w.svc = some p0)
    (hirq : ∀ n, irq_edge irq fuel_irq n ≠ none)
    (hdrain : ∀ p m s, drain_fifo R B fuel p m s ≠ none) :
    ∃ w1 wf,
      mpu_init R C K B S img fuel_load cur w = some w1 ∧
      mpu_calibrate_bias R C K B S img fuel_load fuel_irq fuel cur pckt more irq n0 w =
        Except.ok wf ∧
      (∀ k, k < 100 → ∃ stk st1,
        calib_run R B fuel k (calib_begin R B w1.sys pckt more) = some stk ∧
        calib_iteration R B fuel k stk = some st1 ∧
        (∃ t, st1.sys.trace = t ++ push_ops R st1.gyro_bias st1.accel_bias) ∧
        ∀ i, i < 3 →
          st1.accel_bias.get i % 2 = (mpu_read_accel_bias R B w1.sys).1.get i % 2 ∧
          ((lo_byte (st1.accel_bias.get i) : Nat) : Int) % 2 =
            (mpu_read_accel_bias R B w1.sys).1.get i % 2) ∧
      ∃ n p st, calib_run R B fuel 100 (calib_begin R B w1.sys pckt more) = some st ∧
        saves_of wf.calls = saves_of w.calls ++ [(n, p)] ∧
        p.accel_bias = st.accel_bias ∧
        ∀ i, i < 3 → p.accel_bias.get i % 2 = (mpu_read_accel_bias R B w1.sys).1.get i % 2 := by
  obtain ⟨w1, h1, h2, hsvc⟩ := mpu_init_total R C K B S img fuel_load cur w hN hfuel
  obtain ⟨_, st, _, _, h3, _⟩ := calib_run_reach R B fuel hdrain
    (calib_begin R B w1.sys pckt more) 99
  have h3c : calib_loop R B fuel 100 0 (calib_begin R B w1.sys pckt more) = some st := h3
  obtain ⟨n1, hl⟩ := calib_loop_irq_ok R B irq fuel_irq fuel hirq 100 0 n0 _ st h3c
  obtain ⟨wf, h5, h6, _⟩ := mpu_init_total R C K B S img fuel_load cur
    (save_tracker_settings S { w1 with sys := st.sys }
      { is_calibrated := 1, gyro_bias := st.gyro_bias, accel_bias := st.accel_bias,
        rf_power := p0.rf_power }) hN hfuel
  refine ⟨w1, wf, h1, ?_, ?_, st.sys.trace.length,
    { is_calibrated := 1, gyro_bias := st.gyro_bias, accel_bias := st.accel_bias,
      rf_power := p0.rf_power }, st, h3, ?_, rfl, ?_⟩
  · have hset1 : S.get_tracker_settings w1.svc = some p0 := by rw [hsvc, hset]
    simp only [mpu_calibrate_bias, h1, hset1, hl, h5]
  · intro k _
    obtain ⟨stk, st1, a1, a2, a3, a4⟩ := calib_run_reach R B fuel hdrain
      (calib_begin R B w1.sys pckt more) k
    refine ⟨stk, st1, a1, a2, a4, ?_⟩
    intro i hi
    have hp := calib_run_parity R B w1.sys pckt more fuel (k + 1) st1 a3 i hi
    exact ⟨hp, by rw [lo_byte_parity, hp]⟩
  · rw [h6, ← h2]
    simp [save_tracker_settings, saves_of, List.filterMap_append]
  · intro i hi
    exact calib_run_parity R B w1.sys pckt more fuel 100 st h3 i hi

theorem fifo_bus_odd_drain (p : mpu_packet_t) (m : Nat) (s : Sys Unit) :
    drain_fifo mpu6050_regs (fifo_bus mpu6050_regs true true 32 odd_record) 1 p m s ≠ none := by
  simp [drain_fifo, dmp_read_fifo, mpu_read_fifo_stream, i2c_read, fifo_bus, mpu6050_regs,
    PACKET_LENGTH, List.range, List.range.loop]

set_option maxRecDepth 100000 in
/-- C21 on a device whose bias registers read 32767 (odd) and whose queue always holds
a record with accelerations -1, 1, 16384, with stored settings and an alternating
interrupt line: the hypotheses hold, so every pushed and the saved accel bias are odd;
in iteration 0 the bias of axis 0 wraps from 32767 to -32759, that of axis 1 goes to
32757, that of axis 2 stays. -/
theorem accel_bias_low_bit_witness :
    test_image.length < 65536 ∧ chunk_count test_image.length ≤ 3 ∧
    mem_svc.get_tracker_settings (stored_world ()).svc = some stored_settings ∧
    (∀ n, irq_edge alt_irq 2 n ≠ none) ∧
    (∀ p m s, drain_fifo mpu6050_regs (fifo_bus mpu6050_regs true true 32 odd_record) 1 p m s
      ≠ none) ∧
    (mpu_read_accel_bias mpu6050_regs (fifo_bus mpu6050_regs true true 32 odd_record)
      (fresh ())).1 = { x0 := 32767, x1 := 32767, x2 := 32767 } ∧
    (∃ st1, calib_iteration mpu6050_regs (fifo_bus mpu6050_regs true true 32 odd_record) 1 0
        (calib_begin mpu6050_regs (fifo_bus mpu6050_regs true true 32 odd_record) (fresh ())
          zero_packet 0) = some st1 ∧
      st1.accel_bias = { x0 := -32759, x1 := 32757, x2 := 32767 }) ∧
    ∃ w1 wf,
      mpu_init mpu6050_regs mpu6050_ctl empl_keys (fifo_bus mpu6050_regs true true 32 odd_record)
        mem_svc test_image 3 [] (stored_world ()) = some w1 ∧
      mpu_calibrate_bias mpu6050_regs mpu6050_ctl empl_keys
        (fifo_bus mpu6050_regs true true 32 odd_record) mem_svc test_image 3 2 1 [] zero_packet 0
        alt_irq 0 (stored_world ()) = Except.ok wf ∧
      (∀ k, k < 100 → ∃ stk st1,
        calib_run mpu6050_regs (fifo_bus mpu6050_regs true true 32 odd_record) 1 k
          (calib_begin mpu6050_regs (fifo_bus mpu6050_regs true true 32 odd_record) w1.sys
            zero_packet 0) = some stk ∧
        calib_iteration mpu6050_regs (fifo_bus mpu6050_regs true true 32 odd_record) 1 k stk =
          some st1 ∧
        (∃ t, st1.sys.trace = t ++ push_ops mpu6050_regs st1.gyro_bias st1.accel_bias) ∧
        ∀ i, i < 3 →
          st1.accel_bias.get i % 2 =
            (mpu_read_accel_bias mpu6050_regs (fifo_bus mpu6050_regs true true 32 odd_record)
              w1.sys).1.get i % 2 ∧
          ((lo_byte (st1.accel_bias.get i) : Nat) : Int) % 2 =
            (mpu_read_accel_bias mpu6050_regs (fifo_bus mpu6050_regs true true 32 odd_record)
              w1.sys).1.get i % 2) ∧
      ∃ n p st,
        calib_run mpu6050_regs (fifo_bus mpu6050_regs true true 32 odd_record) 1 100
          (calib_begin mpu6050_regs (fifo_bus mpu6050_regs true true 32 odd_record) w1.sys
            zero_packet 0) = some st ∧
        saves_of wf.calls = saves_of (stored_world ()).calls ++ [(n, p)] ∧
        p.accel_bias = st.accel_bias ∧
        ∀ i, i < 3 → p.accel_bias.get i % 2 =
          (mpu_read_accel_bias mpu6050_regs (fifo_bus mpu6050_regs true true 32 odd_record)
            w1.sys).1.get i % 2 :=
  ⟨by decide, by decide, rfl, alt_irq_edge, fifo_bus_odd_drain, by decide, ⟨_, rfl, by decide⟩,
    accel_bias_low_bit mpu6050_regs mpu6050_ctl empl_keys
      (fifo_bus mpu6050_regs true true 32 odd_record) mem_svc test_image 3 2 1 [] zero_packet 0
      alt_irq 0 (stored_world ()) stored_settings (by decide) (by decide) rfl alt_irq_edge
      fifo_bus_odd_drain⟩

end MpuSimple
